import Mathlib

/-!
Verification development for the engram-go SDK: a shallow embedding of the
codec/integrity layer (`engram.go`-style `Encode`/`Decode`/`VerifyIntegrity`/
`StreamReader`) and the in-memory index (`tree.go`), with theorems settling
the specification claims.

Modeling conventions:
* Go `string` values are byte sequences; they are modeled as `List Nat`
  (`GoStr`), each entry a byte.  Go performs no UTF-8 processing anywhere in
  this code base, so this is the exact wire-level view.
* Go `float32` values are modeled by their IEEE-754 bit patterns (a `Nat`
  below `2^32`); msgpack serializes exactly these four bytes.
* Go `int` is modeled as `Int` (64-bit two's-complement on the wire where
  serialized).
* `map[string]interface{}` values are modeled as association lists of
  msgpack value trees (`MsgVal`), which is what such a map holds after a
  decode round-trip.
* Byte buffers are `List Nat` with entries below 256.
-/

namespace Engram

/-- Go strings, viewed as their byte sequences. -/
abbrev GoStr := List Nat

/-- Byte buffers. -/
abbrev Bytes := List Nat

/-- Lift an ASCII Lean string literal to a Go string (used for concrete
inputs only; all strings that appear in claims are ASCII). -/
def gs (s : String) : GoStr := s.data.map Char.toNat

/-- ASCII lower-casing, the restriction of Go `strings.ToLower` to ASCII
byte sequences such as hex digests. -/
def asciiToLower (s : GoStr) : GoStr :=
  s.map fun b => if 65 ≤ b ∧ b ≤ 90 then b + 32 else b

/-- Big-endian byte rendering of `n` in exactly `w` bytes (the low
`8*w` bits of `n`). -/
def be : Nat → Nat → List Nat
  | 0, _ => []
  | w + 1, n => be w (n / 256) ++ [n % 256]

theorem be_length (w n : Nat) : (be w n).length = w := by
  induction w generalizing n with
  | zero => rfl
  | succ w ih => simp [be, ih]

/-- Recombine big-endian bytes into a value. -/
def beVal (bs : List Nat) : Nat := bs.foldl (fun acc b => acc * 256 + b) 0

theorem beVal_foldl (bs : List Nat) (acc : Nat) :
    bs.foldl (fun a b => a * 256 + b) acc =
      acc * 256 ^ bs.length + bs.foldl (fun a b => a * 256 + b) 0 := by
  induction bs generalizing acc with
  | nil => simp
  | cons b bs ih =>
      simp only [List.foldl_cons, List.length_cons, Nat.zero_mul, Nat.zero_add]
      rw [ih (acc * 256 + b), ih b]
      ring

theorem beVal_be (w n : Nat) (h : n < 256 ^ w) : beVal (be w n) = n := by
  induction w generalizing n with
  | zero =>
      interval_cases n
      rfl
  | succ w ih =>
      have hdiv : n / 256 < 256 ^ w := by
        rw [Nat.div_lt_iff_lt_mul (by norm_num)]
        calc n < 256 ^ (w + 1) := h
        _ = 256 ^ w * 256 := by ring
      simp only [be, beVal, List.foldl_append, List.foldl_cons, List.foldl_nil]
      have := beVal_foldl (be w (n / 256)) 0
      have hfold : (be w (n / 256)).foldl (fun a b => a * 256 + b) 0 = n / 256 := ih _ hdiv
      rw [hfold]
      omega

/-! ## SHA-256

A direct transcription of FIPS 180-4 over `Nat` with explicit reduction
modulo `2^32`, matching Go's `crypto/sha256.Sum256`. -/

/-- Truncate to 32 bits. -/
def w32 (n : Nat) : Nat := n % 4294967296

/-- Rotate a 32-bit word right by `r` bits. -/
def rotr (r x : Nat) : Nat := w32 (x / 2 ^ r + x % 2 ^ r * 2 ^ (32 - r))

/-- Shift a 32-bit word right by `r` bits. -/
def shr (r x : Nat) : Nat := x / 2 ^ r

/-- Bitwise complement of a 32-bit word. -/
def not32 (x : Nat) : Nat := 4294967295 - x % 4294967296

/-- SHA-256 round constants. -/
def sha256K : List Nat :=
  [1116352408, 1899447441, 3049323471, 3921009573, 961987163,
   1508970993, 2453635748, 2870763221, 3624381080, 310598401, 607225278,
   1426881987, 1925078388, 2162078206, 2614888103, 3248222580,
   3835390401, 4022224774, 264347078, 604807628, 770255983, 1249150122,
   1555081692, 1996064986, 2554220882, 2821834349, 2952996808,
   3210313671, 3336571891, 3584528711, 113926993, 338241895, 666307205,
   773529912, 1294757372, 1396182291, 1695183700, 1986661051,
   2177026350, 2456956037, 2730485921, 2820302411, 3259730800,
   3345764771, 3516065817, 3600352804, 4094571909, 275423344, 430227734,
   506948616, 659060556, 883997877, 958139571, 1322822218, 1537002063,
   1747873779, 1955562222, 2024104815, 2227730452, 2361852424,
   2428436474, 2756734187, 3204031479, 3329325298]

/-- Initial SHA-256 hash state. -/
def sha256H0 : List Nat :=
  [1779033703, 3144134277, 1013904242, 2773480762, 1359893119,
   2600822924, 528734635, 1541459225]

/-- Split a byte list into 32-bit big-endian words (length must be a
multiple of 4). -/
def toWords : List Nat → List Nat
  | b0 :: b1 :: b2 :: b3 :: rest =>
      (((b0 * 256 + b1) * 256 + b2) * 256 + b3) :: toWords rest
  | _ => []

/-- One step of the SHA-256 message-schedule extension, producing word
`i + 16` from a reversed accumulator of earlier words. -/
def schedStep (acc : List Nat) : Nat :=
  let g (k : Nat) : Nat := acc.getD k 0
  let s0 := (rotr 7 (g 14)) ^^^ (rotr 18 (g 14)) ^^^ (shr 3 (g 14))
  let s1 := (rotr 17 (g 1)) ^^^ (rotr 19 (g 1)) ^^^ (shr 10 (g 1))
  w32 (g 15 + s0 + g 6 + s1)

/-- Extend 16 message words to 64, accumulating in reverse order. -/
def extendWords : Nat → List Nat → List Nat
  | 0, acc => acc.reverse
  | n + 1, acc => extendWords n (schedStep acc :: acc)

/-- One SHA-256 compression round. -/
def round (st : List Nat) (kw : Nat × Nat) : List Nat :=
  match st with
  | [a, b, c, d, e, f, g, h] =>
      let s1 := (rotr 6 e) ^^^ (rotr 11 e) ^^^ (rotr 25 e)
      let ch := (e &&& f) ^^^ (not32 e &&& g)
      let t1 := w32 (h + s1 + ch + kw.1 + kw.2)
      let s0 := (rotr 2 a) ^^^ (rotr 13 a) ^^^ (rotr 22 a)
      let mj := (a &&& b) ^^^ (a &&& c) ^^^ (b &&& c)
      let t2 := w32 (s0 + mj)
      [w32 (t1 + t2), a, b, c, w32 (d + t1), e, f, g]
  | st => st

/-- Compress one 64-byte block into the hash state. -/
def compress (h : List Nat) (block : List Nat) : List Nat :=
  let ws := extendWords 48 (toWords block).reverse
  let st := (sha256K.zip ws).foldl (fun st kw => round st kw) h
  (h.zip st).map fun p => w32 (p.1 + p.2)

/-- Split a list into 64-byte chunks (structural recursion on a fuel
bound so that the definition reduces inside the kernel). -/
def chunks64Go : Nat → List Nat → List (List Nat)
  | 0, _ => []
  | _, [] => []
  | fuel + 1, b :: l => (b :: l).take 64 :: chunks64Go fuel ((b :: l).drop 64)

/-- Split a list into 64-byte chunks. -/
def chunks64 (l : List Nat) : List (List Nat) := chunks64Go l.length l

/-- SHA-256 padding: append `0x80`, zero bytes to 56 mod 64, then the
bit length as 8 big-endian bytes. -/
def sha256Pad (msg : List Nat) : List Nat :=
  let padLen := (55 + 64 - msg.length % 64) % 64 + 1
  msg ++ [0x80] ++ List.replicate (padLen - 1) 0 ++ be 8 (msg.length * 8)

/-- SHA-256 digest (32 bytes) of a byte sequence, as computed by Go
`sha256.Sum256`. -/
def sha256 (msg : List Nat) : List Nat :=
  let final := (chunks64 (sha256Pad msg)).foldl compress sha256H0
  (final.map (be 4)).flatten

/-- Hex digit characters (lowercase), as bytes. -/
def hexDigitL (d : Nat) : Nat := if d < 10 then 48 + d else 87 + d

/-- Hex digit characters (uppercase), as bytes. -/
def hexDigitU (d : Nat) : Nat := if d < 10 then 48 + d else 55 + d

/-- Lowercase hex rendering of a byte sequence, as Go
`hex.EncodeToString`. -/
def hexLower (bs : List Nat) : GoStr :=
  (bs.map fun b => [hexDigitL (b / 16), hexDigitL (b % 16)]).flatten

/-- Uppercase hex rendering of a byte sequence. -/
def hexUpper (bs : List Nat) : GoStr :=
  (bs.map fun b => [hexDigitU (b / 16), hexDigitU (b % 16)]).flatten

end Engram

namespace Engram

/-! ## Data model

The Go struct definitions (`types.go`), with msgpack wire names as given by
the struct tags.  `float32` fields hold IEEE-754 bit patterns.  `int` fields
are `Int`.  `*time.Time` fields are `Option TimeVal`.
`map[string]interface{}` fields are association lists of msgpack value
trees. -/

/-- A `time.Time` value, reduced to the data the msgpack timestamp
extension serializes: Unix seconds and the nanosecond part. -/
structure TimeVal where
  sec : Int
  nsec : Nat
deriving DecidableEq

/-- A msgpack value tree: the model of a Go `interface{}` holding decoded
msgpack data (entries of the `custom`/`metadata` free-form maps). -/
inductive MsgVal where
  | nil : MsgVal
  | bool (b : Bool) : MsgVal
  | int (n : Int) : MsgVal
  | f32 (bits : Nat) : MsgVal
  | f64 (bits : Nat) : MsgVal
  | str (s : GoStr) : MsgVal
  | bin (bs : List Nat) : MsgVal
  | arr (vs : List MsgVal) : MsgVal
  | mp (kvs : List (GoStr × MsgVal)) : MsgVal
  | ext (ty : Nat) (payload : List Nat) : MsgVal

mutual

/-- Structural Boolean equality on msgpack value trees. -/
def beqVal : MsgVal → MsgVal → Bool
  | .nil, .nil => true
  | .bool a, .bool b => a == b
  | .int a, .int b => a == b
  | .f32 a, .f32 b => a == b
  | .f64 a, .f64 b => a == b
  | .str a, .str b => a == b
  | .bin a, .bin b => a == b
  | .arr a, .arr b => beqValList a b
  | .mp a, .mp b => beqValKVs a b
  | .ext t p, .ext u q => t == u && p == q
  | _, _ => false

/-- Boolean equality on value lists. -/
def beqValList : List MsgVal → List MsgVal → Bool
  | [], [] => true
  | a :: as, b :: bs => beqVal a b && beqValList as bs
  | _, _ => false

/-- Boolean equality on key/value lists. -/
def beqValKVs : List (GoStr × MsgVal) → List (GoStr × MsgVal) → Bool
  | [], [] => true
  | (k, v) :: as, (u, w) :: bs => k == u && beqVal v w && beqValKVs as bs
  | _, _ => false

end

theorem beqValList_sound (as : List MsgVal)
    (ih : ∀ a ∈ as, ∀ b, beqVal a b = true → a = b) :
    ∀ bs, beqValList as bs = true → as = bs := by
  induction as with
  | nil =>
      intro bs h
      cases bs with
      | nil => rfl
      | cons b bs => simp [beqValList] at h
  | cons a as iha =>
      intro bs h
      cases bs with
      | nil => simp [beqValList] at h
      | cons b bs =>
          simp only [beqValList, Bool.and_eq_true] at h
          have h1 := ih a (by simp) b h.1
          have h2 := iha (fun x hx y => ih x (by simp [hx]) y) bs h.2
          rw [h1, h2]

theorem beqValKVs_sound (as : List (GoStr × MsgVal))
    (ih : ∀ kv ∈ as, ∀ b, beqVal kv.2 b = true → kv.2 = b) :
    ∀ bs, beqValKVs as bs = true → as = bs := by
  induction as with
  | nil =>
      intro bs h
      cases bs with
      | nil => rfl
      | cons b bs =>
          obtain ⟨u, w⟩ := b
          simp [beqValKVs] at h
  | cons a as iha =>
      obtain ⟨k, v⟩ := a
      intro bs h
      cases bs with
      | nil => simp [beqValKVs] at h
      | cons b bs =>
          obtain ⟨u, w⟩ := b
          simp only [beqValKVs, Bool.and_eq_true, beq_iff_eq] at h
          have h1 : v = w := ih (k, v) (by simp) w h.1.2
          have h2 := iha (fun x hx y => ih x (by simp [hx]) y) bs h.2
          simp only [h.1.1, h1, h2]

theorem beqVal_sound : ∀ a b : MsgVal, beqVal a b = true → a = b := by
  suffices h : ∀ (n : Nat) (a b : MsgVal), sizeOf a ≤ n → beqVal a b = true → a = b by
    exact fun a b => h (sizeOf a) a b le_rfl
  intro n
  induction n with
  | zero =>
      intro a b hsz
      cases a <;> simp at hsz
  | succ n ih =>
      intro a b hsz h
      cases a <;> cases b <;> try simp_all [beqVal]
      case arr.arr as bs =>
        have hlist : ∀ x ∈ as, ∀ y, beqVal x y = true → x = y := by
          intro x hx y hxy
          have h1 : sizeOf x < sizeOf as := List.sizeOf_lt_of_mem hx
          have h2 : 1 + sizeOf as ≤ n + 1 := by simpa using hsz
          exact ih x y (by omega) hxy
        have h' : beqValList as bs = true := by simpa [beqVal] using h
        rw [beqValList_sound as hlist bs h']
      case mp.mp as bs =>
        have hkvs : ∀ kv ∈ as, ∀ y, beqVal kv.2 y = true → kv.2 = y := by
          intro kv hkv y hxy
          have h1 : sizeOf kv < sizeOf as := List.sizeOf_lt_of_mem hkv
          have h2 : 1 + sizeOf as ≤ n + 1 := by simpa using hsz
          obtain ⟨k, v⟩ := kv
          have h3 : 1 + sizeOf k + sizeOf v = sizeOf ((k, v) : GoStr × MsgVal) := by simp
          exact ih v y (by omega) hxy
        have h' : beqValKVs as bs = true := by simpa [beqVal] using h
        rw [beqValKVs_sound as hkvs bs h']

theorem beqValList_refl (as : List MsgVal) (ih : ∀ a ∈ as, beqVal a a = true) :
    beqValList as as = true := by
  induction as with
  | nil => rfl
  | cons a as iha =>
      simp only [beqValList, Bool.and_eq_true]
      exact ⟨ih a (by simp), iha fun x hx => ih x (by simp [hx])⟩

theorem beqValKVs_refl (as : List (GoStr × MsgVal)) (ih : ∀ kv ∈ as, beqVal kv.2 kv.2 = true) :
    beqValKVs as as = true := by
  induction as with
  | nil => rfl
  | cons a as iha =>
      obtain ⟨k, v⟩ := a
      simp only [beqValKVs, Bool.and_eq_true, beq_self_eq_true, true_and]
      exact ⟨ih (k, v) (by simp), iha fun x hx => ih x (by simp [hx])⟩

theorem beqVal_refl : ∀ a : MsgVal, beqVal a a = true := by
  suffices h : ∀ (n : Nat) (a : MsgVal), sizeOf a ≤ n → beqVal a a = true by
    exact fun a => h (sizeOf a) a le_rfl
  intro n
  induction n with
  | zero =>
      intro a hsz
      cases a <;> simp at hsz
  | succ n ih =>
      intro a hsz
      cases a <;> try simp [beqVal]
      case arr as =>
        refine beqValList_refl as fun x hx => ?_
        have h1 : sizeOf x < sizeOf as := List.sizeOf_lt_of_mem hx
        have h2 : 1 + sizeOf as ≤ n + 1 := by simpa using hsz
        exact ih x (by omega)
      case mp as =>
        refine beqValKVs_refl as fun kv hkv => ?_
        have h1 : sizeOf kv < sizeOf as := List.sizeOf_lt_of_mem hkv
        have h2 : 1 + sizeOf as ≤ n + 1 := by simpa using hsz
        obtain ⟨k, v⟩ := kv
        have h3 : 1 + sizeOf k + sizeOf v = sizeOf ((k, v) : GoStr × MsgVal) := by simp
        exact ih v (by omega)

instance : DecidableEq MsgVal := fun a b =>
  decidable_of_iff (beqVal a b = true)
    ⟨beqVal_sound a b, fun h => by rw [h]; exact beqVal_refl b⟩

/-- `Entity` (wire names `name`, `type`, `confidence`, `start`, `end`). -/
structure Entity where
  name : GoStr
  type : GoStr
  confidence : Nat
  start : Int
  «end» : Int
deriving DecidableEq

/-- `Link` (wire names `targetId`, `type`, `weight`, `metadata`). -/
structure Link where
  targetId : GoStr
  type : GoStr
  weight : Nat
  metadata : List (GoStr × MsgVal)
deriving DecidableEq

/-- `NodeMeta` (wire names `source`, `createdAt`, `updatedAt`,
`confidence`, `importance`, `accessCount`, `custom`). -/
structure NodeMeta where
  source : GoStr
  createdAt : Option TimeVal
  updatedAt : Option TimeVal
  confidence : Nat
  importance : Nat
  accessCount : Int
  custom : List (GoStr × MsgVal)
deriving DecidableEq

/-- `MemoryNode` (wire names `id`, `content`, `embedding`, `tags`,
`entities`, `links`, `metadata`, `children`, `parentId`). -/
structure MemoryNode where
  id : GoStr
  content : GoStr
  embedding : List Nat
  tags : List GoStr
  entities : List Entity
  links : List Link
  metadata : NodeMeta
  children : List GoStr
  parentId : GoStr
deriving DecidableEq

/-- `SchemaInfo` (wire names `version`, `embeddingModel`, `embeddingDim`,
`features`). -/
structure SchemaInfo where
  version : GoStr
  embeddingModel : GoStr
  embeddingDim : Int
  features : List GoStr
deriving DecidableEq

/-- `SecurityInfo` (wire names `integrity`, `encryption`, `keyId`). -/
structure SecurityInfo where
  integrity : GoStr
  encryption : GoStr
  keyId : GoStr
deriving DecidableEq

/-- `FileMeta` (wire names `title`, `description`, `author`, `license`,
`tags`, `custom`). -/
structure FileMeta where
  title : GoStr
  description : GoStr
  author : GoStr
  license : GoStr
  tags : List GoStr
  custom : List (GoStr × MsgVal)
deriving DecidableEq

/-- `EngramHeader` (wire names `version`, `created`, `modified`,
`nodeCount`, `schema`, `security`, `metadata`). -/
structure EngramHeader where
  version : GoStr
  created : GoStr
  modified : GoStr
  nodeCount : Int
  schema : SchemaInfo
  security : SecurityInfo
  metadata : FileMeta
deriving DecidableEq

/-- `EngramFile`: one header plus an ordered node sequence. -/
structure EngramFile where
  header : EngramHeader
  nodes : List MemoryNode
deriving DecidableEq

/-- Zero value of `NodeMeta` (Go zero struct). -/
def zeroNodeMeta : NodeMeta := ⟨[], none, none, 0, 0, 0, []⟩

/-- Zero value of `MemoryNode`. -/
def zeroMemoryNode : MemoryNode := ⟨[], [], [], [], [], [], zeroNodeMeta, [], []⟩

/-- Zero value of `Entity`. -/
def zeroEntity : Entity := ⟨[], [], 0, 0, 0⟩

/-- Zero value of `Link`. -/
def zeroLink : Link := ⟨[], [], 0, []⟩

/-- Zero value of `SchemaInfo`. -/
def zeroSchemaInfo : SchemaInfo := ⟨[], [], 0, []⟩

/-- Zero value of `SecurityInfo`. -/
def zeroSecurityInfo : SecurityInfo := ⟨[], [], []⟩

/-- Zero value of `FileMeta`. -/
def zeroFileMeta : FileMeta := ⟨[], [], [], [], [], []⟩

/-- Zero value of `EngramHeader`. -/
def zeroHeader : EngramHeader := ⟨[], [], [], 0, zeroSchemaInfo, zeroSecurityInfo, zeroFileMeta⟩

/-! Wire keys (ASCII byte sequences of the msgpack struct-tag names). -/

/-- Wire key `id`. -/
def kId : GoStr := [105, 100]

/-- Wire key `content`. -/
def kContent : GoStr := [99, 111, 110, 116, 101, 110, 116]

/-- Wire key `embedding`. -/
def kEmbedding : GoStr := [101, 109, 98, 101, 100, 100, 105, 110, 103]

/-- Wire key `tags`. -/
def kTags : GoStr := [116, 97, 103, 115]

/-- Wire key `entities`. -/
def kEntities : GoStr := [101, 110, 116, 105, 116, 105, 101, 115]

/-- Wire key `links`. -/
def kLinks : GoStr := [108, 105, 110, 107, 115]

/-- Wire key `metadata`. -/
def kMetadata : GoStr := [109, 101, 116, 97, 100, 97, 116, 97]

/-- Wire key `children`. -/
def kChildren : GoStr := [99, 104, 105, 108, 100, 114, 101, 110]

/-- Wire key `parentId`. -/
def kParentId : GoStr := [112, 97, 114, 101, 110, 116, 73, 100]

/-- Wire key `name`. -/
def kName : GoStr := [110, 97, 109, 101]

/-- Wire key `type`. -/
def kType : GoStr := [116, 121, 112, 101]

/-- Wire key `confidence`. -/
def kConfidence : GoStr := [99, 111, 110, 102, 105, 100, 101, 110, 99, 101]

/-- Wire key `start`. -/
def kStart : GoStr := [115, 116, 97, 114, 116]

/-- Wire key `end`. -/
def kEnd : GoStr := [101, 110, 100]

/-- Wire key `targetId`. -/
def kTargetId : GoStr := [116, 97, 114, 103, 101, 116, 73, 100]

/-- Wire key `weight`. -/
def kWeight : GoStr := [119, 101, 105, 103, 104, 116]

/-- Wire key `source`. -/
def kSource : GoStr := [115, 111, 117, 114, 99, 101]

/-- Wire key `createdAt`. -/
def kCreatedAt : GoStr := [99, 114, 101, 97, 116, 101, 100, 65, 116]

/-- Wire key `updatedAt`. -/
def kUpdatedAt : GoStr := [117, 112, 100, 97, 116, 101, 100, 65, 116]

/-- Wire key `importance`. -/
def kImportance : GoStr := [105, 109, 112, 111, 114, 116, 97, 110, 99, 101]

/-- Wire key `accessCount`. -/
def kAccessCount : GoStr := [97, 99, 99, 101, 115, 115, 67, 111, 117, 110, 116]

/-- Wire key `custom`. -/
def kCustom : GoStr := [99, 117, 115, 116, 111, 109]

/-- Wire key `version`. -/
def kVersion : GoStr := [118, 101, 114, 115, 105, 111, 110]

/-- Wire key `created`. -/
def kCreated : GoStr := [99, 114, 101, 97, 116, 101, 100]

/-- Wire key `modified`. -/
def kModified : GoStr := [109, 111, 100, 105, 102, 105, 101, 100]

/-- Wire key `nodeCount`. -/
def kNodeCount : GoStr := [110, 111, 100, 101, 67, 111, 117, 110, 116]

/-- Wire key `schema`. -/
def kSchema : GoStr := [115, 99, 104, 101, 109, 97]

/-- Wire key `security`. -/
def kSecurity : GoStr := [115, 101, 99, 117, 114, 105, 116, 121]

/-- Wire key `integrity`. -/
def kIntegrity : GoStr := [105, 110, 116, 101, 103, 114, 105, 116, 121]

/-- Wire key `encryption`. -/
def kEncryption : GoStr := [101, 110, 99, 114, 121, 112, 116, 105, 111, 110]

/-- Wire key `keyId`. -/
def kKeyId : GoStr := [107, 101, 121, 73, 100]

/-- Wire key `embeddingModel`. -/
def kEmbeddingModel : GoStr :=
  [101, 109, 98, 101, 100, 100, 105, 110, 103, 77, 111, 100, 101, 108]

/-- Wire key `embeddingDim`. -/
def kEmbeddingDim : GoStr := [101, 109, 98, 101, 100, 100, 105, 110, 103, 68, 105, 109]

/-- Wire key `features`. -/
def kFeatures : GoStr := [102, 101, 97, 116, 117, 114, 101, 115]

/-- Wire key `title`. -/
def kTitle : GoStr := [116, 105, 116, 108, 101]

/-- Wire key `description`. -/
def kDescription : GoStr := [100, 101, 115, 99, 114, 105, 112, 116, 105, 111, 110]

/-- Wire key `author`. -/
def kAuthor : GoStr := [97, 117, 116, 104, 111, 114]

/-- Wire key `license`. -/
def kLicense : GoStr := [108, 105, 99, 101, 110, 115, 101]

end Engram

namespace Engram

/-! ## msgpack encoding

The encoders below model `msgpack.Marshal` of github.com/vmihailenco/msgpack/v5
on the concrete Go types of this repository: structs become maps keyed by
the tag names (fields tagged `omitempty` are dropped when they hold the Go
zero value; struct-typed fields are never dropped, since v5's emptiness
test does not apply to structs), integers use the shortest integer form,
`float32` uses the `0xca` form, strings use raw/str forms, slices use
arrays, and `time.Time` uses the `-1` timestamp extension. -/

/-- msgpack header for a string of `len` bytes. -/
def encStrHdr (len : Nat) : Bytes :=
  if len < 32 then [0xa0 + len]
  else if len < 256 then [0xd9, len]
  else if len < 65536 then 0xda :: be 2 len
  else 0xdb :: be 4 len

/-- msgpack string. -/
def encStr (s : GoStr) : Bytes := encStrHdr s.length ++ s

/-- msgpack header for an array of `n` elements. -/
def encArrHdr (n : Nat) : Bytes :=
  if n < 16 then [0x90 + n]
  else if n < 65536 then 0xdc :: be 2 n
  else 0xdd :: be 4 n

/-- msgpack header for a map of `n` pairs. -/
def encMapHdr (n : Nat) : Bytes :=
  if n < 16 then [0x80 + n]
  else if n < 65536 then 0xde :: be 2 n
  else 0xdf :: be 4 n

/-- msgpack integer, shortest form, as `Encoder.EncodeInt`. -/
def encInt (i : Int) : Bytes :=
  if 0 ≤ i then
    let n := i.toNat
    if n < 128 then [n]
    else if n < 256 then [0xcc, n]
    else if n < 65536 then 0xcd :: be 2 n
    else if n < 4294967296 then 0xce :: be 4 n
    else 0xcf :: be 8 n
  else
    if -32 ≤ i then [(i + 256).toNat]
    else if -128 ≤ i then [0xd0, (i + 256).toNat]
    else if -32768 ≤ i then 0xd1 :: be 2 (i + 65536).toNat
    else if -2147483648 ≤ i then 0xd2 :: be 4 (i + 4294967296).toNat
    else 0xd3 :: be 8 (i + 18446744073709551616).toNat

/-- msgpack float32 (IEEE bit pattern). -/
def encF32 (bits : Nat) : Bytes := 0xca :: be 4 bits

/-- msgpack float64 (IEEE bit pattern). -/
def encF64 (bits : Nat) : Bytes := 0xcb :: be 8 bits

/-- msgpack binary. -/
def encBin (bs : List Nat) : Bytes :=
  (if bs.length < 256 then [0xc4, bs.length]
   else if bs.length < 65536 then 0xc5 :: be 2 bs.length
   else 0xc6 :: be 4 bs.length) ++ bs

/-- msgpack extension header for type `ty` and `len` payload bytes. -/
def encExtHdr (ty len : Nat) : Bytes :=
  if len = 1 then [0xd4, ty]
  else if len = 2 then [0xd5, ty]
  else if len = 4 then [0xd6, ty]
  else if len = 8 then [0xd7, ty]
  else if len = 16 then [0xd8, ty]
  else if len < 256 then [0xc7, len, ty]
  else if len < 65536 then 0xc8 :: be 2 len ++ [ty]
  else 0xc9 :: be 4 len ++ [ty]

/-- Unsigned 64-bit (two's-complement) image of an `Int`. -/
def u64ofInt (i : Int) : Nat := (i % 18446744073709551616).toNat

/-- msgpack `-1` timestamp extension of a `time.Time`, as v5
`Encoder.EncodeTime`: timestamp32 when the nanoseconds are zero and the
unsigned seconds fit 32 bits, timestamp64 when the unsigned seconds fit 34
bits, timestamp96 otherwise. -/
def encTime (t : TimeVal) : Bytes :=
  let secU := u64ofInt t.sec
  if secU < 17179869184 then
    let dat := t.nsec * 17179869184 + secU
    if dat < 4294967296 then [0xd6, 0xff] ++ be 4 dat
    else [0xd7, 0xff] ++ be 8 dat
  else [0xc7, 12, 0xff] ++ be 4 t.nsec ++ be 8 secU

/-- Optional segment from an optional (pointer) field: nothing when the
pointer is nil, one element otherwise. -/
def optSeg {α β : Type} (o : Option α) (g : α → β) : List β :=
  match o with
  | none => []
  | some t => [g t]

/-- One encoded struct field: key plus encoded value. -/
def encField (k : GoStr) (v : Bytes) : Bytes := encStr k ++ v

/-- Encoded struct: map header for the present fields, then the fields. -/
def encFields (fs : List Bytes) : Bytes := encMapHdr fs.length ++ fs.flatten

/-- Generic msgpack array from an element encoder. -/
def encArray (f : α → Bytes) (xs : List α) : Bytes :=
  encArrHdr xs.length ++ (xs.map f).flatten

/-- Emptiness test Go applies to `float32` fields under `omitempty`
(`v.Float() == 0`, which holds for both IEEE zeros). -/
def floatZero (bits : Nat) : Prop := bits = 0 ∨ bits = 2147483648

instance (bits : Nat) : Decidable (floatZero bits) := by
  unfold floatZero
  infer_instance

mutual

/-- msgpack encoding of a decoded-`interface{}` value tree. -/
def encVal : MsgVal → Bytes
  | .nil => [0xc0]
  | .bool false => [0xc2]
  | .bool true => [0xc3]
  | .int i => encInt i
  | .f32 bits => encF32 bits
  | .f64 bits => encF64 bits
  | .str s => encStr s
  | .bin bs => encBin bs
  | .arr vs => encArrHdr vs.length ++ encValList vs
  | .mp kvs => encMapHdr kvs.length ++ encValKVs kvs
  | .ext ty payload => encExtHdr ty payload.length ++ payload

/-- Concatenated encodings of array elements. -/
def encValList : List MsgVal → Bytes
  | [] => []
  | v :: vs => encVal v ++ encValList vs

/-- Concatenated encodings of map pairs. -/
def encValKVs : List (GoStr × MsgVal) → Bytes
  | [] => []
  | (k, v) :: kvs => encStr k ++ encVal v ++ encValKVs kvs

end

/-- msgpack encoding of a `map[string]interface{}` value. -/
def encMapVal (kvs : List (GoStr × MsgVal)) : Bytes :=
  encMapHdr kvs.length ++ encValKVs kvs

/-- msgpack encoding of an `Entity`. -/
def encEntity (e : Entity) : Bytes :=
  encFields
    ([encField kName (encStr e.name), encField kType (encStr e.type)]
     ++ (if floatZero e.confidence then [] else [encField kConfidence (encF32 e.confidence)])
     ++ (if e.start = 0 then [] else [encField kStart (encInt e.start)])
     ++ (if e.«end» = 0 then [] else [encField kEnd (encInt e.«end»)]))

/-- msgpack encoding of a `Link`. -/
def encLink (l : Link) : Bytes :=
  encFields
    ([encField kTargetId (encStr l.targetId), encField kType (encStr l.type)]
     ++ (if floatZero l.weight then [] else [encField kWeight (encF32 l.weight)])
     ++ (if l.metadata.isEmpty then [] else [encField kMetadata (encMapVal l.metadata)]))

/-- msgpack encoding of a `NodeMeta`. -/
def encNodeMeta (m : NodeMeta) : Bytes :=
  encFields
    ((if m.source = [] then [] else [encField kSource (encStr m.source)])
     ++ optSeg m.createdAt (fun t => encField kCreatedAt (encTime t))
     ++ optSeg m.updatedAt (fun t => encField kUpdatedAt (encTime t))
     ++ (if floatZero m.confidence then [] else [encField kConfidence (encF32 m.confidence)])
     ++ (if floatZero m.importance then [] else [encField kImportance (encF32 m.importance)])
     ++ (if m.accessCount = 0 then [] else [encField kAccessCount (encInt m.accessCount)])
     ++ (if m.custom.isEmpty then [] else [encField kCustom (encMapVal m.custom)]))

/-- msgpack encoding of a `MemoryNode`. -/
def encMemoryNode (n : MemoryNode) : Bytes :=
  encFields
    ([encField kId (encStr n.id), encField kContent (encStr n.content)]
     ++ (if n.embedding = [] then [] else [encField kEmbedding (encArray encF32 n.embedding)])
     ++ (if n.tags = [] then [] else [encField kTags (encArray encStr n.tags)])
     ++ (if n.entities.isEmpty then [] else [encField kEntities (encArray encEntity n.entities)])
     ++ (if n.links.isEmpty then [] else [encField kLinks (encArray encLink n.links)])
     ++ [encField kMetadata (encNodeMeta n.metadata)]
     ++ (if n.children = [] then [] else [encField kChildren (encArray encStr n.children)])
     ++ (if n.parentId = [] then [] else [encField kParentId (encStr n.parentId)]))

/-- msgpack encoding of a `SchemaInfo`. -/
def encSchemaInfo (s : SchemaInfo) : Bytes :=
  encFields
    ((if s.version = [] then [] else [encField kVersion (encStr s.version)])
     ++ (if s.embeddingModel = [] then []
         else [encField kEmbeddingModel (encStr s.embeddingModel)])
     ++ (if s.embeddingDim = 0 then [] else [encField kEmbeddingDim (encInt s.embeddingDim)])
     ++ (if s.features = [] then [] else [encField kFeatures (encArray encStr s.features)]))

/-- msgpack encoding of a `SecurityInfo`. -/
def encSecurityInfo (s : SecurityInfo) : Bytes :=
  encFields
    ((if s.integrity = [] then [] else [encField kIntegrity (encStr s.integrity)])
     ++ (if s.encryption = [] then [] else [encField kEncryption (encStr s.encryption)])
     ++ (if s.keyId = [] then [] else [encField kKeyId (encStr s.keyId)]))

/-- msgpack encoding of a `FileMeta`. -/
def encFileMeta (m : FileMeta) : Bytes :=
  encFields
    ((if m.title = [] then [] else [encField kTitle (encStr m.title)])
     ++ (if m.description = [] then [] else [encField kDescription (encStr m.description)])
     ++ (if m.author = [] then [] else [encField kAuthor (encStr m.author)])
     ++ (if m.license = [] then [] else [encField kLicense (encStr m.license)])
     ++ (if m.tags = [] then [] else [encField kTags (encArray encStr m.tags)])
     ++ (if m.custom.isEmpty then [] else [encField kCustom (encMapVal m.custom)]))

/-- msgpack encoding of an `EngramHeader` (no field of the header struct is
ever omitted: the four scalar fields are not tagged `omitempty`, and the
three struct-typed fields are never considered empty by v5). -/
def encHeader (h : EngramHeader) : Bytes :=
  encFields
    [encField kVersion (encStr h.version), encField kCreated (encStr h.created),
     encField kModified (encStr h.modified), encField kNodeCount (encInt h.nodeCount),
     encField kSchema (encSchemaInfo h.schema),
     encField kSecurity (encSecurityInfo h.security),
     encField kMetadata (encFileMeta h.metadata)]

/-- msgpack encoding of the node sequence (the payload bytes). -/
def encNodes (ns : List MemoryNode) : Bytes := encArray encMemoryNode ns

/-- The fixed magic bytes `"ENGRAM"`. -/
def magicBytes : Bytes := [0x45, 0x4E, 0x47, 0x52, 0x41, 0x4D]

/-- The header value `Encode` actually serializes: `nodeCount`,
`modified` and `security.integrity` overwritten, `created` and `version`
defaulted when empty, everything else as supplied. -/
def updateHeader (now : GoStr) (f : EngramFile) (integrity : GoStr) : EngramHeader :=
  { f.header with
    nodeCount := (f.nodes.length : Int)
    modified := now
    created := if f.header.created = [] then now else f.header.created
    version := if f.header.version = [] then gs "1.0" else f.header.version
    security := { f.header.security with integrity := integrity } }

/-- `Encode`: serialize the nodes, hash them, rebuild the header, and
concatenate magic, header and payload.  `now` stands for the RFC3339
rendering of `time.Now().UTC()`. -/
def encodeFile (now : GoStr) (f : EngramFile) : Bytes :=
  let payloadBytes := encNodes f.nodes
  let integrity := hexLower (sha256 payloadBytes)
  magicBytes ++ encHeader (updateHeader now f integrity) ++ payloadBytes

end Engram

namespace Engram

/-! ## msgpack decoding

Parsers consume a byte list and return the decoded value plus the
remaining bytes (`none` on malformed input), modeling v5's `Decoder` on
the concrete Go types: structs accept map encodings with fields matched by
wire name in any order (unknown keys are skipped), absent fields keep the
Go zero value, and `nil` decodes to a zero struct / empty slice.
Recursive value parsing is fuel-bounded so every parser is structural;
the codec entry points pass `3 * length + 1` fuel, which dominates the
recursion cost of any value that fits in the buffer. -/

/-- Parser: input bytes to value plus remaining bytes. -/
abbrev P (α : Type) := Bytes → Option (α × Bytes)

/-- Read exactly `n` bytes. -/
def readBytesP : Nat → P Bytes
  | 0 => fun l => some ([], l)
  | n + 1 => fun l =>
      match l with
      | [] => none
      | b :: r =>
          match readBytesP n r with
          | some (bs, r') => some (b :: bs, r')
          | none => none

/-- Read a `w`-byte big-endian value. -/
def readBe (w : Nat) : P Nat := fun l =>
  match readBytesP w l with
  | some (bs, r) => some (beVal bs, r)
  | none => none

/-- Parse a msgpack string into Go string bytes. -/
def parseStr : P GoStr := fun l =>
  match l with
  | [] => none
  | c :: r =>
      if 0xa0 ≤ c ∧ c < 0xc0 then readBytesP (c - 0xa0) r
      else if c = 0xd9 then
        match r with
        | [] => none
        | n :: r' => readBytesP n r'
      else if c = 0xda then
        match readBe 2 r with
        | some (n, r') => readBytesP n r'
        | none => none
      else if c = 0xdb then
        match readBe 4 r with
        | some (n, r') => readBytesP n r'
        | none => none
      else none

/-- Parse a msgpack integer (any integer form) into a Go `int`. -/
def parseInt : P Int := fun l =>
  match l with
  | [] => none
  | c :: r =>
      if c < 0x80 then some ((c : Int), r)
      else if c = 0xcc then
        match r with
        | [] => none
        | b :: r' => some ((b : Int), r')
      else if c = 0xcd then
        match readBe 2 r with
        | some (n, r') => some ((n : Int), r')
        | none => none
      else if c = 0xce then
        match readBe 4 r with
        | some (n, r') => some ((n : Int), r')
        | none => none
      else if c = 0xcf then
        match readBe 8 r with
        | some (n, r') => some ((n : Int), r')
        | none => none
      else if c = 0xd0 then
        match r with
        | [] => none
        | b :: r' => some (if b < 128 then (b : Int) else (b : Int) - 256, r')
      else if c = 0xd1 then
        match readBe 2 r with
        | some (n, r') => some (if n < 32768 then (n : Int) else (n : Int) - 65536, r')
        | none => none
      else if c = 0xd2 then
        match readBe 4 r with
        | some (n, r') =>
            some (if n < 2147483648 then (n : Int) else (n : Int) - 4294967296, r')
        | none => none
      else if c = 0xd3 then
        match readBe 8 r with
        | some (n, r') =>
            some (if n < 9223372036854775808 then (n : Int)
                  else (n : Int) - 18446744073709551616, r')
        | none => none
      else if 0xe0 ≤ c ∧ c ≤ 0xff then some ((c : Int) - 256, r)
      else none

/-- Parse a msgpack float32 into its bit pattern. -/
def parseF32 : P Nat := fun l =>
  match l with
  | 0xca :: r => readBe 4 r
  | _ => none

/-- Parse a msgpack `-1` timestamp extension into a `TimeVal`, as v5
`Decoder.DecodeTime`. -/
def parseTime : P TimeVal := fun l =>
  match l with
  | 0xd6 :: 0xff :: r =>
      match readBe 4 r with
      | some (sec, r') => some (⟨(sec : Int), 0⟩, r')
      | none => none
  | 0xd7 :: 0xff :: r =>
      match readBe 8 r with
      | some (dat, r') => some (⟨((dat % 17179869184 : Nat) : Int), dat / 17179869184⟩, r')
      | none => none
  | 0xc7 :: 12 :: 0xff :: r =>
      match readBe 4 r with
      | some (nsec, r') =>
          match readBe 8 r' with
          | some (secU, r'') =>
              some (⟨if secU < 9223372036854775808 then (secU : Int)
                     else (secU : Int) - 18446744073709551616, nsec⟩, r'')
          | none => none
      | none => none
  | _ => none

/-- Parse `n` consecutive values with an element parser. -/
def parseCount (elem : P α) : Nat → P (List α)
  | 0 => fun l => some ([], l)
  | n + 1 => fun l =>
      match elem l with
      | some (v, r) =>
          match parseCount elem n r with
          | some (vs, r') => some (v :: vs, r')
          | none => none
      | none => none

/-- Parse a msgpack array of elements (`nil` gives the empty slice). -/
def parseArrayOf (elem : P α) : P (List α) := fun l =>
  match l with
  | [] => none
  | c :: r =>
      if c = 0xc0 then some ([], r)
      else if 0x90 ≤ c ∧ c < 0xa0 then parseCount elem (c - 0x90) r
      else if c = 0xdc then
        match readBe 2 r with
        | some (n, r') => parseCount elem n r'
        | none => none
      else if c = 0xdd then
        match readBe 4 r with
        | some (n, r') => parseCount elem n r'
        | none => none
      else none

/-- Parse a msgpack map header, returning the pair count. -/
def parseMapLen : P Nat := fun l =>
  match l with
  | [] => none
  | c :: r =>
      if 0x80 ≤ c ∧ c < 0x90 then some (c - 0x80, r)
      else if c = 0xde then readBe 2 r
      else if c = 0xdf then readBe 4 r
      else none

mutual

/-- Parse one arbitrary msgpack value (used for `interface{}` fields and
for skipping unknown struct fields). -/
def parseVal : Nat → P MsgVal
  | 0 => fun _ => none
  | fuel + 1 => fun l =>
      match l with
      | [] => none
      | c :: r =>
          if 0xe0 ≤ c then some (.int ((c : Int) - 256), r)
          else if c < 0x80 then some (.int (c : Int), r)
          else if c < 0x90 then
            match parseValKVs fuel (c - 0x80) r with
            | some (kvs, r') => some (.mp kvs, r')
            | none => none
          else if c < 0xa0 then
            match parseValList fuel (c - 0x90) r with
            | some (vs, r') => some (.arr vs, r')
            | none => none
          else if c < 0xc0 then
            match readBytesP (c - 0xa0) r with
            | some (s, r') => some (.str s, r')
            | none => none
          else if c = 0xc0 then some (.nil, r)
          else if c = 0xc2 then some (.bool false, r)
          else if c = 0xc3 then some (.bool true, r)
          else if c = 0xc4 then
            match r with
            | [] => none
            | n :: r' =>
                match readBytesP n r' with
                | some (bs, r'') => some (.bin bs, r'')
                | none => none
          else if c = 0xc5 then
            match readBe 2 r with
            | some (n, r') =>
                match readBytesP n r' with
                | some (bs, r'') => some (.bin bs, r'')
                | none => none
            | none => none
          else if c = 0xc6 then
            match readBe 4 r with
            | some (n, r') =>
                match readBytesP n r' with
                | some (bs, r'') => some (.bin bs, r'')
                | none => none
            | none => none
          else if c = 0xc7 then
            match r with
            | n :: ty :: r' =>
                match readBytesP n r' with
                | some (bs, r'') => some (.ext ty bs, r'')
                | none => none
            | _ => none
          else if c = 0xc8 then
            match readBe 2 r with
            | some (n, r') =>
                match r' with
                | ty :: r'' =>
                    match readBytesP n r'' with
                    | some (bs, r3) => some (.ext ty bs, r3)
                    | none => none
                | [] => none
            | none => none
          else if c = 0xc9 then
            match readBe 4 r with
            | some (n, r') =>
                match r' with
                | ty :: r'' =>
                    match readBytesP n r'' with
                    | some (bs, r3) => some (.ext ty bs, r3)
                    | none => none
                | [] => none
            | none => none
          else if c = 0xca then
            match readBe 4 r with
            | some (n, r') => some (.f32 n, r')
            | none => none
          else if c = 0xcb then
            match readBe 8 r with
            | some (n, r') => some (.f64 n, r')
            | none => none
          else if c = 0xcc ∨ c = 0xcd ∨ c = 0xce ∨ c = 0xcf
                  ∨ c = 0xd0 ∨ c = 0xd1 ∨ c = 0xd2 ∨ c = 0xd3 then
            match parseInt l with
            | some (i, r') => some (.int i, r')
            | none => none
          else if c = 0xd4 ∨ c = 0xd5 ∨ c = 0xd6 ∨ c = 0xd7 ∨ c = 0xd8 then
            match r with
            | ty :: r' =>
                match readBytesP (if c = 0xd4 then 1 else if c = 0xd5 then 2
                                  else if c = 0xd6 then 4 else if c = 0xd7 then 8
                                  else 16) r' with
                | some (bs, r'') => some (.ext ty bs, r'')
                | none => none
            | [] => none
          else if c = 0xd9 ∨ c = 0xda ∨ c = 0xdb then
            match parseStr l with
            | some (s, r') => some (.str s, r')
            | none => none
          else if c = 0xdc then
            match readBe 2 r with
            | some (n, r') =>
                match parseValList fuel n r' with
                | some (vs, r'') => some (.arr vs, r'')
                | none => none
            | none => none
          else if c = 0xdd then
            match readBe 4 r with
            | some (n, r') =>
                match parseValList fuel n r' with
                | some (vs, r'') => some (.arr vs, r'')
                | none => none
            | none => none
          else if c = 0xde then
            match readBe 2 r with
            | some (n, r') =>
                match parseValKVs fuel n r' with
                | some (kvs, r'') => some (.mp kvs, r'')
                | none => none
            | none => none
          else if c = 0xdf then
            match readBe 4 r with
            | some (n, r') =>
                match parseValKVs fuel n r' with
                | some (kvs, r'') => some (.mp kvs, r'')
                | none => none
            | none => none
          else none

/-- Parse `n` consecutive msgpack values. -/
def parseValList : Nat → Nat → P (List MsgVal)
  | 0, _ => fun _ => none
  | _ + 1, 0 => fun l => some ([], l)
  | fuel + 1, n + 1 => fun l =>
      match parseVal fuel l with
      | some (v, r) =>
          match parseValList fuel n r with
          | some (vs, r') => some (v :: vs, r')
          | none => none
      | none => none

/-- Parse `n` consecutive key/value pairs. -/
def parseValKVs : Nat → Nat → P (List (GoStr × MsgVal))
  | 0, _ => fun _ => none
  | _ + 1, 0 => fun l => some ([], l)
  | fuel + 1, n + 1 => fun l =>
      match parseStr l with
      | some (k, r) =>
          match parseVal fuel r with
          | some (v, r') =>
              match parseValKVs fuel n r' with
              | some (kvs, r'') => some ((k, v) :: kvs, r'')
              | none => none
          | none => none
      | none => none

end

/-- Parse a `map[string]interface{}` value (`nil` gives the empty map). -/
def parseMapVal (fuel : Nat) : P (List (GoStr × MsgVal)) := fun l =>
  match l with
  | [] => none
  | c :: r =>
      if c = 0xc0 then some ([], r)
      else
        match parseMapLen (c :: r) with
        | some (n, r') => parseValKVs fuel n r'
        | none => none

end Engram

namespace Engram

/-- Field loop for `Entity`: `n` key/value pairs folded into the struct. -/
def parseEntityFields (fuel : Nat) : Nat → Entity → P Entity
  | 0, acc => fun l => some (acc, l)
  | n + 1, acc => fun l =>
      match parseStr l with
      | none => none
      | some (k, r) =>
          if k = kName then
            match parseStr r with
            | some (v, r') => parseEntityFields fuel n { acc with name := v } r'
            | none => none
          else if k = kType then
            match parseStr r with
            | some (v, r') => parseEntityFields fuel n { acc with type := v } r'
            | none => none
          else if k = kConfidence then
            match parseF32 r with
            | some (v, r') => parseEntityFields fuel n { acc with confidence := v } r'
            | none => none
          else if k = kStart then
            match parseInt r with
            | some (v, r') => parseEntityFields fuel n { acc with start := v } r'
            | none => none
          else if k = kEnd then
            match parseInt r with
            | some (v, r') => parseEntityFields fuel n { acc with «end» := v } r'
            | none => none
          else
            match parseVal fuel r with
            | some (_, r') => parseEntityFields fuel n acc r'
            | none => none

/-- Parse an `Entity` (map-encoded struct; `nil` gives the zero value). -/
def parseEntity (fuel : Nat) : P Entity := fun l =>
  match l with
  | [] => none
  | c :: r =>
      if c = 0xc0 then some (zeroEntity, r)
      else
        match parseMapLen (c :: r) with
        | some (n, r') => parseEntityFields fuel n zeroEntity r'
        | none => none

/-- Field loop for `Link`. -/
def parseLinkFields (fuel : Nat) : Nat → Link → P Link
  | 0, acc => fun l => some (acc, l)
  | n + 1, acc => fun l =>
      match parseStr l with
      | none => none
      | some (k, r) =>
          if k = kTargetId then
            match parseStr r with
            | some (v, r') => parseLinkFields fuel n { acc with targetId := v } r'
            | none => none
          else if k = kType then
            match parseStr r with
            | some (v, r') => parseLinkFields fuel n { acc with type := v } r'
            | none => none
          else if k = kWeight then
            match parseF32 r with
            | some (v, r') => parseLinkFields fuel n { acc with weight := v } r'
            | none => none
          else if k = kMetadata then
            match parseMapVal fuel r with
            | some (v, r') => parseLinkFields fuel n { acc with metadata := v } r'
            | none => none
          else
            match parseVal fuel r with
            | some (_, r') => parseLinkFields fuel n acc r'
            | none => none

/-- Parse a `Link`. -/
def parseLink (fuel : Nat) : P Link := fun l =>
  match l with
  | [] => none
  | c :: r =>
      if c = 0xc0 then some (zeroLink, r)
      else
        match parseMapLen (c :: r) with
        | some (n, r') => parseLinkFields fuel n zeroLink r'
        | none => none

/-- Field loop for `NodeMeta`. -/
def parseNodeMetaFields (fuel : Nat) : Nat → NodeMeta → P NodeMeta
  | 0, acc => fun l => some (acc, l)
  | n + 1, acc => fun l =>
      match parseStr l with
      | none => none
      | some (k, r) =>
          if k = kSource then
            match parseStr r with
            | some (v, r') => parseNodeMetaFields fuel n { acc with source := v } r'
            | none => none
          else if k = kCreatedAt then
            match parseTime r with
            | some (v, r') => parseNodeMetaFields fuel n { acc with createdAt := some v } r'
            | none => none
          else if k = kUpdatedAt then
            match parseTime r with
            | some (v, r') => parseNodeMetaFields fuel n { acc with updatedAt := some v } r'
            | none => none
          else if k = kConfidence then
            match parseF32 r with
            | some (v, r') => parseNodeMetaFields fuel n { acc with confidence := v } r'
            | none => none
          else if k = kImportance then
            match parseF32 r with
            | some (v, r') => parseNodeMetaFields fuel n { acc with importance := v } r'
            | none => none
          else if k = kAccessCount then
            match parseInt r with
            | some (v, r') => parseNodeMetaFields fuel n { acc with accessCount := v } r'
            | none => none
          else if k = kCustom then
            match parseMapVal fuel r with
            | some (v, r') => parseNodeMetaFields fuel n { acc with custom := v } r'
            | none => none
          else
            match parseVal fuel r with
            | some (_, r') => parseNodeMetaFields fuel n acc r'
            | none => none

/-- Parse a `NodeMeta`. -/
def parseNodeMeta (fuel : Nat) : P NodeMeta := fun l =>
  match l with
  | [] => none
  | c :: r =>
      if c = 0xc0 then some (zeroNodeMeta, r)
      else
        match parseMapLen (c :: r) with
        | some (n, r') => parseNodeMetaFields fuel n zeroNodeMeta r'
        | none => none

/-- Field loop for `MemoryNode`. -/
def parseMemoryNodeFields (fuel : Nat) : Nat → MemoryNode → P MemoryNode
  | 0, acc => fun l => some (acc, l)
  | n + 1, acc => fun l =>
      match parseStr l with
      | none => none
      | some (k, r) =>
          if k = kId then
            match parseStr r with
            | some (v, r') => parseMemoryNodeFields fuel n { acc with id := v } r'
            | none => none
          else if k = kContent then
            match parseStr r with
            | some (v, r') => parseMemoryNodeFields fuel n { acc with content := v } r'
            | none => none
          else if k = kEmbedding then
            match parseArrayOf parseF32 r with
            | some (v, r') => parseMemoryNodeFields fuel n { acc with embedding := v } r'
            | none => none
          else if k = kTags then
            match parseArrayOf parseStr r with
            | some (v, r') => parseMemoryNodeFields fuel n { acc with tags := v } r'
            | none => none
          else if k = kEntities then
            match parseArrayOf (parseEntity fuel) r with
            | some (v, r') => parseMemoryNodeFields fuel n { acc with entities := v } r'
            | none => none
          else if k = kLinks then
            match parseArrayOf (parseLink fuel) r with
            | some (v, r') => parseMemoryNodeFields fuel n { acc with links := v } r'
            | none => none
          else if k = kMetadata then
            match parseNodeMeta fuel r with
            | some (v, r') => parseMemoryNodeFields fuel n { acc with metadata := v } r'
            | none => none
          else if k = kChildren then
            match parseArrayOf parseStr r with
            | some (v, r') => parseMemoryNodeFields fuel n { acc with children := v } r'
            | none => none
          else if k = kParentId then
            match parseStr r with
            | some (v, r') => parseMemoryNodeFields fuel n { acc with parentId := v } r'
            | none => none
          else
            match parseVal fuel r with
            | some (_, r') => parseMemoryNodeFields fuel n acc r'
            | none => none

/-- Parse a `MemoryNode`. -/
def parseMemoryNode (fuel : Nat) : P MemoryNode := fun l =>
  match l with
  | [] => none
  | c :: r =>
      if c = 0xc0 then some (zeroMemoryNode, r)
      else
        match parseMapLen (c :: r) with
        | some (n, r') => parseMemoryNodeFields fuel n zeroMemoryNode r'
        | none => none

/-- Field loop for `SchemaInfo`. -/
def parseSchemaInfoFields (fuel : Nat) : Nat → SchemaInfo → P SchemaInfo
  | 0, acc => fun l => some (acc, l)
  | n + 1, acc => fun l =>
      match parseStr l with
      | none => none
      | some (k, r) =>
          if k = kVersion then
            match parseStr r with
            | some (v, r') => parseSchemaInfoFields fuel n { acc with version := v } r'
            | none => none
          else if k = kEmbeddingModel then
            match parseStr r with
            | some (v, r') => parseSchemaInfoFields fuel n { acc with embeddingModel := v } r'
            | none => none
          else if k = kEmbeddingDim then
            match parseInt r with
            | some (v, r') => parseSchemaInfoFields fuel n { acc with embeddingDim := v } r'
            | none => none
          else if k = kFeatures then
            match parseArrayOf parseStr r with
            | some (v, r') => parseSchemaInfoFields fuel n { acc with features := v } r'
            | none => none
          else
            match parseVal fuel r with
            | some (_, r') => parseSchemaInfoFields fuel n acc r'
            | none => none

/-- Parse a `SchemaInfo`. -/
def parseSchemaInfo (fuel : Nat) : P SchemaInfo := fun l =>
  match l with
  | [] => none
  | c :: r =>
      if c = 0xc0 then some (zeroSchemaInfo, r)
      else
        match parseMapLen (c :: r) with
        | some (n, r') => parseSchemaInfoFields fuel n zeroSchemaInfo r'
        | none => none

/-- Field loop for `SecurityInfo`. -/
def parseSecurityInfoFields (fuel : Nat) : Nat → SecurityInfo → P SecurityInfo
  | 0, acc => fun l => some (acc, l)
  | n + 1, acc => fun l =>
      match parseStr l with
      | none => none
      | some (k, r) =>
          if k = kIntegrity then
            match parseStr r with
            | some (v, r') => parseSecurityInfoFields fuel n { acc with integrity := v } r'
            | none => none
          else if k = kEncryption then
            match parseStr r with
            | some (v, r') => parseSecurityInfoFields fuel n { acc with encryption := v } r'
            | none => none
          else if k = kKeyId then
            match parseStr r with
            | some (v, r') => parseSecurityInfoFields fuel n { acc with keyId := v } r'
            | none => none
          else
            match parseVal fuel r with
            | some (_, r') => parseSecurityInfoFields fuel n acc r'
            | none => none

/-- Parse a `SecurityInfo`. -/
def parseSecurityInfo (fuel : Nat) : P SecurityInfo := fun l =>
  match l with
  | [] => none
  | c :: r =>
      if c = 0xc0 then some (zeroSecurityInfo, r)
      else
        match parseMapLen (c :: r) with
        | some (n, r') => parseSecurityInfoFields fuel n zeroSecurityInfo r'
        | none => none

/-- Field loop for `FileMeta`. -/
def parseFileMetaFields (fuel : Nat) : Nat → FileMeta → P FileMeta
  | 0, acc => fun l => some (acc, l)
  | n + 1, acc => fun l =>
      match parseStr l with
      | none => none
      | some (k, r) =>
          if k = kTitle then
            match parseStr r with
            | some (v, r') => parseFileMetaFields fuel n { acc with title := v } r'
            | none => none
          else if k = kDescription then
            match parseStr r with
            | some (v, r') => parseFileMetaFields fuel n { acc with description := v } r'
            | none => none
          else if k = kAuthor then
            match parseStr r with
            | some (v, r') => parseFileMetaFields fuel n { acc with author := v } r'
            | none => none
          else if k = kLicense then
            match parseStr r with
            | some (v, r') => parseFileMetaFields fuel n { acc with license := v } r'
            | none => none
          else if k = kTags then
            match parseArrayOf parseStr r with
            | some (v, r') => parseFileMetaFields fuel n { acc with tags := v } r'
            | none => none
          else if k = kCustom then
            match parseMapVal fuel r with
            | some (v, r') => parseFileMetaFields fuel n { acc with custom := v } r'
            | none => none
          else
            match parseVal fuel r with
            | some (_, r') => parseFileMetaFields fuel n acc r'
            | none => none

/-- Parse a `FileMeta`. -/
def parseFileMeta (fuel : Nat) : P FileMeta := fun l =>
  match l with
  | [] => none
  | c :: r =>
      if c = 0xc0 then some (zeroFileMeta, r)
      else
        match parseMapLen (c :: r) with
        | some (n, r') => parseFileMetaFields fuel n zeroFileMeta r'
        | none => none

/-- Field loop for `EngramHeader`. -/
def parseHeaderFields (fuel : Nat) : Nat → EngramHeader → P EngramHeader
  | 0, acc => fun l => some (acc, l)
  | n + 1, acc => fun l =>
      match parseStr l with
      | none => none
      | some (k, r) =>
          if k = kVersion then
            match parseStr r with
            | some (v, r') => parseHeaderFields fuel n { acc with version := v } r'
            | none => none
          else if k = kCreated then
            match parseStr r with
            | some (v, r') => parseHeaderFields fuel n { acc with created := v } r'
            | none => none
          else if k = kModified then
            match parseStr r with
            | some (v, r') => parseHeaderFields fuel n { acc with modified := v } r'
            | none => none
          else if k = kNodeCount then
            match parseInt r with
            | some (v, r') => parseHeaderFields fuel n { acc with nodeCount := v } r'
            | none => none
          else if k = kSchema then
            match parseSchemaInfo fuel r with
            | some (v, r') => parseHeaderFields fuel n { acc with schema := v } r'
            | none => none
          else if k = kSecurity then
            match parseSecurityInfo fuel r with
            | some (v, r') => parseHeaderFields fuel n { acc with security := v } r'
            | none => none
          else if k = kMetadata then
            match parseFileMeta fuel r with
            | some (v, r') => parseHeaderFields fuel n { acc with metadata := v } r'
            | none => none
          else
            match parseVal fuel r with
            | some (_, r') => parseHeaderFields fuel n acc r'
            | none => none

/-- Parse an `EngramHeader`. -/
def parseHeader (fuel : Nat) : P EngramHeader := fun l =>
  match l with
  | [] => none
  | c :: r =>
      if c = 0xc0 then some (zeroHeader, r)
      else
        match parseMapLen (c :: r) with
        | some (n, r') => parseHeaderFields fuel n zeroHeader r'
        | none => none

end Engram

namespace Engram

/-- Equality on `Except` outcomes is decidable when it is on both sides
(used to evaluate the codec on concrete buffers). -/
instance {e : Type} {a : Type} [DecidableEq e] [DecidableEq a] : DecidableEq (Except e a) :=
  fun x y =>
    match x, y with
    | .error u, .error v => decidable_of_iff (u = v) (by simp)
    | .error _, .ok _ => isFalse (by simp)
    | .ok _, .error _ => isFalse (by simp)
    | .ok u, .ok v => decidable_of_iff (u = v) (by simp)

/-- Error kinds of the codec layer.  `decodingError` covers wrapped
`failed to decode header` / `failed to decode nodes` errors; `ioError`
covers errors propagated from the byte source. -/
inductive DErr where
  | invalidMagic : DErr
  | integrityFailed : DErr
  | decodingError : DErr
  | ioError : DErr
deriving DecidableEq

/-- Decode the payload bytes as the node sequence (`Decode` step 4). -/
def decodePayload (payloadBytes : Bytes) (h : EngramHeader) : Except DErr EngramFile :=
  match parseArrayOf (parseMemoryNode (3 * payloadBytes.length + 1)) payloadBytes with
  | some (ns, _) => .ok ⟨h, ns⟩
  | none => .error .decodingError

/-- `Decode`: magic check, header decode, integrity check over the exact
remaining payload bytes, then payload decode. -/
def decodeFile (data : Bytes) : Except DErr EngramFile :=
  if data.length < 6 ∨ data.take 6 ≠ magicBytes then .error .invalidMagic
  else
    match parseHeader (3 * (data.drop 6).length + 1) (data.drop 6) with
    | none => .error .decodingError
    | some (h, payloadBytes) =>
        if h.security.integrity ≠ [] then
          if hexLower (sha256 payloadBytes) ≠ h.security.integrity then
            .error .integrityFailed
          else decodePayload payloadBytes h
        else decodePayload payloadBytes h

/-- `ReadFile`: read the file bytes (the read outcome is the parameter)
and decode them. -/
def readFileGo (r : Except DErr Bytes) : Except DErr EngramFile :=
  match r with
  | .error e => .error e
  | .ok data => decodeFile data

/-- `VerifyIntegrity`: full decode with `IntegrityFailed` downgraded to
`false`; any other failure propagates. -/
def verifyIntegrity (r : Except DErr Bytes) : Except DErr Bool :=
  match readFileGo r with
  | .error e => if e = .integrityFailed then .ok false else .error e
  | .ok _ => .ok true

/-- State of a `StreamReader`: unread bytes, `header.NodeCount`, and the
number of records already produced. -/
structure StreamState where
  rest : Bytes
  header : EngramHeader
  index : Nat
deriving DecidableEq

/-- `NewStreamReader`: read and check the magic bytes, decode the header,
and position the cursor at the payload. -/
def newStreamReader (data : Bytes) : Except DErr StreamState :=
  if data.length < 6 then .error .ioError
  else if data.take 6 ≠ magicBytes then .error .invalidMagic
  else
    match parseHeader (3 * (data.drop 6).length + 1) (data.drop 6) with
    | none => .error .decodingError
    | some (h, rest) => .ok ⟨rest, h, 0⟩

/-- `StreamReader.Next`: `none` once `header.NodeCount` records were
produced or the input is exhausted (`io.EOF`); otherwise decode exactly
one record from the remaining stream. -/
def streamNext (s : StreamState) : Except DErr (Option MemoryNode × StreamState) :=
  if (s.index : Int) ≥ s.header.nodeCount then .ok (none, s)
  else
    match s.rest with
    | [] => .ok (none, s)
    | l =>
        match parseMemoryNode (3 * l.length + 1) l with
        | some (n, r) => .ok (some n, ⟨r, s.header, s.index + 1⟩)
        | none => .error .decodingError

/-- Drive `streamNext` until it reports no more records or fails,
collecting the produced records. -/
def streamCollect : Nat → StreamState → Except DErr (List MemoryNode)
  | 0, _ => .error .ioError
  | fuel + 1, s =>
      match streamNext s with
      | .error e => .error e
      | .ok (none, _) => .ok []
      | .ok (some n, s') =>
          match streamCollect fuel s' with
          | .ok ns => .ok (n :: ns)
          | .error e => .error e

end Engram

namespace Engram

/-! ## Well-formedness

Bounds under which the byte-level msgpack model is exact: every length
fits the 32-bit wire forms, integers fit `int64`, float bit patterns fit
32 bits, `omitempty` float fields do not hold IEEE negative zero (Go would
silently drop it, decoding to positive zero), and times are inside the Go
`time.Time` range with a nonzero value (v5 drops pointers to zero times). -/

/-- Strings whose length fits the `str32` form. -/
def goodStr (s : GoStr) : Prop := s.length < 4294967296

/-- Integers in `int64` range. -/
def goodInt (i : Int) : Prop :=
  -9223372036854775808 ≤ i ∧ i < 9223372036854775808

/-- float32 bit patterns. -/
def goodF32 (bits : Nat) : Prop := bits < 4294967296

/-- float32 bit patterns legal in an `omitempty` field (no negative
zero). -/
def goodF32Field (bits : Nat) : Prop := bits < 4294967296 ∧ bits ≠ 2147483648

/-- Valid `time.Time` data: `int64` seconds, nanoseconds below `10^9`,
and not the zero time (Unix seconds of January 1, year 1). -/
def goodTime (t : TimeVal) : Prop :=
  goodInt t.sec ∧ t.nsec < 1000000000 ∧ ¬(t.sec = -62135596800 ∧ t.nsec = 0)

instance (s : GoStr) : Decidable (goodStr s) := by
  unfold goodStr
  infer_instance

instance (i : Int) : Decidable (goodInt i) := by
  unfold goodInt
  infer_instance

instance (b : Nat) : Decidable (goodF32 b) := by
  unfold goodF32
  infer_instance

instance (b : Nat) : Decidable (goodF32Field b) := by
  unfold goodF32Field
  infer_instance

instance (t : TimeVal) : Decidable (goodTime t) := by
  unfold goodTime
  infer_instance

mutual

/-- Well-formed msgpack value trees (Boolean, due to inductive nesting). -/
def goodValB : MsgVal → Bool
  | .nil => true
  | .bool _ => true
  | .int i => decide (goodInt i)
  | .f32 bits => decide (bits < 4294967296)
  | .f64 bits => decide (bits < 18446744073709551616)
  | .str s => decide (goodStr s)
  | .bin bs => decide (bs.length < 4294967296)
  | .arr vs => decide (vs.length < 4294967296) && goodValListB vs
  | .mp kvs => decide (kvs.length < 4294967296) && goodValKVsB kvs
  | .ext ty payload => decide (ty < 256) && decide (payload.length < 4294967296)

/-- Well-formedness of value lists. -/
def goodValListB : List MsgVal → Bool
  | [] => true
  | v :: vs => goodValB v && goodValListB vs

/-- Well-formedness of key/value lists. -/
def goodValKVsB : List (GoStr × MsgVal) → Bool
  | [] => true
  | (k, v) :: kvs => decide (goodStr k) && goodValB v && goodValKVsB kvs

end

mutual

/-- Fuel needed by `parseVal` to parse the encoding of a value. -/
def sizeVal : MsgVal → Nat
  | .arr vs => 1 + sizeValList vs
  | .mp kvs => 1 + sizeValKVs kvs
  | _ => 1

/-- Fuel needed by `parseValList`. -/
def sizeValList : List MsgVal → Nat
  | [] => 1
  | v :: vs => 1 + sizeVal v + sizeValList vs

/-- Fuel needed by `parseValKVs`. -/
def sizeValKVs : List (GoStr × MsgVal) → Nat
  | [] => 1
  | (_, v) :: kvs => 1 + sizeVal v + sizeValKVs kvs

end

/-- Well-formed `Entity`. -/
def goodEntity (e : Entity) : Prop :=
  goodStr e.name ∧ goodStr e.type ∧ goodF32Field e.confidence
    ∧ goodInt e.start ∧ goodInt e.«end»

/-- Well-formed `Link`. -/
def goodLink (l : Link) : Prop :=
  goodStr l.targetId ∧ goodStr l.type ∧ goodF32Field l.weight
    ∧ l.metadata.length < 4294967296 ∧ goodValKVsB l.metadata = true

/-- Well-formed `NodeMeta`. -/
def goodNodeMeta (m : NodeMeta) : Prop :=
  goodStr m.source
    ∧ (∀ t ∈ m.createdAt, goodTime t)
    ∧ (∀ t ∈ m.updatedAt, goodTime t)
    ∧ goodF32Field m.confidence ∧ goodF32Field m.importance
    ∧ goodInt m.accessCount
    ∧ m.custom.length < 4294967296 ∧ goodValKVsB m.custom = true

/-- Well-formed `MemoryNode`. -/
def goodMemoryNode (n : MemoryNode) : Prop :=
  goodStr n.id ∧ goodStr n.content
    ∧ n.embedding.length < 4294967296 ∧ (∀ b ∈ n.embedding, goodF32 b)
    ∧ n.tags.length < 4294967296 ∧ (∀ t ∈ n.tags, goodStr t)
    ∧ n.entities.length < 4294967296 ∧ (∀ e ∈ n.entities, goodEntity e)
    ∧ n.links.length < 4294967296 ∧ (∀ l ∈ n.links, goodLink l)
    ∧ goodNodeMeta n.metadata
    ∧ n.children.length < 4294967296 ∧ (∀ c ∈ n.children, goodStr c)
    ∧ goodStr n.parentId

/-- Well-formed `SchemaInfo`. -/
def goodSchemaInfo (s : SchemaInfo) : Prop :=
  goodStr s.version ∧ goodStr s.embeddingModel ∧ goodInt s.embeddingDim
    ∧ s.features.length < 4294967296 ∧ (∀ f ∈ s.features, goodStr f)

/-- Well-formed `SecurityInfo`. -/
def goodSecurityInfo (s : SecurityInfo) : Prop :=
  goodStr s.integrity ∧ goodStr s.encryption ∧ goodStr s.keyId

/-- Well-formed `FileMeta`. -/
def goodFileMeta (m : FileMeta) : Prop :=
  goodStr m.title ∧ goodStr m.description ∧ goodStr m.author ∧ goodStr m.license
    ∧ m.tags.length < 4294967296 ∧ (∀ t ∈ m.tags, goodStr t)
    ∧ m.custom.length < 4294967296 ∧ goodValKVsB m.custom = true

/-- Well-formed `EngramHeader`. -/
def goodHeader (h : EngramHeader) : Prop :=
  goodStr h.version ∧ goodStr h.created ∧ goodStr h.modified ∧ goodInt h.nodeCount
    ∧ goodSchemaInfo h.schema ∧ goodSecurityInfo h.security ∧ goodFileMeta h.metadata

/-- Well-formed `EngramFile`. -/
def goodFile (f : EngramFile) : Prop :=
  goodHeader f.header ∧ f.nodes.length < 4294967296
    ∧ ∀ n ∈ f.nodes, goodMemoryNode n

/-! ## Primitive round-trip lemmas -/

theorem readBytesP_append (xs rest : Bytes) :
    readBytesP xs.length (xs ++ rest) = some (xs, rest) := by
  induction xs with
  | nil => rfl
  | cons b bs ih => simp [readBytesP, ih]

theorem readBe_be (w n : Nat) (h : n < 256 ^ w) (rest : Bytes) :
    readBe w (be w n ++ rest) = some (n, rest) := by
  unfold readBe
  have hb := readBytesP_append (be w n) rest
  rw [be_length] at hb
  simp [hb, beVal_be w n h]

theorem parseStr_enc (s : GoStr) (rest : Bytes) (h : goodStr s) :
    parseStr (encStr s ++ rest) = some (s, rest) := by
  unfold goodStr at h
  by_cases h32 : s.length < 32
  · have he : encStr s ++ rest = (160 + s.length) :: (s ++ rest) := by
      simp [encStr, encStrHdr, if_pos h32]
    rw [he]
    simp only [parseStr]
    rw [if_pos (by omega)]
    have h160 : 160 + s.length - 160 = s.length := by omega
    rw [h160]
    exact readBytesP_append s rest
  · by_cases h256 : s.length < 256
    · have he : encStr s ++ rest = 0xd9 :: s.length :: (s ++ rest) := by
        simp [encStr, encStrHdr, h32, h256]
      rw [he]
      simp only [parseStr]
      rw [if_neg (by omega), if_pos trivial]
      exact readBytesP_append s rest
    · by_cases h64k : s.length < 65536
      · have he : encStr s ++ rest = 0xda :: (be 2 s.length ++ (s ++ rest)) := by
          simp [encStr, encStrHdr, h32, h256, h64k]
        rw [he]
        simp only [parseStr]
        rw [if_neg (by omega), if_neg (by omega), if_pos trivial,
          readBe_be 2 s.length (by omega)]
        exact readBytesP_append s rest
      · have he : encStr s ++ rest = 0xdb :: (be 4 s.length ++ (s ++ rest)) := by
          simp [encStr, encStrHdr, h32, h256, h64k]
        rw [he]
        simp only [parseStr]
        rw [if_neg (by omega), if_neg (by omega), if_neg (by omega), if_pos trivial,
          readBe_be 4 s.length (by omega)]
        exact readBytesP_append s rest

end Engram

namespace Engram

theorem parseInt_enc (i : Int) (rest : Bytes) (h : goodInt i) :
    parseInt (encInt i ++ rest) = some (i, rest) := by
  obtain ⟨hlo, hhi⟩ := h
  by_cases h0 : 0 ≤ i
  · by_cases h1 : i.toNat < 128
    · have he : encInt i ++ rest = i.toNat :: rest := by
        simp [encInt, h0, h1]
      have hv : (i.toNat : Int) = i := Int.toNat_of_nonneg h0
      rw [he]
      simp [parseInt, h1, hv]
    · by_cases h2 : i.toNat < 256
      · have he : encInt i ++ rest = 0xcc :: i.toNat :: rest := by
          simp [encInt, h0, h1, h2]
        have hv : (i.toNat : Int) = i := Int.toNat_of_nonneg h0
        rw [he]
        simp [parseInt, hv]
      · by_cases h3 : i.toNat < 65536
        · have he : encInt i ++ rest = 0xcd :: (be 2 i.toNat ++ rest) := by
            simp [encInt, h0, h1, h2, h3]
          have hv : (i.toNat : Int) = i := Int.toNat_of_nonneg h0
          rw [he]
          simp [parseInt, readBe_be 2 i.toNat (by omega), hv]
        · by_cases h4 : i.toNat < 4294967296
          · have he : encInt i ++ rest = 0xce :: (be 4 i.toNat ++ rest) := by
              simp [encInt, h0, h1, h2, h3, h4]
            have hv : (i.toNat : Int) = i := Int.toNat_of_nonneg h0
            rw [he]
            simp [parseInt, readBe_be 4 i.toNat (by omega), hv]
          · have he : encInt i ++ rest = 0xcf :: (be 8 i.toNat ++ rest) := by
              simp [encInt, h0, h1, h2, h3, h4]
            have hv : (i.toNat : Int) = i := Int.toNat_of_nonneg h0
            rw [he]
            simp [parseInt, readBe_be 8 i.toNat (by omega), hv]
  · by_cases h1 : -32 ≤ i
    · have he : encInt i ++ rest = (i + 256).toNat :: rest := by
        simp [encInt, h0, h1]
      rw [he]
      have hge : ¬((i + 256).toNat < 128) := by omega
      have hrange : 0xe0 ≤ (i + 256).toNat ∧ (i + 256).toNat ≤ 0xff := by omega
      have hv : ((i + 256).toNat : Int) - 256 = i := by omega
      simp only [parseInt]
      have hc1 : ¬((i + 256).toNat = 0xcc) := by omega
      have hc2 : ¬((i + 256).toNat = 0xcd) := by omega
      have hc3 : ¬((i + 256).toNat = 0xce) := by omega
      have hc4 : ¬((i + 256).toNat = 0xcf) := by omega
      have hc5 : ¬((i + 256).toNat = 0xd0) := by omega
      have hc6 : ¬((i + 256).toNat = 0xd1) := by omega
      have hc7 : ¬((i + 256).toNat = 0xd2) := by omega
      have hc8 : ¬((i + 256).toNat = 0xd3) := by omega
      rw [if_neg hge, if_neg hc1, if_neg hc2, if_neg hc3, if_neg hc4,
        if_neg hc5, if_neg hc6, if_neg hc7, if_neg hc8, if_pos hrange, hv]
    · by_cases h2 : -128 ≤ i
      · have he : encInt i ++ rest = 0xd0 :: (i + 256).toNat :: rest := by
          simp [encInt, h0, h1, h2]
        rw [he]
        have hge : ¬((i + 256).toNat < 128) := by omega
        simp [parseInt, hge]
        omega
      · by_cases h3 : -32768 ≤ i
        · have he : encInt i ++ rest = 0xd1 :: (be 2 (i + 65536).toNat ++ rest) := by
            simp [encInt, h0, h1, h2, h3]
          rw [he]
          have hge : ¬((i + 65536).toNat < 32768) := by omega
          simp [parseInt, readBe_be 2 (i + 65536).toNat (by omega), hge]
          omega
        · by_cases h4 : -2147483648 ≤ i
          · have he : encInt i ++ rest = 0xd2 :: (be 4 (i + 4294967296).toNat ++ rest) := by
              simp [encInt, h0, h1, h2, h3, h4]
            rw [he]
            have hge : ¬((i + 4294967296).toNat < 2147483648) := by omega
            simp [parseInt, readBe_be 4 (i + 4294967296).toNat (by omega), hge]
            omega
          · have he : encInt i ++ rest =
                0xd3 :: (be 8 (i + 18446744073709551616).toNat ++ rest) := by
              simp [encInt, h0, h1, h2, h3, h4]
            rw [he]
            have hge : ¬((i + 18446744073709551616).toNat < 9223372036854775808) := by
              omega
            simp [parseInt, readBe_be 8 (i + 18446744073709551616).toNat (by omega), hge]
            omega

theorem parseF32_enc (bits : Nat) (rest : Bytes) (h : goodF32 bits) :
    parseF32 (encF32 bits ++ rest) = some (bits, rest) := by
  unfold goodF32 at h
  have he : encF32 bits ++ rest = 0xca :: (be 4 bits ++ rest) := by
    simp [encF32]
  rw [he]
  simp [parseF32, readBe_be 4 bits (by omega)]

theorem parseTime_enc (t : TimeVal) (rest : Bytes) (h : goodTime t) :
    parseTime (encTime t ++ rest) = some (t, rest) := by
  obtain ⟨⟨hlo, hhi⟩, hnsec, _⟩ := h
  obtain ⟨sec, nsec⟩ := t
  simp only at hlo hhi hnsec
  by_cases hA : u64ofInt sec < 17179869184
  · have hsec0 : 0 ≤ sec := by
      unfold u64ofInt at hA
      omega
    have hsecU : u64ofInt sec = sec.toNat := by
      unfold u64ofInt
      omega
    have hsecA : sec.toNat < 17179869184 := by
      rw [hsecU] at hA
      exact hA
    by_cases hB : nsec * 17179869184 + u64ofInt sec < 4294967296
    · have hn0 : nsec = 0 := by omega
      subst hn0
      have he : encTime ⟨sec, 0⟩ ++ rest = 0xd6 :: 0xff :: (be 4 sec.toNat ++ rest) := by
        simp only [encTime, hsecU]
        rw [if_pos (by omega), if_pos (by omega)]
        simp
      rw [he]
      simp only [parseTime]
      rw [readBe_be 4 sec.toNat (by omega)]
      simp only [Option.some.injEq, Prod.mk.injEq, TimeVal.mk.injEq, and_true]
      omega
    · have hdat : nsec * 17179869184 + sec.toNat < 18446744073709551616 := by
        have : nsec * 17179869184 ≤ 999999999 * 17179869184 :=
          Nat.mul_le_mul_right _ (by omega)
        omega
      have he : encTime ⟨sec, nsec⟩ ++ rest =
          0xd7 :: 0xff :: (be 8 (nsec * 17179869184 + sec.toNat) ++ rest) := by
        simp only [encTime, hsecU]
        rw [if_pos (by omega), if_neg (by omega)]
        simp
      rw [he]
      simp only [parseTime]
      rw [readBe_be 8 (nsec * 17179869184 + sec.toNat) (by omega)]
      simp only [Option.some.injEq, Prod.mk.injEq, TimeVal.mk.injEq, and_true]
      constructor
      · omega
      · omega
  · have he : encTime ⟨sec, nsec⟩ ++ rest =
        0xc7 :: 12 :: 0xff :: (be 4 nsec ++ (be 8 (u64ofInt sec) ++ rest)) := by
      simp only [encTime]
      rw [if_neg hA]
      simp
    rw [he]
    simp only [parseTime]
    rw [readBe_be 4 nsec (by omega)]
    have hu : u64ofInt sec < 18446744073709551616 := by
      unfold u64ofInt
      omega
    simp only [readBe_be 8 (u64ofInt sec) hu]
    simp only [Option.some.injEq, Prod.mk.injEq, TimeVal.mk.injEq, and_true]
    unfold u64ofInt at *
    split
    · omega
    · omega

theorem parseMapLen_enc (n : Nat) (rest : Bytes) (h : n < 4294967296) :
    parseMapLen (encMapHdr n ++ rest) = some (n, rest) := by
  by_cases h16 : n < 16
  · have he : encMapHdr n ++ rest = (128 + n) :: rest := by
      simp [encMapHdr, h16]
    rw [he]
    simp only [parseMapLen]
    rw [if_pos (by omega)]
    simp
  · by_cases h64k : n < 65536
    · have he : encMapHdr n ++ rest = 0xde :: (be 2 n ++ rest) := by
        simp [encMapHdr, h16, h64k]
      rw [he]
      simp only [parseMapLen]
      rw [if_neg (by omega), if_pos trivial]
      exact readBe_be 2 n (by omega) rest
    · have he : encMapHdr n ++ rest = 0xdf :: (be 4 n ++ rest) := by
        simp [encMapHdr, h16, h64k]
      rw [he]
      simp only [parseMapLen]
      rw [if_neg (by omega), if_neg (by omega), if_pos trivial]
      exact readBe_be 4 n (by omega) rest

theorem parseCount_enc {α : Type} (elem : P α) (f : α → Bytes) (xs : List α) (rest : Bytes)
    (helem : ∀ x ∈ xs, ∀ r, elem (f x ++ r) = some (x, r)) :
    parseCount elem xs.length ((xs.map f).flatten ++ rest) = some (xs, rest) := by
  induction xs with
  | nil => rfl
  | cons x xs ih =>
      have hx := helem x (by simp) ((xs.map f).flatten ++ rest)
      have hxs := ih fun y hy r => helem y (by simp [hy]) r
      simp only [List.map_cons, List.flatten_cons, List.length_cons, List.append_assoc,
        parseCount, hx, hxs]

theorem parseArrayOf_enc {α : Type} (elem : P α) (f : α → Bytes) (xs : List α) (rest : Bytes)
    (hlen : xs.length < 4294967296)
    (helem : ∀ x ∈ xs, ∀ r, elem (f x ++ r) = some (x, r)) :
    parseArrayOf elem (encArray f xs ++ rest) = some (xs, rest) := by
  by_cases h16 : xs.length < 16
  · have he : encArray f xs ++ rest = (144 + xs.length) :: ((xs.map f).flatten ++ rest) := by
      simp [encArray, encArrHdr, h16]
    rw [he]
    simp only [parseArrayOf]
    rw [if_neg (by omega), if_pos (by omega)]
    have : 144 + xs.length - 144 = xs.length := by omega
    rw [this]
    exact parseCount_enc elem f xs rest helem
  · by_cases h64k : xs.length < 65536
    · have he : encArray f xs ++ rest = 0xdc :: (be 2 xs.length ++ ((xs.map f).flatten ++ rest)) := by
        simp [encArray, encArrHdr, h16, h64k]
      rw [he]
      simp only [parseArrayOf]
      rw [if_neg (by omega), if_neg (by omega), if_pos trivial,
        readBe_be 2 xs.length (by omega)]
      exact parseCount_enc elem f xs rest helem
    · have he : encArray f xs ++ rest = 0xdd :: (be 4 xs.length ++ ((xs.map f).flatten ++ rest)) := by
        simp [encArray, encArrHdr, h16, h64k]
      rw [he]
      simp only [parseArrayOf]
      rw [if_neg (by omega), if_neg (by omega), if_neg (by omega), if_pos trivial,
        readBe_be 4 xs.length (by omega)]
      exact parseCount_enc elem f xs rest helem

end Engram

namespace Engram

theorem sizeVal_pos (v : MsgVal) : 1 ≤ sizeVal v := by
  cases v <;> simp [sizeVal]

theorem sizeValList_pos (vs : List MsgVal) : 1 ≤ sizeValList vs := by
  cases vs with
  | nil => simp [sizeValList]
  | cons v vs =>
      have := sizeVal_pos v
      simp [sizeValList]
      omega

theorem sizeValKVs_pos (kvs : List (GoStr × MsgVal)) : 1 ≤ sizeValKVs kvs := by
  cases kvs with
  | nil => simp [sizeValKVs]
  | cons kv kvs =>
      obtain ⟨k, v⟩ := kv
      have := sizeVal_pos v
      simp [sizeValKVs]
      omega

theorem parseVal_enc_main (fuel : Nat) :
    (∀ v rest, goodValB v = true → sizeVal v ≤ fuel →
        parseVal fuel (encVal v ++ rest) = some (v, rest)) ∧
    (∀ vs rest, goodValListB vs = true → sizeValList vs ≤ fuel →
        parseValList fuel vs.length (encValList vs ++ rest) = some (vs, rest)) ∧
    (∀ kvs rest, goodValKVsB kvs = true → sizeValKVs kvs ≤ fuel →
        parseValKVs fuel kvs.length (encValKVs kvs ++ rest) = some (kvs, rest)) := by
  induction fuel with
  | zero =>
      refine ⟨?_, ?_, ?_⟩
      · intro v rest _ hsz
        exact absurd hsz (by have := sizeVal_pos v; omega)
      · intro vs rest _ hsz
        exact absurd hsz (by have := sizeValList_pos vs; omega)
      · intro kvs rest _ hsz
        exact absurd hsz (by have := sizeValKVs_pos kvs; omega)
  | succ g ih =>
      obtain ⟨ihV, ihL, ihK⟩ := ih
      refine ⟨?_, ?_, ?_⟩
      · intro v rest hgood hsz
        cases v with
        | nil => simp [encVal, parseVal]
        | bool b => cases b <;> simp [encVal, parseVal]
        | int i =>
            have hg : goodInt i := by simpa [goodValB] using hgood
            have hp := parseInt_enc i rest hg
            obtain ⟨hlo, hhi⟩ := hg
            show parseVal (g + 1) (encInt i ++ rest) = some (.int i, rest)
            rw [show encInt i ++ rest = encVal (MsgVal.int i) ++ rest from rfl] at hp ⊢
            by_cases h0 : 0 ≤ i
            · by_cases h1 : i.toNat < 128
              · have he : encVal (MsgVal.int i) ++ rest = i.toNat :: rest := by
                  simp [encVal, encInt, h0, h1]
                rw [he]
                simp only [parseVal]
                rw [if_neg (by omega), if_pos h1]
                simp only [Option.some.injEq, Prod.mk.injEq, MsgVal.int.injEq, and_true]
                omega
              · by_cases h2 : i.toNat < 256
                · have he : encVal (MsgVal.int i) ++ rest = 0xcc :: i.toNat :: rest := by
                    simp [encVal, encInt, h0, h1, h2]
                  rw [he] at hp ⊢
                  simp [parseVal, hp]
                · by_cases h3 : i.toNat < 65536
                  · have he : encVal (MsgVal.int i) ++ rest = 0xcd :: (be 2 i.toNat ++ rest) := by
                      simp [encVal, encInt, h0, h1, h2, h3]
                    rw [he] at hp ⊢
                    simp [parseVal, hp]
                  · by_cases h4 : i.toNat < 4294967296
                    · have he : encVal (MsgVal.int i) ++ rest =
                          0xce :: (be 4 i.toNat ++ rest) := by
                        simp [encVal, encInt, h0, h1, h2, h3, h4]
                      rw [he] at hp ⊢
                      simp [parseVal, hp]
                    · have he : encVal (MsgVal.int i) ++ rest =
                          0xcf :: (be 8 i.toNat ++ rest) := by
                        simp [encVal, encInt, h0, h1, h2, h3, h4]
                      rw [he] at hp ⊢
                      simp [parseVal, hp]
            · by_cases h1 : -32 ≤ i
              · have he : encVal (MsgVal.int i) ++ rest = (i + 256).toNat :: rest := by
                  simp [encVal, encInt, h0, h1]
                rw [he]
                simp only [parseVal]
                rw [if_pos (by omega)]
                simp only [Option.some.injEq, Prod.mk.injEq, MsgVal.int.injEq, and_true]
                omega
              · by_cases h2 : -128 ≤ i
                · have he : encVal (MsgVal.int i) ++ rest = 0xd0 :: (i + 256).toNat :: rest := by
                    simp [encVal, encInt, h0, h1, h2]
                  rw [he] at hp ⊢
                  simp [parseVal, hp]
                · by_cases h3 : -32768 ≤ i
                  · have he : encVal (MsgVal.int i) ++ rest =
                        0xd1 :: (be 2 (i + 65536).toNat ++ rest) := by
                      simp [encVal, encInt, h0, h1, h2, h3]
                    rw [he] at hp ⊢
                    simp [parseVal, hp]
                  · by_cases h4 : -2147483648 ≤ i
                    · have he : encVal (MsgVal.int i) ++ rest =
                          0xd2 :: (be 4 (i + 4294967296).toNat ++ rest) := by
                        simp [encVal, encInt, h0, h1, h2, h3, h4]
                      rw [he] at hp ⊢
                      simp [parseVal, hp]
                    · have he : encVal (MsgVal.int i) ++ rest =
                          0xd3 :: (be 8 (i + 18446744073709551616).toNat ++ rest) := by
                        simp [encVal, encInt, h0, h1, h2, h3, h4]
                      rw [he] at hp ⊢
                      simp [parseVal, hp]
        | f32 bits =>
            have hg : bits < 4294967296 := by simpa [goodValB] using hgood
            show parseVal (g + 1) (encF32 bits ++ rest) = some (.f32 bits, rest)
            have he : encF32 bits ++ rest = 0xca :: (be 4 bits ++ rest) := by
              simp [encF32]
            rw [he]
            simp [parseVal, readBe_be 4 bits (by omega)]
        | f64 bits =>
            have hg : bits < 18446744073709551616 := by simpa [goodValB] using hgood
            show parseVal (g + 1) (encF64 bits ++ rest) = some (.f64 bits, rest)
            have he : encF64 bits ++ rest = 0xcb :: (be 8 bits ++ rest) := by
              simp [encF64]
            rw [he]
            simp [parseVal, readBe_be 8 bits (by omega)]
        | str s =>
            have hg : goodStr s := by simpa [goodValB] using hgood
            have hp := parseStr_enc s rest hg
            show parseVal (g + 1) (encStr s ++ rest) = some (.str s, rest)
            unfold goodStr at hg
            by_cases h32 : s.length < 32
            · have he : encStr s ++ rest = (160 + s.length) :: (s ++ rest) := by
                simp [encStr, encStrHdr, h32]
              rw [he]
              simp only [parseVal]
              rw [if_neg (by omega), if_neg (by omega), if_neg (by omega), if_neg (by omega),
                if_pos (by omega)]
              have h160 : 160 + s.length - 160 = s.length := by omega
              rw [h160, readBytesP_append]
            · by_cases h256 : s.length < 256
              · have he : encStr s ++ rest = 0xd9 :: s.length :: (s ++ rest) := by
                  simp [encStr, encStrHdr, h32, h256]
                rw [he] at hp ⊢
                simp [parseVal, hp]
              · by_cases h64k : s.length < 65536
                · have he : encStr s ++ rest = 0xda :: (be 2 s.length ++ (s ++ rest)) := by
                    simp [encStr, encStrHdr, h32, h256, h64k]
                  rw [he] at hp ⊢
                  simp [parseVal, hp]
                · have he : encStr s ++ rest = 0xdb :: (be 4 s.length ++ (s ++ rest)) := by
                    simp [encStr, encStrHdr, h32, h256, h64k]
                  rw [he] at hp ⊢
                  simp [parseVal, hp]
        | bin bs =>
            have hg : bs.length < 4294967296 := by simpa [goodValB] using hgood
            show parseVal (g + 1) (encBin bs ++ rest) = some (.bin bs, rest)
            by_cases h256 : bs.length < 256
            · have he : encBin bs ++ rest = 0xc4 :: bs.length :: (bs ++ rest) := by
                simp [encBin, h256]
              rw [he]
              simp [parseVal, readBytesP_append]
            · by_cases h64k : bs.length < 65536
              · have he : encBin bs ++ rest = 0xc5 :: (be 2 bs.length ++ (bs ++ rest)) := by
                  simp [encBin, h256, h64k]
                rw [he]
                simp [parseVal, readBe_be 2 bs.length (by omega), readBytesP_append]
              · have he : encBin bs ++ rest = 0xc6 :: (be 4 bs.length ++ (bs ++ rest)) := by
                  simp [encBin, h256, h64k]
                rw [he]
                simp [parseVal, readBe_be 4 bs.length (by omega), readBytesP_append]
        | arr vs =>
            have hg : vs.length < 4294967296 ∧ goodValListB vs = true := by
              simpa [goodValB] using hgood
            have hsz' : sizeValList vs ≤ g := by
              simp only [sizeVal] at hsz
              omega
            have hl := ihL vs rest hg.2 hsz'
            show parseVal (g + 1) ((encArrHdr vs.length ++ encValList vs) ++ rest) =
              some (.arr vs, rest)
            by_cases h16 : vs.length < 16
            · have he : (encArrHdr vs.length ++ encValList vs) ++ rest =
                  (144 + vs.length) :: (encValList vs ++ rest) := by
                simp [encArrHdr, h16]
              rw [he]
              simp only [parseVal]
              rw [if_neg (by omega), if_neg (by omega), if_neg (by omega),
                if_pos (by omega)]
              have h144 : 144 + vs.length - 144 = vs.length := by omega
              rw [h144, hl]
            · by_cases h64k : vs.length < 65536
              · have he : (encArrHdr vs.length ++ encValList vs) ++ rest =
                    0xdc :: (be 2 vs.length ++ (encValList vs ++ rest)) := by
                  simp [encArrHdr, h16, h64k]
                rw [he]
                simp [parseVal, readBe_be 2 vs.length (by omega), hl]
              · have he : (encArrHdr vs.length ++ encValList vs) ++ rest =
                    0xdd :: (be 4 vs.length ++ (encValList vs ++ rest)) := by
                  simp [encArrHdr, h16, h64k]
                rw [he]
                simp [parseVal, readBe_be 4 vs.length (by omega), hl]
        | mp kvs =>
            have hg : kvs.length < 4294967296 ∧ goodValKVsB kvs = true := by
              simpa [goodValB] using hgood
            have hsz' : sizeValKVs kvs ≤ g := by
              simp only [sizeVal] at hsz
              omega
            have hk := ihK kvs rest hg.2 hsz'
            show parseVal (g + 1) ((encMapHdr kvs.length ++ encValKVs kvs) ++ rest) =
              some (.mp kvs, rest)
            by_cases h16 : kvs.length < 16
            · have he : (encMapHdr kvs.length ++ encValKVs kvs) ++ rest =
                  (128 + kvs.length) :: (encValKVs kvs ++ rest) := by
                simp [encMapHdr, h16]
              rw [he]
              simp only [parseVal]
              rw [if_neg (by omega), if_neg (by omega), if_pos (by omega)]
              have h128 : 128 + kvs.length - 128 = kvs.length := by omega
              rw [h128, hk]
            · by_cases h64k : kvs.length < 65536
              · have he : (encMapHdr kvs.length ++ encValKVs kvs) ++ rest =
                    0xde :: (be 2 kvs.length ++ (encValKVs kvs ++ rest)) := by
                  simp [encMapHdr, h16, h64k]
                rw [he]
                simp [parseVal, readBe_be 2 kvs.length (by omega), hk]
              · have he : (encMapHdr kvs.length ++ encValKVs kvs) ++ rest =
                    0xdf :: (be 4 kvs.length ++ (encValKVs kvs ++ rest)) := by
                  simp [encMapHdr, h16, h64k]
                rw [he]
                simp [parseVal, readBe_be 4 kvs.length (by omega), hk]
        | ext ty p =>
            have hg : ty < 256 ∧ p.length < 4294967296 := by
              simpa [goodValB] using hgood
            show parseVal (g + 1) ((encExtHdr ty p.length ++ p) ++ rest) =
              some (.ext ty p, rest)
            by_cases e1 : p.length = 1
            · have hr : readBytesP 1 (p ++ rest) = some (p, rest) := by
                rw [← e1]
                exact readBytesP_append p rest
              have he : (encExtHdr ty p.length ++ p) ++ rest = 0xd4 :: ty :: (p ++ rest) := by
                simp [encExtHdr, e1]
              rw [he]
              simp [parseVal, hr]
            · by_cases e2 : p.length = 2
              · have hr : readBytesP 2 (p ++ rest) = some (p, rest) := by
                  rw [← e2]
                  exact readBytesP_append p rest
                have he : (encExtHdr ty p.length ++ p) ++ rest = 0xd5 :: ty :: (p ++ rest) := by
                  simp [encExtHdr, e1, e2]
                rw [he]
                simp [parseVal, hr]
              · by_cases e4 : p.length = 4
                · have hr : readBytesP 4 (p ++ rest) = some (p, rest) := by
                    rw [← e4]
                    exact readBytesP_append p rest
                  have he : (encExtHdr ty p.length ++ p) ++ rest =
                      0xd6 :: ty :: (p ++ rest) := by
                    simp [encExtHdr, e1, e2, e4]
                  rw [he]
                  simp [parseVal, hr]
                · by_cases e8 : p.length = 8
                  · have hr : readBytesP 8 (p ++ rest) = some (p, rest) := by
                      rw [← e8]
                      exact readBytesP_append p rest
                    have he : (encExtHdr ty p.length ++ p) ++ rest =
                        0xd7 :: ty :: (p ++ rest) := by
                      simp [encExtHdr, e1, e2, e4, e8]
                    rw [he]
                    simp [parseVal, hr]
                  · by_cases e16 : p.length = 16
                    · have hr : readBytesP 16 (p ++ rest) = some (p, rest) := by
                        rw [← e16]
                        exact readBytesP_append p rest
                      have he : (encExtHdr ty p.length ++ p) ++ rest =
                          0xd8 :: ty :: (p ++ rest) := by
                        simp [encExtHdr, e1, e2, e4, e8, e16]
                      rw [he]
                      simp [parseVal, hr]
                    · by_cases e256 : p.length < 256
                      · have he : (encExtHdr ty p.length ++ p) ++ rest =
                            0xc7 :: p.length :: ty :: (p ++ rest) := by
                          simp [encExtHdr, e1, e2, e4, e8, e16, e256]
                        rw [he]
                        simp [parseVal, readBytesP_append]
                      · by_cases e64k : p.length < 65536
                        · have he : (encExtHdr ty p.length ++ p) ++ rest =
                              0xc8 :: (be 2 p.length ++ (ty :: (p ++ rest))) := by
                            simp [encExtHdr, e1, e2, e4, e8, e16, e256, e64k]
                          rw [he]
                          simp [parseVal, readBe_be 2 p.length (by omega),
                            readBytesP_append]
                        · have he : (encExtHdr ty p.length ++ p) ++ rest =
                              0xc9 :: (be 4 p.length ++ (ty :: (p ++ rest))) := by
                            simp [encExtHdr, e1, e2, e4, e8, e16, e256, e64k]
                          rw [he]
                          simp [parseVal, readBe_be 4 p.length (by omega),
                            readBytesP_append]
      · intro vs rest hgood hsz
        cases vs with
        | nil => simp [encValList, parseValList]
        | cons v vs =>
            have hg : goodValB v = true ∧ goodValListB vs = true := by
              simpa [goodValListB] using hgood
            have hsz1 : sizeVal v ≤ g := by
              simp only [sizeValList] at hsz
              have := sizeValList_pos vs
              omega
            have hsz2 : sizeValList vs ≤ g := by
              simp only [sizeValList] at hsz
              have := sizeVal_pos v
              omega
            have hv := ihV v (encValList vs ++ rest) hg.1 hsz1
            have hvs := ihL vs rest hg.2 hsz2
            simp [encValList, parseValList, List.append_assoc, hv, hvs]
      · intro kvs rest hgood hsz
        cases kvs with
        | nil => simp [encValKVs, parseValKVs]
        | cons kv kvs =>
            obtain ⟨k, v⟩ := kv
            have hg : (goodStr k ∧ goodValB v = true) ∧ goodValKVsB kvs = true := by
              simpa [goodValKVsB] using hgood
            have hsz1 : sizeVal v ≤ g := by
              simp only [sizeValKVs] at hsz
              have := sizeValKVs_pos kvs
              omega
            have hsz2 : sizeValKVs kvs ≤ g := by
              simp only [sizeValKVs] at hsz
              have := sizeVal_pos v
              omega
            have hk := parseStr_enc k (encVal v ++ (encValKVs kvs ++ rest)) hg.1.1
            have hv := ihV v (encValKVs kvs ++ rest) hg.1.2 hsz1
            have hkvs := ihK kvs rest hg.2 hsz2
            simp [encValKVs, parseValKVs, List.append_assoc, hk, hv, hkvs]

theorem parseVal_enc (fuel : Nat) (v : MsgVal) (rest : Bytes)
    (hgood : goodValB v = true) (hsz : sizeVal v ≤ fuel) :
    parseVal fuel (encVal v ++ rest) = some (v, rest) :=
  (parseVal_enc_main fuel).1 v rest hgood hsz

theorem parseValKVs_enc (fuel : Nat) (kvs : List (GoStr × MsgVal)) (rest : Bytes)
    (hgood : goodValKVsB kvs = true) (hsz : sizeValKVs kvs ≤ fuel) :
    parseValKVs fuel kvs.length (encValKVs kvs ++ rest) = some (kvs, rest) :=
  (parseVal_enc_main fuel).2.2 kvs rest hgood hsz

theorem parseMapVal_enc (fuel : Nat) (kvs : List (GoStr × MsgVal)) (rest : Bytes)
    (hlen : kvs.length < 4294967296)
    (hgood : goodValKVsB kvs = true) (hsz : sizeValKVs kvs ≤ fuel) :
    parseMapVal fuel (encMapVal kvs ++ rest) = some (kvs, rest) := by
  have hk := parseValKVs_enc fuel kvs rest hgood hsz
  by_cases h16 : kvs.length < 16
  · have he : encMapVal kvs ++ rest = (128 + kvs.length) :: (encValKVs kvs ++ rest) := by
      simp [encMapVal, encMapHdr, h16]
    rw [he]
    simp only [parseMapVal]
    rw [if_neg (by omega)]
    have hm : parseMapLen ((128 + kvs.length) :: (encValKVs kvs ++ rest)) =
        some (kvs.length, encValKVs kvs ++ rest) := by
      simp only [parseMapLen]
      rw [if_pos (by omega)]
      simp
    rw [hm]
    simp only [hk]
  · by_cases h64k : kvs.length < 65536
    · have he : encMapVal kvs ++ rest =
          0xde :: (be 2 kvs.length ++ (encValKVs kvs ++ rest)) := by
        simp [encMapVal, encMapHdr, h16, h64k]
      rw [he]
      simp only [parseMapVal]
      rw [if_neg (by omega)]
      have hm : parseMapLen (0xde :: (be 2 kvs.length ++ (encValKVs kvs ++ rest))) =
          some (kvs.length, encValKVs kvs ++ rest) := by
        simp only [parseMapLen]
        rw [if_neg (by omega), if_pos trivial]
        exact readBe_be 2 kvs.length (by omega) _
      rw [hm]
      simp only [hk]
    · have he : encMapVal kvs ++ rest =
          0xdf :: (be 4 kvs.length ++ (encValKVs kvs ++ rest)) := by
        simp [encMapVal, encMapHdr, h16, h64k]
      rw [he]
      simp only [parseMapVal]
      rw [if_neg (by omega)]
      have hm : parseMapLen (0xdf :: (be 4 kvs.length ++ (encValKVs kvs ++ rest))) =
          some (kvs.length, encValKVs kvs ++ rest) := by
        simp only [parseMapLen]
        rw [if_neg (by omega), if_neg (by omega), if_pos trivial]
        exact readBe_be 4 kvs.length (by omega) _
      rw [hm]
      simp only [hk]

end Engram

namespace Engram

/-- Key `kId` parses back from its encoding. -/
theorem parse_kId (rest : Bytes) : parseStr (encStr kId ++ rest) = some (kId, rest) :=
  parseStr_enc kId rest (by decide)

/-- Key `kContent` parses back from its encoding. -/
theorem parse_kContent (rest : Bytes) : parseStr (encStr kContent ++ rest) = some (kContent, rest) :=
  parseStr_enc kContent rest (by decide)

/-- Key `kEmbedding` parses back from its encoding. -/
theorem parse_kEmbedding (rest : Bytes) : parseStr (encStr kEmbedding ++ rest) = some (kEmbedding, rest) :=
  parseStr_enc kEmbedding rest (by decide)

/-- Key `kTags` parses back from its encoding. -/
theorem parse_kTags (rest : Bytes) : parseStr (encStr kTags ++ rest) = some (kTags, rest) :=
  parseStr_enc kTags rest (by decide)

/-- Key `kEntities` parses back from its encoding. -/
theorem parse_kEntities (rest : Bytes) : parseStr (encStr kEntities ++ rest) = some (kEntities, rest) :=
  parseStr_enc kEntities rest (by decide)

/-- Key `kLinks` parses back from its encoding. -/
theorem parse_kLinks (rest : Bytes) : parseStr (encStr kLinks ++ rest) = some (kLinks, rest) :=
  parseStr_enc kLinks rest (by decide)

/-- Key `kMetadata` parses back from its encoding. -/
theorem parse_kMetadata (rest : Bytes) : parseStr (encStr kMetadata ++ rest) = some (kMetadata, rest) :=
  parseStr_enc kMetadata rest (by decide)

/-- Key `kChildren` parses back from its encoding. -/
theorem parse_kChildren (rest : Bytes) : parseStr (encStr kChildren ++ rest) = some (kChildren, rest) :=
  parseStr_enc kChildren rest (by decide)

/-- Key `kParentId` parses back from its encoding. -/
theorem parse_kParentId (rest : Bytes) : parseStr (encStr kParentId ++ rest) = some (kParentId, rest) :=
  parseStr_enc kParentId rest (by decide)

/-- Key `kName` parses back from its encoding. -/
theorem parse_kName (rest : Bytes) : parseStr (encStr kName ++ rest) = some (kName, rest) :=
  parseStr_enc kName rest (by decide)

/-- Key `kType` parses back from its encoding. -/
theorem parse_kType (rest : Bytes) : parseStr (encStr kType ++ rest) = some (kType, rest) :=
  parseStr_enc kType rest (by decide)

/-- Key `kConfidence` parses back from its encoding. -/
theorem parse_kConfidence (rest : Bytes) : parseStr (encStr kConfidence ++ rest) = some (kConfidence, rest) :=
  parseStr_enc kConfidence rest (by decide)

/-- Key `kStart` parses back from its encoding. -/
theorem parse_kStart (rest : Bytes) : parseStr (encStr kStart ++ rest) = some (kStart, rest) :=
  parseStr_enc kStart rest (by decide)

/-- Key `kEnd` parses back from its encoding. -/
theorem parse_kEnd (rest : Bytes) : parseStr (encStr kEnd ++ rest) = some (kEnd, rest) :=
  parseStr_enc kEnd rest (by decide)

/-- Key `kTargetId` parses back from its encoding. -/
theorem parse_kTargetId (rest : Bytes) : parseStr (encStr kTargetId ++ rest) = some (kTargetId, rest) :=
  parseStr_enc kTargetId rest (by decide)

/-- Key `kWeight` parses back from its encoding. -/
theorem parse_kWeight (rest : Bytes) : parseStr (encStr kWeight ++ rest) = some (kWeight, rest) :=
  parseStr_enc kWeight rest (by decide)

/-- Key `kSource` parses back from its encoding. -/
theorem parse_kSource (rest : Bytes) : parseStr (encStr kSource ++ rest) = some (kSource, rest) :=
  parseStr_enc kSource rest (by decide)

/-- Key `kCreatedAt` parses back from its encoding. -/
theorem parse_kCreatedAt (rest : Bytes) : parseStr (encStr kCreatedAt ++ rest) = some (kCreatedAt, rest) :=
  parseStr_enc kCreatedAt rest (by decide)

/-- Key `kUpdatedAt` parses back from its encoding. -/
theorem parse_kUpdatedAt (rest : Bytes) : parseStr (encStr kUpdatedAt ++ rest) = some (kUpdatedAt, rest) :=
  parseStr_enc kUpdatedAt rest (by decide)

/-- Key `kImportance` parses back from its encoding. -/
theorem parse_kImportance (rest : Bytes) : parseStr (encStr kImportance ++ rest) = some (kImportance, rest) :=
  parseStr_enc kImportance rest (by decide)

/-- Key `kAccessCount` parses back from its encoding. -/
theorem parse_kAccessCount (rest : Bytes) : parseStr (encStr kAccessCount ++ rest) = some (kAccessCount, rest) :=
  parseStr_enc kAccessCount rest (by decide)

/-- Key `kCustom` parses back from its encoding. -/
theorem parse_kCustom (rest : Bytes) : parseStr (encStr kCustom ++ rest) = some (kCustom, rest) :=
  parseStr_enc kCustom rest (by decide)

/-- Key `kVersion` parses back from its encoding. -/
theorem parse_kVersion (rest : Bytes) : parseStr (encStr kVersion ++ rest) = some (kVersion, rest) :=
  parseStr_enc kVersion rest (by decide)

/-- Key `kCreated` parses back from its encoding. -/
theorem parse_kCreated (rest : Bytes) : parseStr (encStr kCreated ++ rest) = some (kCreated, rest) :=
  parseStr_enc kCreated rest (by decide)

/-- Key `kModified` parses back from its encoding. -/
theorem parse_kModified (rest : Bytes) : parseStr (encStr kModified ++ rest) = some (kModified, rest) :=
  parseStr_enc kModified rest (by decide)

/-- Key `kNodeCount` parses back from its encoding. -/
theorem parse_kNodeCount (rest : Bytes) : parseStr (encStr kNodeCount ++ rest) = some (kNodeCount, rest) :=
  parseStr_enc kNodeCount rest (by decide)

/-- Key `kSchema` parses back from its encoding. -/
theorem parse_kSchema (rest : Bytes) : parseStr (encStr kSchema ++ rest) = some (kSchema, rest) :=
  parseStr_enc kSchema rest (by decide)

/-- Key `kSecurity` parses back from its encoding. -/
theorem parse_kSecurity (rest : Bytes) : parseStr (encStr kSecurity ++ rest) = some (kSecurity, rest) :=
  parseStr_enc kSecurity rest (by decide)

/-- Key `kIntegrity` parses back from its encoding. -/
theorem parse_kIntegrity (rest : Bytes) : parseStr (encStr kIntegrity ++ rest) = some (kIntegrity, rest) :=
  parseStr_enc kIntegrity rest (by decide)

/-- Key `kEncryption` parses back from its encoding. -/
theorem parse_kEncryption (rest : Bytes) : parseStr (encStr kEncryption ++ rest) = some (kEncryption, rest) :=
  parseStr_enc kEncryption rest (by decide)

/-- Key `kKeyId` parses back from its encoding. -/
theorem parse_kKeyId (rest : Bytes) : parseStr (encStr kKeyId ++ rest) = some (kKeyId, rest) :=
  parseStr_enc kKeyId rest (by decide)

/-- Key `kEmbeddingModel` parses back from its encoding. -/
theorem parse_kEmbeddingModel (rest : Bytes) : parseStr (encStr kEmbeddingModel ++ rest) = some (kEmbeddingModel, rest) :=
  parseStr_enc kEmbeddingModel rest (by decide)

/-- Key `kEmbeddingDim` parses back from its encoding. -/
theorem parse_kEmbeddingDim (rest : Bytes) : parseStr (encStr kEmbeddingDim ++ rest) = some (kEmbeddingDim, rest) :=
  parseStr_enc kEmbeddingDim rest (by decide)

/-- Key `kFeatures` parses back from its encoding. -/
theorem parse_kFeatures (rest : Bytes) : parseStr (encStr kFeatures ++ rest) = some (kFeatures, rest) :=
  parseStr_enc kFeatures rest (by decide)

/-- Key `kTitle` parses back from its encoding. -/
theorem parse_kTitle (rest : Bytes) : parseStr (encStr kTitle ++ rest) = some (kTitle, rest) :=
  parseStr_enc kTitle rest (by decide)

/-- Key `kDescription` parses back from its encoding. -/
theorem parse_kDescription (rest : Bytes) : parseStr (encStr kDescription ++ rest) = some (kDescription, rest) :=
  parseStr_enc kDescription rest (by decide)

/-- Key `kAuthor` parses back from its encoding. -/
theorem parse_kAuthor (rest : Bytes) : parseStr (encStr kAuthor ++ rest) = some (kAuthor, rest) :=
  parseStr_enc kAuthor rest (by decide)

/-- Key `kLicense` parses back from its encoding. -/
theorem parse_kLicense (rest : Bytes) : parseStr (encStr kLicense ++ rest) = some (kLicense, rest) :=
  parseStr_enc kLicense rest (by decide)

end Engram

namespace Engram

/-- Distinctness of wire keys `kAccessCount` and `kConfidence`. -/
theorem kne_AccessCount_Confidence : kAccessCount ≠ kConfidence := by decide

/-- Distinctness of wire keys `kAccessCount` and `kCreatedAt`. -/
theorem kne_AccessCount_CreatedAt : kAccessCount ≠ kCreatedAt := by decide

/-- Distinctness of wire keys `kAccessCount` and `kImportance`. -/
theorem kne_AccessCount_Importance : kAccessCount ≠ kImportance := by decide

/-- Distinctness of wire keys `kAccessCount` and `kSource`. -/
theorem kne_AccessCount_Source : kAccessCount ≠ kSource := by decide

/-- Distinctness of wire keys `kAccessCount` and `kUpdatedAt`. -/
theorem kne_AccessCount_UpdatedAt : kAccessCount ≠ kUpdatedAt := by decide

/-- Distinctness of wire keys `kAuthor` and `kDescription`. -/
theorem kne_Author_Description : kAuthor ≠ kDescription := by decide

/-- Distinctness of wire keys `kAuthor` and `kTitle`. -/
theorem kne_Author_Title : kAuthor ≠ kTitle := by decide

/-- Distinctness of wire keys `kChildren` and `kContent`. -/
theorem kne_Children_Content : kChildren ≠ kContent := by decide

/-- Distinctness of wire keys `kChildren` and `kEmbedding`. -/
theorem kne_Children_Embedding : kChildren ≠ kEmbedding := by decide

/-- Distinctness of wire keys `kChildren` and `kEntities`. -/
theorem kne_Children_Entities : kChildren ≠ kEntities := by decide

/-- Distinctness of wire keys `kChildren` and `kId`. -/
theorem kne_Children_Id : kChildren ≠ kId := by decide

/-- Distinctness of wire keys `kChildren` and `kLinks`. -/
theorem kne_Children_Links : kChildren ≠ kLinks := by decide

/-- Distinctness of wire keys `kChildren` and `kMetadata`. -/
theorem kne_Children_Metadata : kChildren ≠ kMetadata := by decide

/-- Distinctness of wire keys `kChildren` and `kTags`. -/
theorem kne_Children_Tags : kChildren ≠ kTags := by decide

/-- Distinctness of wire keys `kConfidence` and `kCreatedAt`. -/
theorem kne_Confidence_CreatedAt : kConfidence ≠ kCreatedAt := by decide

/-- Distinctness of wire keys `kConfidence` and `kName`. -/
theorem kne_Confidence_Name : kConfidence ≠ kName := by decide

/-- Distinctness of wire keys `kConfidence` and `kSource`. -/
theorem kne_Confidence_Source : kConfidence ≠ kSource := by decide

/-- Distinctness of wire keys `kConfidence` and `kType`. -/
theorem kne_Confidence_Type : kConfidence ≠ kType := by decide

/-- Distinctness of wire keys `kConfidence` and `kUpdatedAt`. -/
theorem kne_Confidence_UpdatedAt : kConfidence ≠ kUpdatedAt := by decide

/-- Distinctness of wire keys `kContent` and `kId`. -/
theorem kne_Content_Id : kContent ≠ kId := by decide

/-- Distinctness of wire keys `kCreated` and `kVersion`. -/
theorem kne_Created_Version : kCreated ≠ kVersion := by decide

/-- Distinctness of wire keys `kCreatedAt` and `kSource`. -/
theorem kne_CreatedAt_Source : kCreatedAt ≠ kSource := by decide

/-- Distinctness of wire keys `kCustom` and `kAccessCount`. -/
theorem kne_Custom_AccessCount : kCustom ≠ kAccessCount := by decide

/-- Distinctness of wire keys `kCustom` and `kAuthor`. -/
theorem kne_Custom_Author : kCustom ≠ kAuthor := by decide

/-- Distinctness of wire keys `kCustom` and `kConfidence`. -/
theorem kne_Custom_Confidence : kCustom ≠ kConfidence := by decide

/-- Distinctness of wire keys `kCustom` and `kCreatedAt`. -/
theorem kne_Custom_CreatedAt : kCustom ≠ kCreatedAt := by decide

/-- Distinctness of wire keys `kCustom` and `kDescription`. -/
theorem kne_Custom_Description : kCustom ≠ kDescription := by decide

/-- Distinctness of wire keys `kCustom` and `kImportance`. -/
theorem kne_Custom_Importance : kCustom ≠ kImportance := by decide

/-- Distinctness of wire keys `kCustom` and `kLicense`. -/
theorem kne_Custom_License : kCustom ≠ kLicense := by decide

/-- Distinctness of wire keys `kCustom` and `kSource`. -/
theorem kne_Custom_Source : kCustom ≠ kSource := by decide

/-- Distinctness of wire keys `kCustom` and `kTags`. -/
theorem kne_Custom_Tags : kCustom ≠ kTags := by decide

/-- Distinctness of wire keys `kCustom` and `kTitle`. -/
theorem kne_Custom_Title : kCustom ≠ kTitle := by decide

/-- Distinctness of wire keys `kCustom` and `kUpdatedAt`. -/
theorem kne_Custom_UpdatedAt : kCustom ≠ kUpdatedAt := by decide

/-- Distinctness of wire keys `kDescription` and `kTitle`. -/
theorem kne_Description_Title : kDescription ≠ kTitle := by decide

/-- Distinctness of wire keys `kEmbedding` and `kContent`. -/
theorem kne_Embedding_Content : kEmbedding ≠ kContent := by decide

/-- Distinctness of wire keys `kEmbedding` and `kId`. -/
theorem kne_Embedding_Id : kEmbedding ≠ kId := by decide

/-- Distinctness of wire keys `kEmbeddingDim` and `kEmbeddingModel`. -/
theorem kne_EmbeddingDim_EmbeddingModel : kEmbeddingDim ≠ kEmbeddingModel := by decide

/-- Distinctness of wire keys `kEmbeddingDim` and `kVersion`. -/
theorem kne_EmbeddingDim_Version : kEmbeddingDim ≠ kVersion := by decide

/-- Distinctness of wire keys `kEmbeddingModel` and `kVersion`. -/
theorem kne_EmbeddingModel_Version : kEmbeddingModel ≠ kVersion := by decide

/-- Distinctness of wire keys `kEncryption` and `kIntegrity`. -/
theorem kne_Encryption_Integrity : kEncryption ≠ kIntegrity := by decide

/-- Distinctness of wire keys `kEnd` and `kConfidence`. -/
theorem kne_End_Confidence : kEnd ≠ kConfidence := by decide

/-- Distinctness of wire keys `kEnd` and `kName`. -/
theorem kne_End_Name : kEnd ≠ kName := by decide

/-- Distinctness of wire keys `kEnd` and `kStart`. -/
theorem kne_End_Start : kEnd ≠ kStart := by decide

/-- Distinctness of wire keys `kEnd` and `kType`. -/
theorem kne_End_Type : kEnd ≠ kType := by decide

/-- Distinctness of wire keys `kEntities` and `kContent`. -/
theorem kne_Entities_Content : kEntities ≠ kContent := by decide

/-- Distinctness of wire keys `kEntities` and `kEmbedding`. -/
theorem kne_Entities_Embedding : kEntities ≠ kEmbedding := by decide

/-- Distinctness of wire keys `kEntities` and `kId`. -/
theorem kne_Entities_Id : kEntities ≠ kId := by decide

/-- Distinctness of wire keys `kEntities` and `kTags`. -/
theorem kne_Entities_Tags : kEntities ≠ kTags := by decide

/-- Distinctness of wire keys `kFeatures` and `kEmbeddingDim`. -/
theorem kne_Features_EmbeddingDim : kFeatures ≠ kEmbeddingDim := by decide

/-- Distinctness of wire keys `kFeatures` and `kEmbeddingModel`. -/
theorem kne_Features_EmbeddingModel : kFeatures ≠ kEmbeddingModel := by decide

/-- Distinctness of wire keys `kFeatures` and `kVersion`. -/
theorem kne_Features_Version : kFeatures ≠ kVersion := by decide

/-- Distinctness of wire keys `kImportance` and `kConfidence`. -/
theorem kne_Importance_Confidence : kImportance ≠ kConfidence := by decide

/-- Distinctness of wire keys `kImportance` and `kCreatedAt`. -/
theorem kne_Importance_CreatedAt : kImportance ≠ kCreatedAt := by decide

/-- Distinctness of wire keys `kImportance` and `kSource`. -/
theorem kne_Importance_Source : kImportance ≠ kSource := by decide

/-- Distinctness of wire keys `kImportance` and `kUpdatedAt`. -/
theorem kne_Importance_UpdatedAt : kImportance ≠ kUpdatedAt := by decide

/-- Distinctness of wire keys `kKeyId` and `kEncryption`. -/
theorem kne_KeyId_Encryption : kKeyId ≠ kEncryption := by decide

/-- Distinctness of wire keys `kKeyId` and `kIntegrity`. -/
theorem kne_KeyId_Integrity : kKeyId ≠ kIntegrity := by decide

/-- Distinctness of wire keys `kLicense` and `kAuthor`. -/
theorem kne_License_Author : kLicense ≠ kAuthor := by decide

/-- Distinctness of wire keys `kLicense` and `kDescription`. -/
theorem kne_License_Description : kLicense ≠ kDescription := by decide

/-- Distinctness of wire keys `kLicense` and `kTitle`. -/
theorem kne_License_Title : kLicense ≠ kTitle := by decide

/-- Distinctness of wire keys `kLinks` and `kContent`. -/
theorem kne_Links_Content : kLinks ≠ kContent := by decide

/-- Distinctness of wire keys `kLinks` and `kEmbedding`. -/
theorem kne_Links_Embedding : kLinks ≠ kEmbedding := by decide

/-- Distinctness of wire keys `kLinks` and `kEntities`. -/
theorem kne_Links_Entities : kLinks ≠ kEntities := by decide

/-- Distinctness of wire keys `kLinks` and `kId`. -/
theorem kne_Links_Id : kLinks ≠ kId := by decide

/-- Distinctness of wire keys `kLinks` and `kTags`. -/
theorem kne_Links_Tags : kLinks ≠ kTags := by decide

/-- Distinctness of wire keys `kMetadata` and `kContent`. -/
theorem kne_Metadata_Content : kMetadata ≠ kContent := by decide

/-- Distinctness of wire keys `kMetadata` and `kCreated`. -/
theorem kne_Metadata_Created : kMetadata ≠ kCreated := by decide

/-- Distinctness of wire keys `kMetadata` and `kEmbedding`. -/
theorem kne_Metadata_Embedding : kMetadata ≠ kEmbedding := by decide

/-- Distinctness of wire keys `kMetadata` and `kEntities`. -/
theorem kne_Metadata_Entities : kMetadata ≠ kEntities := by decide

/-- Distinctness of wire keys `kMetadata` and `kId`. -/
theorem kne_Metadata_Id : kMetadata ≠ kId := by decide

/-- Distinctness of wire keys `kMetadata` and `kLinks`. -/
theorem kne_Metadata_Links : kMetadata ≠ kLinks := by decide

/-- Distinctness of wire keys `kMetadata` and `kModified`. -/
theorem kne_Metadata_Modified : kMetadata ≠ kModified := by decide

/-- Distinctness of wire keys `kMetadata` and `kNodeCount`. -/
theorem kne_Metadata_NodeCount : kMetadata ≠ kNodeCount := by decide

/-- Distinctness of wire keys `kMetadata` and `kSchema`. -/
theorem kne_Metadata_Schema : kMetadata ≠ kSchema := by decide

/-- Distinctness of wire keys `kMetadata` and `kSecurity`. -/
theorem kne_Metadata_Security : kMetadata ≠ kSecurity := by decide

/-- Distinctness of wire keys `kMetadata` and `kTags`. -/
theorem kne_Metadata_Tags : kMetadata ≠ kTags := by decide

/-- Distinctness of wire keys `kMetadata` and `kTargetId`. -/
theorem kne_Metadata_TargetId : kMetadata ≠ kTargetId := by decide

/-- Distinctness of wire keys `kMetadata` and `kType`. -/
theorem kne_Metadata_Type : kMetadata ≠ kType := by decide

/-- Distinctness of wire keys `kMetadata` and `kVersion`. -/
theorem kne_Metadata_Version : kMetadata ≠ kVersion := by decide

/-- Distinctness of wire keys `kMetadata` and `kWeight`. -/
theorem kne_Metadata_Weight : kMetadata ≠ kWeight := by decide

/-- Distinctness of wire keys `kModified` and `kCreated`. -/
theorem kne_Modified_Created : kModified ≠ kCreated := by decide

/-- Distinctness of wire keys `kModified` and `kVersion`. -/
theorem kne_Modified_Version : kModified ≠ kVersion := by decide

/-- Distinctness of wire keys `kNodeCount` and `kCreated`. -/
theorem kne_NodeCount_Created : kNodeCount ≠ kCreated := by decide

/-- Distinctness of wire keys `kNodeCount` and `kModified`. -/
theorem kne_NodeCount_Modified : kNodeCount ≠ kModified := by decide

/-- Distinctness of wire keys `kNodeCount` and `kVersion`. -/
theorem kne_NodeCount_Version : kNodeCount ≠ kVersion := by decide

/-- Distinctness of wire keys `kParentId` and `kChildren`. -/
theorem kne_ParentId_Children : kParentId ≠ kChildren := by decide

/-- Distinctness of wire keys `kParentId` and `kContent`. -/
theorem kne_ParentId_Content : kParentId ≠ kContent := by decide

/-- Distinctness of wire keys `kParentId` and `kEmbedding`. -/
theorem kne_ParentId_Embedding : kParentId ≠ kEmbedding := by decide

/-- Distinctness of wire keys `kParentId` and `kEntities`. -/
theorem kne_ParentId_Entities : kParentId ≠ kEntities := by decide

/-- Distinctness of wire keys `kParentId` and `kId`. -/
theorem kne_ParentId_Id : kParentId ≠ kId := by decide

/-- Distinctness of wire keys `kParentId` and `kLinks`. -/
theorem kne_ParentId_Links : kParentId ≠ kLinks := by decide

/-- Distinctness of wire keys `kParentId` and `kMetadata`. -/
theorem kne_ParentId_Metadata : kParentId ≠ kMetadata := by decide

/-- Distinctness of wire keys `kParentId` and `kTags`. -/
theorem kne_ParentId_Tags : kParentId ≠ kTags := by decide

/-- Distinctness of wire keys `kSchema` and `kCreated`. -/
theorem kne_Schema_Created : kSchema ≠ kCreated := by decide

/-- Distinctness of wire keys `kSchema` and `kModified`. -/
theorem kne_Schema_Modified : kSchema ≠ kModified := by decide

/-- Distinctness of wire keys `kSchema` and `kNodeCount`. -/
theorem kne_Schema_NodeCount : kSchema ≠ kNodeCount := by decide

/-- Distinctness of wire keys `kSchema` and `kVersion`. -/
theorem kne_Schema_Version : kSchema ≠ kVersion := by decide

/-- Distinctness of wire keys `kSecurity` and `kCreated`. -/
theorem kne_Security_Created : kSecurity ≠ kCreated := by decide

/-- Distinctness of wire keys `kSecurity` and `kModified`. -/
theorem kne_Security_Modified : kSecurity ≠ kModified := by decide

/-- Distinctness of wire keys `kSecurity` and `kNodeCount`. -/
theorem kne_Security_NodeCount : kSecurity ≠ kNodeCount := by decide

/-- Distinctness of wire keys `kSecurity` and `kSchema`. -/
theorem kne_Security_Schema : kSecurity ≠ kSchema := by decide

/-- Distinctness of wire keys `kSecurity` and `kVersion`. -/
theorem kne_Security_Version : kSecurity ≠ kVersion := by decide

/-- Distinctness of wire keys `kStart` and `kConfidence`. -/
theorem kne_Start_Confidence : kStart ≠ kConfidence := by decide

/-- Distinctness of wire keys `kStart` and `kName`. -/
theorem kne_Start_Name : kStart ≠ kName := by decide

/-- Distinctness of wire keys `kStart` and `kType`. -/
theorem kne_Start_Type : kStart ≠ kType := by decide

/-- Distinctness of wire keys `kTags` and `kAuthor`. -/
theorem kne_Tags_Author : kTags ≠ kAuthor := by decide

/-- Distinctness of wire keys `kTags` and `kContent`. -/
theorem kne_Tags_Content : kTags ≠ kContent := by decide

/-- Distinctness of wire keys `kTags` and `kDescription`. -/
theorem kne_Tags_Description : kTags ≠ kDescription := by decide

/-- Distinctness of wire keys `kTags` and `kEmbedding`. -/
theorem kne_Tags_Embedding : kTags ≠ kEmbedding := by decide

/-- Distinctness of wire keys `kTags` and `kId`. -/
theorem kne_Tags_Id : kTags ≠ kId := by decide

/-- Distinctness of wire keys `kTags` and `kLicense`. -/
theorem kne_Tags_License : kTags ≠ kLicense := by decide

/-- Distinctness of wire keys `kTags` and `kTitle`. -/
theorem kne_Tags_Title : kTags ≠ kTitle := by decide

/-- Distinctness of wire keys `kType` and `kName`. -/
theorem kne_Type_Name : kType ≠ kName := by decide

/-- Distinctness of wire keys `kType` and `kTargetId`. -/
theorem kne_Type_TargetId : kType ≠ kTargetId := by decide

/-- Distinctness of wire keys `kUpdatedAt` and `kCreatedAt`. -/
theorem kne_UpdatedAt_CreatedAt : kUpdatedAt ≠ kCreatedAt := by decide

/-- Distinctness of wire keys `kUpdatedAt` and `kSource`. -/
theorem kne_UpdatedAt_Source : kUpdatedAt ≠ kSource := by decide

/-- Distinctness of wire keys `kWeight` and `kTargetId`. -/
theorem kne_Weight_TargetId : kWeight ≠ kTargetId := by decide

/-- Distinctness of wire keys `kWeight` and `kType`. -/
theorem kne_Weight_Type : kWeight ≠ kType := by decide

end Engram
namespace Engram

theorem parseEntity_enc (fuel : Nat) (e : Entity) (rest : Bytes) (h : goodEntity e) :
    parseEntity fuel (encEntity e ++ rest) = some (e, rest) := by
  obtain ⟨h1, h2, h3, h4, h5⟩ := h
  obtain ⟨name, ty, conf, st, en⟩ := e
  simp only at h1 h2 h3 h4 h5
  have hcf : goodF32 conf := h3.1
  by_cases hc : conf = 0
  · subst hc
    by_cases hs : st = 0
    · subst hs
      by_cases hd : en = 0
      · subst hd
        simp [encEntity, encFields, encField, encMapHdr, floatZero,
          parseEntity, parseMapLen, parseEntityFields,
          kne_Type_Name, kne_Confidence_Name, kne_Confidence_Type, kne_Start_Name, kne_Start_Type, kne_Start_Confidence, kne_End_Name, kne_End_Type, kne_End_Confidence, kne_End_Start,
          parse_kName, parse_kType, parseStr_enc, h1, h2, zeroEntity]
      · simp [encEntity, encFields, encField, encMapHdr, floatZero, hd,
          parseEntity, parseMapLen, parseEntityFields,
          kne_Type_Name, kne_Confidence_Name, kne_Confidence_Type, kne_Start_Name, kne_Start_Type, kne_Start_Confidence, kne_End_Name, kne_End_Type, kne_End_Confidence, kne_End_Start,
          parse_kName, parse_kType, parse_kEnd, parseStr_enc, parseInt_enc,
          h1, h2, h5, zeroEntity]
    · by_cases hd : en = 0
      · subst hd
        simp [encEntity, encFields, encField, encMapHdr, floatZero, hs,
          parseEntity, parseMapLen, parseEntityFields,
          kne_Type_Name, kne_Confidence_Name, kne_Confidence_Type, kne_Start_Name, kne_Start_Type, kne_Start_Confidence, kne_End_Name, kne_End_Type, kne_End_Confidence, kne_End_Start,
          parse_kName, parse_kType, parse_kStart, parseStr_enc, parseInt_enc,
          h1, h2, h4, zeroEntity]
      · simp [encEntity, encFields, encField, encMapHdr, floatZero, hs, hd,
          parseEntity, parseMapLen, parseEntityFields,
          kne_Type_Name, kne_Confidence_Name, kne_Confidence_Type, kne_Start_Name, kne_Start_Type, kne_Start_Confidence, kne_End_Name, kne_End_Type, kne_End_Confidence, kne_End_Start,
          parse_kName, parse_kType, parse_kStart, parse_kEnd, parseStr_enc, parseInt_enc,
          h1, h2, h4, h5, zeroEntity]
  · have hfz : ¬floatZero conf := by
      unfold floatZero
      have := h3.2
      omega
    by_cases hs : st = 0
    · subst hs
      by_cases hd : en = 0
      · subst hd
        simp [encEntity, encFields, encField, encMapHdr, hfz,
          parseEntity, parseMapLen, parseEntityFields,
          kne_Type_Name, kne_Confidence_Name, kne_Confidence_Type, kne_Start_Name, kne_Start_Type, kne_Start_Confidence, kne_End_Name, kne_End_Type, kne_End_Confidence, kne_End_Start,
          parse_kName, parse_kType, parse_kConfidence, parseStr_enc, parseF32_enc,
          h1, h2, hcf, zeroEntity]
      · simp [encEntity, encFields, encField, encMapHdr, hfz, hd,
          parseEntity, parseMapLen, parseEntityFields,
          kne_Type_Name, kne_Confidence_Name, kne_Confidence_Type, kne_Start_Name, kne_Start_Type, kne_Start_Confidence, kne_End_Name, kne_End_Type, kne_End_Confidence, kne_End_Start,
          parse_kName, parse_kType, parse_kConfidence, parse_kEnd,
          parseStr_enc, parseF32_enc, parseInt_enc,
          h1, h2, h5, hcf, zeroEntity]
    · by_cases hd : en = 0
      · subst hd
        simp [encEntity, encFields, encField, encMapHdr, hfz, hs,
          parseEntity, parseMapLen, parseEntityFields,
          kne_Type_Name, kne_Confidence_Name, kne_Confidence_Type, kne_Start_Name, kne_Start_Type, kne_Start_Confidence, kne_End_Name, kne_End_Type, kne_End_Confidence, kne_End_Start,
          parse_kName, parse_kType, parse_kConfidence, parse_kStart,
          parseStr_enc, parseF32_enc, parseInt_enc,
          h1, h2, h4, hcf, zeroEntity]
      · simp [encEntity, encFields, encField, encMapHdr, hfz, hs, hd,
          parseEntity, parseMapLen, parseEntityFields,
          kne_Type_Name, kne_Confidence_Name, kne_Confidence_Type, kne_Start_Name, kne_Start_Type, kne_Start_Confidence, kne_End_Name, kne_End_Type, kne_End_Confidence, kne_End_Start,
          parse_kName, parse_kType, parse_kConfidence, parse_kStart, parse_kEnd,
          parseStr_enc, parseF32_enc, parseInt_enc,
          h1, h2, h4, h5, hcf, zeroEntity]

end Engram

namespace Engram

theorem parseLink_enc (fuel : Nat) (l : Link) (rest : Bytes) (h : goodLink l)
    (hfuel : sizeValKVs l.metadata ≤ fuel) :
    parseLink fuel (encLink l ++ rest) = some (l, rest) := by
  obtain ⟨h1, h2, h3, h4, h5⟩ := h
  obtain ⟨tid, ty, w, md⟩ := l
  simp only at h1 h2 h3 h4 h5 hfuel
  have hw : goodF32 w := h3.1
  have hmv : ∀ tail, parseMapVal fuel (encMapVal md ++ tail) = some (md, tail) :=
    fun tail => parseMapVal_enc fuel md tail h4 h5 hfuel
  by_cases hwz : w = 0
  · subst hwz
    by_cases hmd : md = []
    · subst hmd
      simp [encLink, encFields, encField, encMapHdr, floatZero,
        parseLink, parseMapLen, parseLinkFields,
        kne_Type_TargetId, kne_Weight_TargetId, kne_Weight_Type,
        kne_Metadata_TargetId, kne_Metadata_Type, kne_Metadata_Weight,
        parse_kTargetId, parse_kType, parseStr_enc, h1, h2, zeroLink]
    · have hne : md.isEmpty = false := by
        simpa [List.isEmpty_iff] using hmd
      simp [encLink, encFields, encField, encMapHdr, floatZero, hne,
        parseLink, parseMapLen, parseLinkFields,
        kne_Type_TargetId, kne_Weight_TargetId, kne_Weight_Type,
        kne_Metadata_TargetId, kne_Metadata_Type, kne_Metadata_Weight,
        parse_kTargetId, parse_kType, parse_kMetadata, parseStr_enc, hmv,
        h1, h2, zeroLink]
  · have hfz : ¬floatZero w := by
      unfold floatZero
      have := h3.2
      omega
    by_cases hmd : md = []
    · subst hmd
      simp [encLink, encFields, encField, encMapHdr, hfz,
        parseLink, parseMapLen, parseLinkFields,
        kne_Type_TargetId, kne_Weight_TargetId, kne_Weight_Type,
        kne_Metadata_TargetId, kne_Metadata_Type, kne_Metadata_Weight,
        parse_kTargetId, parse_kType, parse_kWeight, parseStr_enc, parseF32_enc,
        h1, h2, hw, zeroLink]
    · have hne : md.isEmpty = false := by
        simpa [List.isEmpty_iff] using hmd
      simp [encLink, encFields, encField, encMapHdr, hfz, hne,
        parseLink, parseMapLen, parseLinkFields,
        kne_Type_TargetId, kne_Weight_TargetId, kne_Weight_Type,
        kne_Metadata_TargetId, kne_Metadata_Type, kne_Metadata_Weight,
        parse_kTargetId, parse_kType, parse_kWeight, parse_kMetadata,
        parseStr_enc, parseF32_enc, hmv, h1, h2, hw, zeroLink]

theorem parseSecurityInfo_enc (fuel : Nat) (s : SecurityInfo) (rest : Bytes)
    (h : goodSecurityInfo s) :
    parseSecurityInfo fuel (encSecurityInfo s ++ rest) = some (s, rest) := by
  obtain ⟨h1, h2, h3⟩ := h
  obtain ⟨ig, enc, kid⟩ := s
  simp only at h1 h2 h3
  by_cases hi : ig = [] <;> by_cases he : enc = [] <;> by_cases hk : kid = [] <;>
    simp [encSecurityInfo, encFields, encField, encMapHdr, hi, he, hk,
      parseSecurityInfo, parseMapLen, parseSecurityInfoFields,
      kne_Encryption_Integrity, kne_KeyId_Integrity, kne_KeyId_Encryption,
      parse_kIntegrity, parse_kEncryption, parse_kKeyId, parseStr_enc,
      h1, h2, h3, zeroSecurityInfo]

theorem parseSchemaInfo_enc (fuel : Nat) (s : SchemaInfo) (rest : Bytes)
    (h : goodSchemaInfo s) :
    parseSchemaInfo fuel (encSchemaInfo s ++ rest) = some (s, rest) := by
  obtain ⟨h1, h2, h3, h4, h5⟩ := h
  obtain ⟨ver, em, dim, feats⟩ := s
  simp only at h1 h2 h3 h4 h5
  have hfa : ∀ tail, parseArrayOf parseStr (encArray encStr feats ++ tail) =
      some (feats, tail) :=
    fun tail => parseArrayOf_enc parseStr encStr feats tail h4
      (fun x hx r => parseStr_enc x r (h5 x hx))
  by_cases hv : ver = [] <;> by_cases hm : em = [] <;> by_cases hf : feats = []
  all_goals
    by_cases hd : dim = 0
  all_goals
    first
    | (subst hd
       simp [encSchemaInfo, encFields, encField, encMapHdr, hv, hm, hf,
         parseSchemaInfo, parseMapLen, parseSchemaInfoFields,
         kne_EmbeddingModel_Version, kne_EmbeddingDim_Version,
         kne_EmbeddingDim_EmbeddingModel, kne_Features_Version,
         kne_Features_EmbeddingModel, kne_Features_EmbeddingDim,
         parse_kVersion, parse_kEmbeddingModel, parse_kFeatures,
         parseStr_enc, hfa, h1, h2, zeroSchemaInfo])
    | simp [encSchemaInfo, encFields, encField, encMapHdr, hv, hm, hf, hd,
        parseSchemaInfo, parseMapLen, parseSchemaInfoFields,
        kne_EmbeddingModel_Version, kne_EmbeddingDim_Version,
        kne_EmbeddingDim_EmbeddingModel, kne_Features_Version,
        kne_Features_EmbeddingModel, kne_Features_EmbeddingDim,
        parse_kVersion, parse_kEmbeddingModel, parse_kEmbeddingDim, parse_kFeatures,
        parseStr_enc, parseInt_enc, hfa, h1, h2, h3, zeroSchemaInfo]

end Engram

namespace Engram

theorem mem_opt {α : Type} {a x : α} {c : Prop} [Decidable c]
    (h : a ∈ (if c then ([] : List α) else [x])) : a = x := by
  split at h
  · simp at h
  · simpa using h

theorem mem_option_seg {α β : Type} {it : β} {o : Option α} {g : α → β}
    (h : it ∈ optSeg o g) : ∃ t, o = some t ∧ it = g t := by
  cases o <;> simp_all [optSeg]

theorem map_option_seg {α β γ : Type} (f : β → γ) (o : Option α) (g : α → β) :
    (optSeg o g).map f = optSeg o (fun t => f (g t)) := by
  cases o <;> rfl

theorem length_ite_le {α : Type} (c : Prop) [Decidable c] (x : α) :
    (if c then ([] : List α) else [x]).length ≤ 1 := by
  split <;> simp

theorem length_option_seg_le {α β : Type} (o : Option α) (g : α → β) :
    (optSeg o g).length ≤ 1 := by
  cases o <;> simp [optSeg]

theorem parseNodeMeta_entry (fuel n : Nat) (hn : n < 4294967296) (bs rest : Bytes) :
    parseNodeMeta fuel ((encMapHdr n ++ bs) ++ rest) = parseNodeMetaFields fuel n zeroNodeMeta (bs ++ rest) := by
  by_cases h16 : n < 16
  · have he : (encMapHdr n ++ bs) ++ rest = (128 + n) :: (bs ++ rest) := by
      simp [encMapHdr, h16]
    rw [he]
    simp only [parseNodeMeta]
    rw [if_neg (by omega)]
    have hm : parseMapLen ((128 + n) :: (bs ++ rest)) = some (n, bs ++ rest) := by
      simp only [parseMapLen]
      rw [if_pos (by omega)]
      simp
    rw [hm]
  · by_cases h64k : n < 65536
    · have he : (encMapHdr n ++ bs) ++ rest = 0xde :: (be 2 n ++ (bs ++ rest)) := by
        simp [encMapHdr, h16, h64k]
      rw [he]
      simp only [parseNodeMeta]
      rw [if_neg (by omega)]
      have hm : parseMapLen (0xde :: (be 2 n ++ (bs ++ rest))) = some (n, bs ++ rest) := by
        simp only [parseMapLen]
        rw [if_neg (by omega), if_pos trivial]
        exact readBe_be 2 n (by omega) _
      rw [hm]
    · have he : (encMapHdr n ++ bs) ++ rest = 0xdf :: (be 4 n ++ (bs ++ rest)) := by
        simp [encMapHdr, h16, h64k]
      rw [he]
      simp only [parseNodeMeta]
      rw [if_neg (by omega)]
      have hm : parseMapLen (0xdf :: (be 4 n ++ (bs ++ rest))) = some (n, bs ++ rest) := by
        simp only [parseMapLen]
        rw [if_neg (by omega), if_neg (by omega), if_pos trivial]
        exact readBe_be 4 n (by omega) _
      rw [hm]

theorem parseNodeMetaFields_chain (fuel : Nat) (items : List (Bytes × (NodeMeta → NodeMeta)))
    (hstep : ∀ it ∈ items, ∀ (n : Nat) (acc : NodeMeta) (tail : Bytes),
        parseNodeMetaFields fuel (n + 1) acc (it.1 ++ tail) = parseNodeMetaFields fuel n (it.2 acc) tail) :
    ∀ (acc : NodeMeta) (rest : Bytes),
      parseNodeMetaFields fuel items.length acc ((items.map Prod.fst).flatten ++ rest) =
        some (items.foldl (fun a it => it.2 a) acc, rest) := by
  induction items with
  | nil =>
      intro acc rest
      rfl
  | cons it items ih =>
      intro acc rest
      simp only [List.map_cons, List.flatten_cons, List.length_cons, List.append_assoc,
        List.foldl_cons]
      rw [hstep it (by simp) items.length acc _]
      exact ih (fun x hx => hstep x (by simp [hx])) (it.2 acc) rest

theorem stepNM_source (fuel n : Nat) (acc : NodeMeta) (tail venc : Bytes) (v : GoStr)
    (hv : parseStr (venc ++ tail) = some (v, tail)) :
    parseNodeMetaFields fuel (n + 1) acc ((encStr kSource ++ venc) ++ tail) =
      parseNodeMetaFields fuel n { acc with source := v } tail := by
  simp only [List.append_assoc]
  simp [parseNodeMetaFields, parse_kSource, hv]

theorem stepNM_createdAt (fuel n : Nat) (acc : NodeMeta) (tail venc : Bytes) (v : TimeVal)
    (hv : parseTime (venc ++ tail) = some (v, tail)) :
    parseNodeMetaFields fuel (n + 1) acc ((encStr kCreatedAt ++ venc) ++ tail) =
      parseNodeMetaFields fuel n { acc with createdAt := some v } tail := by
  simp only [List.append_assoc]
  simp [parseNodeMetaFields, parse_kCreatedAt, kne_CreatedAt_Source, hv]

theorem stepNM_updatedAt (fuel n : Nat) (acc : NodeMeta) (tail venc : Bytes) (v : TimeVal)
    (hv : parseTime (venc ++ tail) = some (v, tail)) :
    parseNodeMetaFields fuel (n + 1) acc ((encStr kUpdatedAt ++ venc) ++ tail) =
      parseNodeMetaFields fuel n { acc with updatedAt := some v } tail := by
  simp only [List.append_assoc]
  simp [parseNodeMetaFields, parse_kUpdatedAt, kne_UpdatedAt_Source, kne_UpdatedAt_CreatedAt, hv]

theorem stepNM_confidence (fuel n : Nat) (acc : NodeMeta) (tail venc : Bytes) (v : Nat)
    (hv : parseF32 (venc ++ tail) = some (v, tail)) :
    parseNodeMetaFields fuel (n + 1) acc ((encStr kConfidence ++ venc) ++ tail) =
      parseNodeMetaFields fuel n { acc with confidence := v } tail := by
  simp only [List.append_assoc]
  simp [parseNodeMetaFields, parse_kConfidence, kne_Confidence_Source, kne_Confidence_CreatedAt, kne_Confidence_UpdatedAt, hv]

theorem stepNM_importance (fuel n : Nat) (acc : NodeMeta) (tail venc : Bytes) (v : Nat)
    (hv : parseF32 (venc ++ tail) = some (v, tail)) :
    parseNodeMetaFields fuel (n + 1) acc ((encStr kImportance ++ venc) ++ tail) =
      parseNodeMetaFields fuel n { acc with importance := v } tail := by
  simp only [List.append_assoc]
  simp [parseNodeMetaFields, parse_kImportance, kne_Importance_Source, kne_Importance_CreatedAt, kne_Importance_UpdatedAt, kne_Importance_Confidence, hv]

theorem stepNM_accessCount (fuel n : Nat) (acc : NodeMeta) (tail venc : Bytes) (v : Int)
    (hv : parseInt (venc ++ tail) = some (v, tail)) :
    parseNodeMetaFields fuel (n + 1) acc ((encStr kAccessCount ++ venc) ++ tail) =
      parseNodeMetaFields fuel n { acc with accessCount := v } tail := by
  simp only [List.append_assoc]
  simp [parseNodeMetaFields, parse_kAccessCount, kne_AccessCount_Source, kne_AccessCount_CreatedAt, kne_AccessCount_UpdatedAt, kne_AccessCount_Confidence, kne_AccessCount_Importance, hv]

theorem stepNM_custom (fuel n : Nat) (acc : NodeMeta) (tail venc : Bytes) (v : List (GoStr × MsgVal))
    (hv : parseMapVal fuel (venc ++ tail) = some (v, tail)) :
    parseNodeMetaFields fuel (n + 1) acc ((encStr kCustom ++ venc) ++ tail) =
      parseNodeMetaFields fuel n { acc with custom := v } tail := by
  simp only [List.append_assoc]
  simp [parseNodeMetaFields, parse_kCustom, kne_Custom_Source, kne_Custom_CreatedAt, kne_Custom_UpdatedAt, kne_Custom_Confidence, kne_Custom_Importance, kne_Custom_AccessCount, hv]

theorem parseMemoryNode_entry (fuel n : Nat) (hn : n < 4294967296) (bs rest : Bytes) :
    parseMemoryNode fuel ((encMapHdr n ++ bs) ++ rest) = parseMemoryNodeFields fuel n zeroMemoryNode (bs ++ rest) := by
  by_cases h16 : n < 16
  · have he : (encMapHdr n ++ bs) ++ rest = (128 + n) :: (bs ++ rest) := by
      simp [encMapHdr, h16]
    rw [he]
    simp only [parseMemoryNode]
    rw [if_neg (by omega)]
    have hm : parseMapLen ((128 + n) :: (bs ++ rest)) = some (n, bs ++ rest) := by
      simp only [parseMapLen]
      rw [if_pos (by omega)]
      simp
    rw [hm]
  · by_cases h64k : n < 65536
    · have he : (encMapHdr n ++ bs) ++ rest = 0xde :: (be 2 n ++ (bs ++ rest)) := by
        simp [encMapHdr, h16, h64k]
      rw [he]
      simp only [parseMemoryNode]
      rw [if_neg (by omega)]
      have hm : parseMapLen (0xde :: (be 2 n ++ (bs ++ rest))) = some (n, bs ++ rest) := by
        simp only [parseMapLen]
        rw [if_neg (by omega), if_pos trivial]
        exact readBe_be 2 n (by omega) _
      rw [hm]
    · have he : (encMapHdr n ++ bs) ++ rest = 0xdf :: (be 4 n ++ (bs ++ rest)) := by
        simp [encMapHdr, h16, h64k]
      rw [he]
      simp only [parseMemoryNode]
      rw [if_neg (by omega)]
      have hm : parseMapLen (0xdf :: (be 4 n ++ (bs ++ rest))) = some (n, bs ++ rest) := by
        simp only [parseMapLen]
        rw [if_neg (by omega), if_neg (by omega), if_pos trivial]
        exact readBe_be 4 n (by omega) _
      rw [hm]

theorem parseMemoryNodeFields_chain (fuel : Nat) (items : List (Bytes × (MemoryNode → MemoryNode)))
    (hstep : ∀ it ∈ items, ∀ (n : Nat) (acc : MemoryNode) (tail : Bytes),
        parseMemoryNodeFields fuel (n + 1) acc (it.1 ++ tail) = parseMemoryNodeFields fuel n (it.2 acc) tail) :
    ∀ (acc : MemoryNode) (rest : Bytes),
      parseMemoryNodeFields fuel items.length acc ((items.map Prod.fst).flatten ++ rest) =
        some (items.foldl (fun a it => it.2 a) acc, rest) := by
  induction items with
  | nil =>
      intro acc rest
      rfl
  | cons it items ih =>
      intro acc rest
      simp only [List.map_cons, List.flatten_cons, List.length_cons, List.append_assoc,
        List.foldl_cons]
      rw [hstep it (by simp) items.length acc _]
      exact ih (fun x hx => hstep x (by simp [hx])) (it.2 acc) rest

theorem stepN_id (fuel n : Nat) (acc : MemoryNode) (tail venc : Bytes) (v : GoStr)
    (hv : parseStr (venc ++ tail) = some (v, tail)) :
    parseMemoryNodeFields fuel (n + 1) acc ((encStr kId ++ venc) ++ tail) =
      parseMemoryNodeFields fuel n { acc with id := v } tail := by
  simp only [List.append_assoc]
  simp [parseMemoryNodeFields, parse_kId, hv]

theorem stepN_content (fuel n : Nat) (acc : MemoryNode) (tail venc : Bytes) (v : GoStr)
    (hv : parseStr (venc ++ tail) = some (v, tail)) :
    parseMemoryNodeFields fuel (n + 1) acc ((encStr kContent ++ venc) ++ tail) =
      parseMemoryNodeFields fuel n { acc with content := v } tail := by
  simp only [List.append_assoc]
  simp [parseMemoryNodeFields, parse_kContent, kne_Content_Id, hv]

theorem stepN_embedding (fuel n : Nat) (acc : MemoryNode) (tail venc : Bytes) (v : List Nat)
    (hv : parseArrayOf parseF32 (venc ++ tail) = some (v, tail)) :
    parseMemoryNodeFields fuel (n + 1) acc ((encStr kEmbedding ++ venc) ++ tail) =
      parseMemoryNodeFields fuel n { acc with embedding := v } tail := by
  simp only [List.append_assoc]
  simp [parseMemoryNodeFields, parse_kEmbedding, kne_Embedding_Id, kne_Embedding_Content, hv]

theorem stepN_tags (fuel n : Nat) (acc : MemoryNode) (tail venc : Bytes) (v : List GoStr)
    (hv : parseArrayOf parseStr (venc ++ tail) = some (v, tail)) :
    parseMemoryNodeFields fuel (n + 1) acc ((encStr kTags ++ venc) ++ tail) =
      parseMemoryNodeFields fuel n { acc with tags := v } tail := by
  simp only [List.append_assoc]
  simp [parseMemoryNodeFields, parse_kTags, kne_Tags_Id, kne_Tags_Content, kne_Tags_Embedding, hv]

theorem stepN_entities (fuel n : Nat) (acc : MemoryNode) (tail venc : Bytes) (v : List Entity)
    (hv : parseArrayOf (parseEntity fuel) (venc ++ tail) = some (v, tail)) :
    parseMemoryNodeFields fuel (n + 1) acc ((encStr kEntities ++ venc) ++ tail) =
      parseMemoryNodeFields fuel n { acc with entities := v } tail := by
  simp only [List.append_assoc]
  simp [parseMemoryNodeFields, parse_kEntities, kne_Entities_Id, kne_Entities_Content, kne_Entities_Embedding, kne_Entities_Tags, hv]

theorem stepN_links (fuel n : Nat) (acc : MemoryNode) (tail venc : Bytes) (v : List Link)
    (hv : parseArrayOf (parseLink fuel) (venc ++ tail) = some (v, tail)) :
    parseMemoryNodeFields fuel (n + 1) acc ((encStr kLinks ++ venc) ++ tail) =
      parseMemoryNodeFields fuel n { acc with links := v } tail := by
  simp only [List.append_assoc]
  simp [parseMemoryNodeFields, parse_kLinks, kne_Links_Id, kne_Links_Content, kne_Links_Embedding, kne_Links_Tags, kne_Links_Entities, hv]

theorem stepN_metadata (fuel n : Nat) (acc : MemoryNode) (tail venc : Bytes) (v : NodeMeta)
    (hv : parseNodeMeta fuel (venc ++ tail) = some (v, tail)) :
    parseMemoryNodeFields fuel (n + 1) acc ((encStr kMetadata ++ venc) ++ tail) =
      parseMemoryNodeFields fuel n { acc with metadata := v } tail := by
  simp only [List.append_assoc]
  simp [parseMemoryNodeFields, parse_kMetadata, kne_Metadata_Id, kne_Metadata_Content, kne_Metadata_Embedding, kne_Metadata_Tags, kne_Metadata_Entities, kne_Metadata_Links, hv]

theorem stepN_children (fuel n : Nat) (acc : MemoryNode) (tail venc : Bytes) (v : List GoStr)
    (hv : parseArrayOf parseStr (venc ++ tail) = some (v, tail)) :
    parseMemoryNodeFields fuel (n + 1) acc ((encStr kChildren ++ venc) ++ tail) =
      parseMemoryNodeFields fuel n { acc with children := v } tail := by
  simp only [List.append_assoc]
  simp [parseMemoryNodeFields, parse_kChildren, kne_Children_Id, kne_Children_Content, kne_Children_Embedding, kne_Children_Tags, kne_Children_Entities, kne_Children_Links, kne_Children_Metadata, hv]

theorem stepN_parentId (fuel n : Nat) (acc : MemoryNode) (tail venc : Bytes) (v : GoStr)
    (hv : parseStr (venc ++ tail) = some (v, tail)) :
    parseMemoryNodeFields fuel (n + 1) acc ((encStr kParentId ++ venc) ++ tail) =
      parseMemoryNodeFields fuel n { acc with parentId := v } tail := by
  simp only [List.append_assoc]
  simp [parseMemoryNodeFields, parse_kParentId, kne_ParentId_Id, kne_ParentId_Content, kne_ParentId_Embedding, kne_ParentId_Tags, kne_ParentId_Entities, kne_ParentId_Links, kne_ParentId_Metadata, kne_ParentId_Children, hv]

theorem parseFileMeta_entry (fuel n : Nat) (hn : n < 4294967296) (bs rest : Bytes) :
    parseFileMeta fuel ((encMapHdr n ++ bs) ++ rest) = parseFileMetaFields fuel n zeroFileMeta (bs ++ rest) := by
  by_cases h16 : n < 16
  · have he : (encMapHdr n ++ bs) ++ rest = (128 + n) :: (bs ++ rest) := by
      simp [encMapHdr, h16]
    rw [he]
    simp only [parseFileMeta]
    rw [if_neg (by omega)]
    have hm : parseMapLen ((128 + n) :: (bs ++ rest)) = some (n, bs ++ rest) := by
      simp only [parseMapLen]
      rw [if_pos (by omega)]
      simp
    rw [hm]
  · by_cases h64k : n < 65536
    · have he : (encMapHdr n ++ bs) ++ rest = 0xde :: (be 2 n ++ (bs ++ rest)) := by
        simp [encMapHdr, h16, h64k]
      rw [he]
      simp only [parseFileMeta]
      rw [if_neg (by omega)]
      have hm : parseMapLen (0xde :: (be 2 n ++ (bs ++ rest))) = some (n, bs ++ rest) := by
        simp only [parseMapLen]
        rw [if_neg (by omega), if_pos trivial]
        exact readBe_be 2 n (by omega) _
      rw [hm]
    · have he : (encMapHdr n ++ bs) ++ rest = 0xdf :: (be 4 n ++ (bs ++ rest)) := by
        simp [encMapHdr, h16, h64k]
      rw [he]
      simp only [parseFileMeta]
      rw [if_neg (by omega)]
      have hm : parseMapLen (0xdf :: (be 4 n ++ (bs ++ rest))) = some (n, bs ++ rest) := by
        simp only [parseMapLen]
        rw [if_neg (by omega), if_neg (by omega), if_pos trivial]
        exact readBe_be 4 n (by omega) _
      rw [hm]

theorem parseFileMetaFields_chain (fuel : Nat) (items : List (Bytes × (FileMeta → FileMeta)))
    (hstep : ∀ it ∈ items, ∀ (n : Nat) (acc : FileMeta) (tail : Bytes),
        parseFileMetaFields fuel (n + 1) acc (it.1 ++ tail) = parseFileMetaFields fuel n (it.2 acc) tail) :
    ∀ (acc : FileMeta) (rest : Bytes),
      parseFileMetaFields fuel items.length acc ((items.map Prod.fst).flatten ++ rest) =
        some (items.foldl (fun a it => it.2 a) acc, rest) := by
  induction items with
  | nil =>
      intro acc rest
      rfl
  | cons it items ih =>
      intro acc rest
      simp only [List.map_cons, List.flatten_cons, List.length_cons, List.append_assoc,
        List.foldl_cons]
      rw [hstep it (by simp) items.length acc _]
      exact ih (fun x hx => hstep x (by simp [hx])) (it.2 acc) rest

theorem stepFM_title (fuel n : Nat) (acc : FileMeta) (tail venc : Bytes) (v : GoStr)
    (hv : parseStr (venc ++ tail) = some (v, tail)) :
    parseFileMetaFields fuel (n + 1) acc ((encStr kTitle ++ venc) ++ tail) =
      parseFileMetaFields fuel n { acc with title := v } tail := by
  simp only [List.append_assoc]
  simp [parseFileMetaFields, parse_kTitle, hv]

theorem stepFM_description (fuel n : Nat) (acc : FileMeta) (tail venc : Bytes) (v : GoStr)
    (hv : parseStr (venc ++ tail) = some (v, tail)) :
    parseFileMetaFields fuel (n + 1) acc ((encStr kDescription ++ venc) ++ tail) =
      parseFileMetaFields fuel n { acc with description := v } tail := by
  simp only [List.append_assoc]
  simp [parseFileMetaFields, parse_kDescription, kne_Description_Title, hv]

theorem stepFM_author (fuel n : Nat) (acc : FileMeta) (tail venc : Bytes) (v : GoStr)
    (hv : parseStr (venc ++ tail) = some (v, tail)) :
    parseFileMetaFields fuel (n + 1) acc ((encStr kAuthor ++ venc) ++ tail) =
      parseFileMetaFields fuel n { acc with author := v } tail := by
  simp only [List.append_assoc]
  simp [parseFileMetaFields, parse_kAuthor, kne_Author_Title, kne_Author_Description, hv]

theorem stepFM_license (fuel n : Nat) (acc : FileMeta) (tail venc : Bytes) (v : GoStr)
    (hv : parseStr (venc ++ tail) = some (v, tail)) :
    parseFileMetaFields fuel (n + 1) acc ((encStr kLicense ++ venc) ++ tail) =
      parseFileMetaFields fuel n { acc with license := v } tail := by
  simp only [List.append_assoc]
  simp [parseFileMetaFields, parse_kLicense, kne_License_Title, kne_License_Description, kne_License_Author, hv]

theorem stepFM_tags (fuel n : Nat) (acc : FileMeta) (tail venc : Bytes) (v : List GoStr)
    (hv : parseArrayOf parseStr (venc ++ tail) = some (v, tail)) :
    parseFileMetaFields fuel (n + 1) acc ((encStr kTags ++ venc) ++ tail) =
      parseFileMetaFields fuel n { acc with tags := v } tail := by
  simp only [List.append_assoc]
  simp [parseFileMetaFields, parse_kTags, kne_Tags_Title, kne_Tags_Description, kne_Tags_Author, kne_Tags_License, hv]

theorem stepFM_custom (fuel n : Nat) (acc : FileMeta) (tail venc : Bytes) (v : List (GoStr × MsgVal))
    (hv : parseMapVal fuel (venc ++ tail) = some (v, tail)) :
    parseFileMetaFields fuel (n + 1) acc ((encStr kCustom ++ venc) ++ tail) =
      parseFileMetaFields fuel n { acc with custom := v } tail := by
  simp only [List.append_assoc]
  simp [parseFileMetaFields, parse_kCustom, kne_Custom_Title, kne_Custom_Description, kne_Custom_Author, kne_Custom_License, kne_Custom_Tags, hv]

end Engram

namespace Engram

theorem parseNodeMeta_enc (fuel : Nat) (m : NodeMeta) (rest : Bytes) (h : goodNodeMeta m)
    (hfuel : sizeValKVs m.custom ≤ fuel) :
    parseNodeMeta fuel (encNodeMeta m ++ rest) = some (m, rest) := by
  obtain ⟨h1, h2, h3, h4, h5, h6, h7, h8⟩ := h
  obtain ⟨src, cA, uA, conf, imp, acC, cust⟩ := m
  dsimp only at h1 h2 h3 h4 h5 h6 h7 h8 hfuel
  set items : List (Bytes × (NodeMeta → NodeMeta)) :=
    (if src = [] then []
     else [(encField kSource (encStr src), fun a => { a with source := src })])
    ++ optSeg cA (fun t => (encField kCreatedAt (encTime t),
        fun a => { a with createdAt := some t }))
    ++ optSeg uA (fun t => (encField kUpdatedAt (encTime t),
        fun a => { a with updatedAt := some t }))
    ++ (if floatZero conf then []
        else [(encField kConfidence (encF32 conf), fun a => { a with confidence := conf })])
    ++ (if floatZero imp then []
        else [(encField kImportance (encF32 imp), fun a => { a with importance := imp })])
    ++ (if acC = 0 then []
        else [(encField kAccessCount (encInt acC), fun a => { a with accessCount := acC })])
    ++ (if cust.isEmpty then []
        else [(encField kCustom (encMapVal cust), fun a => { a with custom := cust })])
    with hitems
  have hfs : items.map Prod.fst =
      (if src = [] then [] else [encField kSource (encStr src)])
      ++ optSeg cA (fun t => encField kCreatedAt (encTime t))
      ++ optSeg uA (fun t => encField kUpdatedAt (encTime t))
      ++ (if floatZero conf then [] else [encField kConfidence (encF32 conf)])
      ++ (if floatZero imp then [] else [encField kImportance (encF32 imp)])
      ++ (if acC = 0 then [] else [encField kAccessCount (encInt acC)])
      ++ (if cust.isEmpty then [] else [encField kCustom (encMapVal cust)]) := by
    simp only [hitems, List.map_append,
      apply_ite (List.map (Prod.fst : Bytes × (NodeMeta → NodeMeta) → Bytes)),
      map_option_seg, List.map_cons, List.map_nil]
  have hmap : encNodeMeta ⟨src, cA, uA, conf, imp, acC, cust⟩ ++ rest =
      (encMapHdr items.length ++ (items.map Prod.fst).flatten) ++ rest := by
    simp only [encNodeMeta, encFields]
    rw [← hfs, List.length_map]
  have hlen : items.length < 4294967296 := by
    simp only [hitems]
    cases cA <;> cases uA <;> split_ifs <;> simp [optSeg]
  have hstep : ∀ it ∈ items, ∀ (n : Nat) (acc : NodeMeta) (tail : Bytes),
      parseNodeMetaFields fuel (n + 1) acc (it.1 ++ tail) =
        parseNodeMetaFields fuel n (it.2 acc) tail := by
    intro it hit n acc tail
    simp only [hitems, List.mem_append] at hit
    rcases hit with ((((((hit | hit) | hit) | hit) | hit) | hit) | hit)
    · have heq := mem_opt hit
      subst heq
      exact stepNM_source fuel n acc tail _ src (parseStr_enc src tail h1)
    · obtain ⟨t, hcA, heq⟩ := mem_option_seg hit
      subst heq
      exact stepNM_createdAt fuel n acc tail _ t (parseTime_enc t tail (h2 t (by simp [hcA])))
    · obtain ⟨t, huA, heq⟩ := mem_option_seg hit
      subst heq
      exact stepNM_updatedAt fuel n acc tail _ t (parseTime_enc t tail (h3 t (by simp [huA])))
    · have heq := mem_opt hit
      subst heq
      exact stepNM_confidence fuel n acc tail _ conf (parseF32_enc conf tail h4.1)
    · have heq := mem_opt hit
      subst heq
      exact stepNM_importance fuel n acc tail _ imp (parseF32_enc imp tail h5.1)
    · have heq := mem_opt hit
      subst heq
      exact stepNM_accessCount fuel n acc tail _ acC (parseInt_enc acC tail h6)
    · have heq := mem_opt hit
      subst heq
      exact stepNM_custom fuel n acc tail _ cust (parseMapVal_enc fuel cust tail h7 h8 hfuel)
  have hne4 : conf ≠ 2147483648 := h4.2
  have hne5 : imp ≠ 2147483648 := h5.2
  have hfold : items.foldl (fun a it => it.2 a) zeroNodeMeta =
      ⟨src, cA, uA, conf, imp, acC, cust⟩ := by
    by_cases hs : src = [] <;> by_cases hc : conf = 0 <;>
      by_cases hi : imp = 0 <;> by_cases ha : acC = 0 <;>
      by_cases hcu : cust = [] <;> cases cA <;> cases uA <;>
      simp [hitems, optSeg, zeroNodeMeta, floatZero, hs, hc, hi, ha, hcu,
        hne4, hne5, List.isEmpty_iff]
  rw [hmap, parseNodeMeta_entry fuel items.length hlen ((items.map Prod.fst).flatten) rest,
    parseNodeMetaFields_chain fuel items hstep zeroNodeMeta rest, hfold]

end Engram

namespace Engram

theorem parseFileMeta_enc (fuel : Nat) (m : FileMeta) (rest : Bytes) (h : goodFileMeta m)
    (hfuel : sizeValKVs m.custom ≤ fuel) :
    parseFileMeta fuel (encFileMeta m ++ rest) = some (m, rest) := by
  obtain ⟨h1, h2, h3, h4, h5, h6, h7, h8⟩ := h
  obtain ⟨ti, de, au, li, tg, cust⟩ := m
  dsimp only at h1 h2 h3 h4 h5 h6 h7 h8 hfuel
  set items : List (Bytes × (FileMeta → FileMeta)) :=
    (if ti = [] then []
     else [(encField kTitle (encStr ti), fun a => { a with title := ti })])
    ++ (if de = [] then []
        else [(encField kDescription (encStr de), fun a => { a with description := de })])
    ++ (if au = [] then []
        else [(encField kAuthor (encStr au), fun a => { a with author := au })])
    ++ (if li = [] then []
        else [(encField kLicense (encStr li), fun a => { a with license := li })])
    ++ (if tg = [] then []
        else [(encField kTags (encArray encStr tg), fun a => { a with tags := tg })])
    ++ (if cust.isEmpty then []
        else [(encField kCustom (encMapVal cust), fun a => { a with custom := cust })])
    with hitems
  have hfs : items.map Prod.fst =
      (if ti = [] then [] else [encField kTitle (encStr ti)])
      ++ (if de = [] then [] else [encField kDescription (encStr de)])
      ++ (if au = [] then [] else [encField kAuthor (encStr au)])
      ++ (if li = [] then [] else [encField kLicense (encStr li)])
      ++ (if tg = [] then [] else [encField kTags (encArray encStr tg)])
      ++ (if cust.isEmpty then [] else [encField kCustom (encMapVal cust)]) := by
    simp only [hitems, List.map_append,
      apply_ite (List.map (Prod.fst : Bytes × (FileMeta → FileMeta) → Bytes)),
      List.map_cons, List.map_nil]
  have hmap : encFileMeta ⟨ti, de, au, li, tg, cust⟩ ++ rest =
      (encMapHdr items.length ++ (items.map Prod.fst).flatten) ++ rest := by
    simp only [encFileMeta, encFields]
    rw [← hfs, List.length_map]
  have hlen : items.length < 4294967296 := by
    simp only [hitems]
    split_ifs <;> simp
  have htg : ∀ tail, parseArrayOf parseStr (encArray encStr tg ++ tail) = some (tg, tail) :=
    fun tail => parseArrayOf_enc parseStr encStr tg tail h5
      (fun x hx r => parseStr_enc x r (h6 x hx))
  have hstep : ∀ it ∈ items, ∀ (n : Nat) (acc : FileMeta) (tail : Bytes),
      parseFileMetaFields fuel (n + 1) acc (it.1 ++ tail) =
        parseFileMetaFields fuel n (it.2 acc) tail := by
    intro it hit n acc tail
    simp only [hitems, List.mem_append] at hit
    rcases hit with ((((hit | hit) | hit) | hit) | hit) | hit
    · have heq := mem_opt hit
      subst heq
      exact stepFM_title fuel n acc tail _ ti (parseStr_enc ti tail h1)
    · have heq := mem_opt hit
      subst heq
      exact stepFM_description fuel n acc tail _ de (parseStr_enc de tail h2)
    · have heq := mem_opt hit
      subst heq
      exact stepFM_author fuel n acc tail _ au (parseStr_enc au tail h3)
    · have heq := mem_opt hit
      subst heq
      exact stepFM_license fuel n acc tail _ li (parseStr_enc li tail h4)
    · have heq := mem_opt hit
      subst heq
      exact stepFM_tags fuel n acc tail _ tg (htg tail)
    · have heq := mem_opt hit
      subst heq
      exact stepFM_custom fuel n acc tail _ cust (parseMapVal_enc fuel cust tail h7 h8 hfuel)
  have hfold : items.foldl (fun a it => it.2 a) zeroFileMeta = ⟨ti, de, au, li, tg, cust⟩ := by
    by_cases c1 : ti = [] <;> by_cases c2 : de = [] <;> by_cases c3 : au = [] <;>
      by_cases c4 : li = [] <;> by_cases c5 : tg = [] <;> by_cases c6 : cust = [] <;>
      simp [hitems, zeroFileMeta, c1, c2, c3, c4, c5, c6, List.isEmpty_iff]
  rw [hmap, parseFileMeta_entry fuel items.length hlen ((items.map Prod.fst).flatten) rest,
    parseFileMetaFields_chain fuel items hstep zeroFileMeta rest, hfold]

theorem parseMemoryNode_enc (fuel : Nat) (nd : MemoryNode) (rest : Bytes)
    (h : goodMemoryNode nd)
    (hfm : sizeValKVs nd.metadata.custom ≤ fuel)
    (hfl : ∀ l ∈ nd.links, sizeValKVs l.metadata ≤ fuel) :
    parseMemoryNode fuel (encMemoryNode nd ++ rest) = some (nd, rest) := by
  obtain ⟨h1, h2, h3, h4, h5, h6, h7, h8, h9, h10, h11, h12, h13, h14⟩ := h
  obtain ⟨idv, co, emb, tg, ents, lks, meta, ch, par⟩ := nd
  dsimp only at h1 h2 h3 h4 h5 h6 h7 h8 h9 h10 h11 h12 h13 h14 hfm hfl
  set items : List (Bytes × (MemoryNode → MemoryNode)) :=
    [(encField kId (encStr idv), fun a => { a with id := idv }),
     (encField kContent (encStr co), fun a => { a with content := co })]
    ++ (if emb = [] then []
        else [(encField kEmbedding (encArray encF32 emb), fun a => { a with embedding := emb })])
    ++ (if tg = [] then []
        else [(encField kTags (encArray encStr tg), fun a => { a with tags := tg })])
    ++ (if ents.isEmpty then []
        else [(encField kEntities (encArray encEntity ents), fun a => { a with entities := ents })])
    ++ (if lks.isEmpty then []
        else [(encField kLinks (encArray encLink lks), fun a => { a with links := lks })])
    ++ [(encField kMetadata (encNodeMeta meta), fun a => { a with metadata := meta })]
    ++ (if ch = [] then []
        else [(encField kChildren (encArray encStr ch), fun a => { a with children := ch })])
    ++ (if par = [] then []
        else [(encField kParentId (encStr par), fun a => { a with parentId := par })])
    with hitems
  have hfs : items.map Prod.fst =
      [encField kId (encStr idv), encField kContent (encStr co)]
      ++ (if emb = [] then [] else [encField kEmbedding (encArray encF32 emb)])
      ++ (if tg = [] then [] else [encField kTags (encArray encStr tg)])
      ++ (if ents.isEmpty then [] else [encField kEntities (encArray encEntity ents)])
      ++ (if lks.isEmpty then [] else [encField kLinks (encArray encLink lks)])
      ++ [encField kMetadata (encNodeMeta meta)]
      ++ (if ch = [] then [] else [encField kChildren (encArray encStr ch)])
      ++ (if par = [] then [] else [encField kParentId (encStr par)]) := by
    simp only [hitems, List.map_append,
      apply_ite (List.map (Prod.fst : Bytes × (MemoryNode → MemoryNode) → Bytes)),
      List.map_cons, List.map_nil]
  have hmap : encMemoryNode ⟨idv, co, emb, tg, ents, lks, meta, ch, par⟩ ++ rest =
      (encMapHdr items.length ++ (items.map Prod.fst).flatten) ++ rest := by
    simp only [encMemoryNode, encFields]
    rw [← hfs, List.length_map]
  have hlen : items.length < 4294967296 := by
    simp only [hitems]
    split_ifs <;> simp
  have hvemb : ∀ tail, parseArrayOf parseF32 (encArray encF32 emb ++ tail) =
      some (emb, tail) :=
    fun tail => parseArrayOf_enc parseF32 encF32 emb tail h3
      (fun x hx r => parseF32_enc x r (h4 x hx))
  have hvtg : ∀ tail, parseArrayOf parseStr (encArray encStr tg ++ tail) = some (tg, tail) :=
    fun tail => parseArrayOf_enc parseStr encStr tg tail h5
      (fun x hx r => parseStr_enc x r (h6 x hx))
  have hvents : ∀ tail, parseArrayOf (parseEntity fuel) (encArray encEntity ents ++ tail) =
      some (ents, tail) :=
    fun tail => parseArrayOf_enc (parseEntity fuel) encEntity ents tail h7
      (fun x hx r => parseEntity_enc fuel x r (h8 x hx))
  have hvlks : ∀ tail, parseArrayOf (parseLink fuel) (encArray encLink lks ++ tail) =
      some (lks, tail) :=
    fun tail => parseArrayOf_enc (parseLink fuel) encLink lks tail h9
      (fun x hx r => parseLink_enc fuel x r (h10 x hx) (hfl x hx))
  have hvch : ∀ tail, parseArrayOf parseStr (encArray encStr ch ++ tail) = some (ch, tail) :=
    fun tail => parseArrayOf_enc parseStr encStr ch tail h12
      (fun x hx r => parseStr_enc x r (h13 x hx))
  have hstep : ∀ it ∈ items, ∀ (n : Nat) (acc : MemoryNode) (tail : Bytes),
      parseMemoryNodeFields fuel (n + 1) acc (it.1 ++ tail) =
        parseMemoryNodeFields fuel n (it.2 acc) tail := by
    intro it hit n acc tail
    simp only [hitems, List.mem_append, List.mem_cons, List.mem_singleton,
      List.not_mem_nil, or_false] at hit
    rcases hit with ((((((hit | hit) | hit) | hit) | hit) | hit) | hit) | hit
    · rcases hit with hit | hit
      · subst hit
        exact stepN_id fuel n acc tail _ idv (parseStr_enc idv tail h1)
      · subst hit
        exact stepN_content fuel n acc tail _ co (parseStr_enc co tail h2)
    · have heq := mem_opt hit
      subst heq
      exact stepN_embedding fuel n acc tail _ emb (hvemb tail)
    · have heq := mem_opt hit
      subst heq
      exact stepN_tags fuel n acc tail _ tg (hvtg tail)
    · have heq := mem_opt hit
      subst heq
      exact stepN_entities fuel n acc tail _ ents (hvents tail)
    · have heq := mem_opt hit
      subst heq
      exact stepN_links fuel n acc tail _ lks (hvlks tail)
    · subst hit
      exact stepN_metadata fuel n acc tail _ meta (parseNodeMeta_enc fuel meta tail h11 hfm)
    · have heq := mem_opt hit
      subst heq
      exact stepN_children fuel n acc tail _ ch (hvch tail)
    · have heq := mem_opt hit
      subst heq
      exact stepN_parentId fuel n acc tail _ par (parseStr_enc par tail h14)
  have hfold : items.foldl (fun a it => it.2 a) zeroMemoryNode =
      ⟨idv, co, emb, tg, ents, lks, meta, ch, par⟩ := by
    by_cases c1 : emb = [] <;> by_cases c2 : tg = [] <;> by_cases c3 : ents = [] <;>
      by_cases c4 : lks = [] <;> by_cases c5 : ch = [] <;> by_cases c6 : par = [] <;>
      simp [hitems, zeroMemoryNode, zeroNodeMeta, c1, c2, c3, c4, c5, c6,
        List.isEmpty_iff]
  rw [hmap, parseMemoryNode_entry fuel items.length hlen ((items.map Prod.fst).flatten) rest,
    parseMemoryNodeFields_chain fuel items hstep zeroMemoryNode rest, hfold]

end Engram

namespace Engram

theorem parseHeader_enc (fuel : Nat) (h : EngramHeader) (rest : Bytes) (hg : goodHeader h)
    (hfuel : sizeValKVs h.metadata.custom ≤ fuel) :
    parseHeader fuel (encHeader h ++ rest) = some (h, rest) := by
  obtain ⟨h1, h2, h3, h4, h5, h6, h7⟩ := hg
  obtain ⟨ver, cr, mo, nc, sch, sec, meta⟩ := h
  dsimp only at h1 h2 h3 h4 h5 h6 h7 hfuel
  have hsch : ∀ tail, parseSchemaInfo fuel (encSchemaInfo sch ++ tail) = some (sch, tail) :=
    fun tail => parseSchemaInfo_enc fuel sch tail h5
  have hsec : ∀ tail, parseSecurityInfo fuel (encSecurityInfo sec ++ tail) =
      some (sec, tail) :=
    fun tail => parseSecurityInfo_enc fuel sec tail h6
  have hmeta : ∀ tail, parseFileMeta fuel (encFileMeta meta ++ tail) = some (meta, tail) :=
    fun tail => parseFileMeta_enc fuel meta tail h7 hfuel
  simp [encHeader, encFields, encField, encMapHdr,
    parseHeader, parseMapLen, parseHeaderFields,
    kne_Created_Version, kne_Modified_Version, kne_Modified_Created,
    kne_NodeCount_Version, kne_NodeCount_Created, kne_NodeCount_Modified,
    kne_Schema_Version, kne_Schema_Created, kne_Schema_Modified, kne_Schema_NodeCount,
    kne_Security_Version, kne_Security_Created, kne_Security_Modified,
    kne_Security_NodeCount, kne_Security_Schema,
    kne_Metadata_Version, kne_Metadata_Created, kne_Metadata_Modified,
    kne_Metadata_NodeCount, kne_Metadata_Schema, kne_Metadata_Security,
    parse_kVersion, parse_kCreated, parse_kModified, parse_kNodeCount,
    parse_kSchema, parse_kSecurity, parse_kMetadata,
    parseStr_enc, parseInt_enc, h1, h2, h3, h4, hsch, hsec, hmeta, zeroHeader]

end Engram

namespace Engram

/-! ## Fuel adequacy

The codec entry points pass `3 * length + 1` fuel.  These lemmas show that
this bound dominates the `sizeVal` cost of every `map[string]interface{}`
value embedded in an encoded buffer, so the fuel never runs out while
decoding an encoder output. -/

theorem encVal_len_pos (v : MsgVal) : 1 ≤ (encVal v).length := by
  cases v with
  | nil => simp [encVal]
  | bool b => cases b <;> simp [encVal]
  | int i =>
      simp only [encVal, encInt]
      split_ifs <;> simp [be_length]
  | f32 b => simp [encVal, encF32]
  | f64 b => simp [encVal, encF64]
  | str s =>
      simp only [encVal, encStr, encStrHdr]
      split_ifs <;> simp [be_length]
  | bin bs =>
      simp only [encVal, encBin]
      split_ifs <;> simp [be_length]
  | arr vs =>
      simp only [encVal, encArrHdr]
      split_ifs <;> simp [be_length]
  | mp kvs =>
      simp only [encVal, encMapHdr]
      split_ifs <;> simp [be_length]
  | ext ty p =>
      simp only [encVal, encExtHdr]
      split_ifs <;> simp [be_length]

theorem encArrHdr_len_pos (n : Nat) : 1 ≤ (encArrHdr n).length := by
  simp only [encArrHdr]
  split_ifs <;> simp [be_length]

theorem encMapHdr_len_pos (n : Nat) : 1 ≤ (encMapHdr n).length := by
  simp only [encMapHdr]
  split_ifs <;> simp [be_length]

theorem sizeValList_le_encList (vs : List MsgVal)
    (ih : ∀ v ∈ vs, sizeVal v + 1 ≤ 3 * (encVal v).length) :
    sizeValList vs ≤ 3 * (encValList vs).length + 1 := by
  induction vs with
  | nil => simp [sizeValList, encValList]
  | cons v vs iha =>
      have h1 := ih v (by simp)
      have h2 := iha fun x hx => ih x (by simp [hx])
      simp only [sizeValList, encValList, List.length_append]
      omega

theorem sizeValKVs_le_encKVs (kvs : List (GoStr × MsgVal))
    (ih : ∀ kv ∈ kvs, sizeVal kv.2 + 1 ≤ 3 * (encVal kv.2).length) :
    sizeValKVs kvs ≤ 3 * (encValKVs kvs).length + 1 := by
  induction kvs with
  | nil => simp [sizeValKVs, encValKVs]
  | cons kv kvs iha =>
      obtain ⟨k, v⟩ := kv
      have h1 : sizeVal v + 1 ≤ 3 * (encVal v).length := ih (k, v) (by simp)
      have h2 := iha fun x hx => ih x (by simp [hx])
      simp only [sizeValKVs, encValKVs, List.length_append]
      omega

theorem sizeVal_le_enc : ∀ v : MsgVal, sizeVal v + 1 ≤ 3 * (encVal v).length := by
  suffices h : ∀ (n : Nat) (v : MsgVal), sizeOf v ≤ n →
      sizeVal v + 1 ≤ 3 * (encVal v).length by
    exact fun v => h (sizeOf v) v le_rfl
  intro n
  induction n with
  | zero =>
      intro v hsz
      cases v <;> simp at hsz
  | succ n ih =>
      intro v hsz
      have hp := encVal_len_pos v
      cases v with
      | arr vs =>
          have hb : sizeValList vs ≤ 3 * (encValList vs).length + 1 := by
            refine sizeValList_le_encList vs fun x hx => ?_
            have h1 : sizeOf x < sizeOf vs := List.sizeOf_lt_of_mem hx
            have h2 : 1 + sizeOf vs ≤ n + 1 := by simpa using hsz
            exact ih x (by omega)
          have hh := encArrHdr_len_pos vs.length
          simp only [sizeVal, encVal, List.length_append]
          omega
      | mp kvs =>
          have hb : sizeValKVs kvs ≤ 3 * (encValKVs kvs).length + 1 := by
            refine sizeValKVs_le_encKVs kvs fun kv hkv => ?_
            have h1 : sizeOf kv < sizeOf kvs := List.sizeOf_lt_of_mem hkv
            have h2 : 1 + sizeOf kvs ≤ n + 1 := by simpa using hsz
            obtain ⟨k, v⟩ := kv
            have h3 : 1 + sizeOf k + sizeOf v = sizeOf ((k, v) : GoStr × MsgVal) := by simp
            exact ih v (by omega)
          have hh := encMapHdr_len_pos kvs.length
          simp only [sizeVal, encVal, List.length_append]
          omega
      | nil => simp only [sizeVal]; omega
      | bool b => simp only [sizeVal]; omega
      | int i => simp only [sizeVal]; omega
      | f32 b => simp only [sizeVal]; omega
      | f64 b => simp only [sizeVal]; omega
      | str s => simp only [sizeVal]; omega
      | bin bs => simp only [sizeVal]; omega
      | ext ty p => simp only [sizeVal]; omega

theorem sizeValKVs_le_enc3 (kvs : List (GoStr × MsgVal)) :
    sizeValKVs kvs ≤ 3 * (encValKVs kvs).length + 1 :=
  sizeValKVs_le_encKVs kvs fun kv _ => sizeVal_le_enc kv.2

theorem length_le_encFields (fs : List Bytes) (b : Bytes) (hb : b ∈ fs) :
    b.length ≤ (encFields fs).length := by
  have h1 : b.length ≤ (fs.map List.length).sum :=
    List.single_le_sum (fun x _ => Nat.zero_le x) _ (List.mem_map.mpr ⟨b, hb, rfl⟩)
  simp only [encFields, List.length_append, List.length_flatten]
  omega

theorem length_le_encArray {α : Type} (f : α → Bytes) (xs : List α) (x : α) (hx : x ∈ xs) :
    (f x).length ≤ (encArray f xs).length := by
  have h1 : (f x).length ≤ ((xs.map f).map List.length).sum :=
    List.single_le_sum (fun y _ => Nat.zero_le y) _
      (List.mem_map.mpr ⟨f x, List.mem_map.mpr ⟨x, hx, rfl⟩, rfl⟩)
  simp only [encArray, List.length_append, List.length_flatten]
  omega

theorem custom_le_encNodeMeta (m : NodeMeta) :
    (encValKVs m.custom).length ≤ (encNodeMeta m).length := by
  by_cases hc : m.custom.isEmpty
  · rw [List.isEmpty_iff] at hc
    simp [hc, encValKVs]
  · have h1 : (encField kCustom (encMapVal m.custom)).length ≤ (encNodeMeta m).length :=
      length_le_encFields _ _ (by simp [hc])
    simp only [encField, encMapVal, List.length_append] at h1
    omega

theorem meta_le_encMemoryNode (nd : MemoryNode) :
    (encNodeMeta nd.metadata).length ≤ (encMemoryNode nd).length := by
  have h1 : (encField kMetadata (encNodeMeta nd.metadata)).length ≤
      (encMemoryNode nd).length :=
    length_le_encFields _ _ (by simp)
  simp only [encField, List.length_append] at h1
  omega

theorem linkmeta_le_encLink (l : Link) :
    (encValKVs l.metadata).length ≤ (encLink l).length := by
  by_cases hc : l.metadata.isEmpty
  · rw [List.isEmpty_iff] at hc
    simp [hc, encValKVs]
  · have h1 : (encField kMetadata (encMapVal l.metadata)).length ≤ (encLink l).length :=
      length_le_encFields _ _ (by simp [hc])
    simp only [encField, encMapVal, List.length_append] at h1
    omega

theorem link_le_encMemoryNode (nd : MemoryNode) (l : Link) (hl : l ∈ nd.links) :
    (encLink l).length ≤ (encMemoryNode nd).length := by
  have hne : ¬ nd.links.isEmpty := by
    rw [List.isEmpty_iff]
    exact List.ne_nil_of_mem hl
  have h1 : (encField kLinks (encArray encLink nd.links)).length ≤
      (encMemoryNode nd).length :=
    length_le_encFields _ _ (by simp [hne])
  have h2 := length_le_encArray encLink nd.links l hl
  simp only [encField, List.length_append] at h1
  omega

theorem node_le_encNodes (ns : List MemoryNode) (n : MemoryNode) (hn : n ∈ ns) :
    (encMemoryNode n).length ≤ (encNodes ns).length :=
  length_le_encArray encMemoryNode ns n hn

theorem custom_le_encFileMeta (m : FileMeta) :
    (encValKVs m.custom).length ≤ (encFileMeta m).length := by
  by_cases hc : m.custom.isEmpty
  · rw [List.isEmpty_iff] at hc
    simp [hc, encValKVs]
  · have h1 : (encField kCustom (encMapVal m.custom)).length ≤ (encFileMeta m).length :=
      length_le_encFields _ _ (by simp [hc])
    simp only [encField, encMapVal, List.length_append] at h1
    omega

theorem filemeta_le_encHeader (h : EngramHeader) :
    (encFileMeta h.metadata).length ≤ (encHeader h).length := by
  have h1 : (encField kMetadata (encFileMeta h.metadata)).length ≤ (encHeader h).length :=
    length_le_encFields _ _ (by simp)
  simp only [encField, List.length_append] at h1
  omega

theorem headerFuel (h : EngramHeader) (tail : Bytes) :
    sizeValKVs h.metadata.custom ≤ 3 * (encHeader h ++ tail).length + 1 := by
  have h1 := sizeValKVs_le_enc3 h.metadata.custom
  have h2 := custom_le_encFileMeta h.metadata
  have h3 := filemeta_le_encHeader h
  simp only [List.length_append]
  omega

theorem nodeMetaFuel (ns : List MemoryNode) (n : MemoryNode) (hn : n ∈ ns) :
    sizeValKVs n.metadata.custom ≤ 3 * (encNodes ns).length + 1 := by
  have h1 := sizeValKVs_le_enc3 n.metadata.custom
  have h2 := custom_le_encNodeMeta n.metadata
  have h3 := meta_le_encMemoryNode n
  have h4 := node_le_encNodes ns n hn
  omega

theorem linkFuel (ns : List MemoryNode) (n : MemoryNode) (hn : n ∈ ns)
    (l : Link) (hl : l ∈ n.links) :
    sizeValKVs l.metadata ≤ 3 * (encNodes ns).length + 1 := by
  have h1 := sizeValKVs_le_enc3 l.metadata
  have h2 := linkmeta_le_encLink l
  have h3 := link_le_encMemoryNode n l hl
  have h4 := node_le_encNodes ns n hn
  omega

theorem parseNodes_enc (fuel : Nat) (ns : List MemoryNode) (rest : Bytes)
    (h : ∀ n ∈ ns, goodMemoryNode n) (hlen : ns.length < 4294967296)
    (hfm : ∀ n ∈ ns, sizeValKVs n.metadata.custom ≤ fuel)
    (hfl : ∀ n ∈ ns, ∀ l ∈ n.links, sizeValKVs l.metadata ≤ fuel) :
    parseArrayOf (parseMemoryNode fuel) (encNodes ns ++ rest) = some (ns, rest) := by
  refine parseArrayOf_enc _ encMemoryNode ns rest hlen fun n hn r => ?_
  exact parseMemoryNode_enc fuel n r (h n hn) (hfm n hn) (hfl n hn)

end Engram

namespace Engram

/-! ## Top-level round trip -/

theorem round_length (st : List Nat) (kw : Nat × Nat) : (round st kw).length = st.length := by
  unfold round
  split
  · simp
  · rfl

theorem foldl_round_length (l : List (Nat × Nat)) (h : List Nat) :
    (l.foldl (fun st kw => round st kw) h).length = h.length := by
  induction l generalizing h with
  | nil => rfl
  | cons kw l ih => rw [List.foldl_cons, ih, round_length]

theorem compress_length (h block : List Nat) : (compress h block).length = h.length := by
  unfold compress
  simp [foldl_round_length]

theorem foldl_compress_length (l : List (List Nat)) (h : List Nat) :
    (l.foldl compress h).length = h.length := by
  induction l generalizing h with
  | nil => rfl
  | cons b l ih => rw [List.foldl_cons, ih, compress_length]

theorem sha256_length (msg : List Nat) : (sha256 msg).length = 32 := by
  unfold sha256
  rw [List.length_flatten, List.map_map]
  have hc : (List.length ∘ be 4) = fun _ : Nat => 4 := funext fun x => be_length 4 x
  rw [hc, List.map_const', List.sum_replicate, foldl_compress_length, smul_eq_mul]
  rfl

theorem hexLower_length (bs : List Nat) : (hexLower bs).length = 2 * bs.length := by
  unfold hexLower
  rw [List.length_flatten, List.map_map]
  have hc : (List.length ∘ fun b : Nat => [hexDigitL (b / 16), hexDigitL (b % 16)]) =
      fun _ : Nat => 2 := funext fun x => rfl
  rw [hc, List.map_const', List.sum_replicate, smul_eq_mul]
  omega

theorem take6_magic (x : Bytes) : (magicBytes ++ x).take 6 = magicBytes := rfl

theorem drop6_magic (x : Bytes) : (magicBytes ++ x).drop 6 = x := rfl

theorem goodHeader_update (now : GoStr) (f : EngramFile) (integ : GoStr)
    (hn : goodStr now) (hi : goodStr integ) (hf : goodHeader f.header)
    (hcnt : f.nodes.length < 4294967296) :
    goodHeader (updateHeader now f integ) := by
  obtain ⟨h1, h2, h3, h4, h5, h6, h7⟩ := hf
  obtain ⟨h61, h62, h63⟩ := h6
  refine ⟨?_, ?_, ?_, ?_, ?_, ?_, ?_⟩
  · simp only [updateHeader]
    split_ifs with hv
    · decide
    · exact h1
  · simp only [updateHeader]
    split_ifs with hv
    · exact hn
    · exact h2
  · exact hn
  · simp only [updateHeader]
    unfold goodInt
    omega
  · exact h5
  · exact ⟨hi, h62, h63⟩
  · exact h7

theorem decode_encode (now : GoStr) (f : EngramFile) (hf : goodFile f) (hgn : goodStr now) :
    decodeFile (encodeFile now f) =
      .ok ⟨updateHeader now f (hexLower (sha256 (encNodes f.nodes))), f.nodes⟩ := by
  obtain ⟨hh, hlen, hns⟩ := hf
  set P := encNodes f.nodes with hPdef
  set integ := hexLower (sha256 P) with hIdef
  set H := updateHeader now f integ with hHdef
  have hIlen : integ.length = 64 := by rw [hIdef, hexLower_length, sha256_length]
  have hIgood : goodStr integ := by unfold goodStr; omega
  have hIne : integ ≠ [] := by
    intro h0
    rw [h0] at hIlen
    simp at hIlen
  have hgoodH : goodHeader H := by
    rw [hHdef]
    exact goodHeader_update now f integ hgn hIgood hh hlen
  have hdata : encodeFile now f = magicBytes ++ (encHeader H ++ P) := by
    rw [hHdef, hIdef, hPdef]
    simp [encodeFile, List.append_assoc]
  have hmag : ¬ ((magicBytes ++ (encHeader H ++ P)).length < 6 ∨
      (magicBytes ++ (encHeader H ++ P)).take 6 ≠ magicBytes) := by
    push_neg
    refine ⟨?_, take6_magic _⟩
    simp only [magicBytes, List.cons_append, List.nil_append, List.length_cons]
    omega
  rw [hdata]
  unfold decodeFile
  rw [if_neg hmag, drop6_magic]
  have hhdr := parseHeader_enc (3 * (encHeader H ++ P).length + 1) H P hgoodH (headerFuel H P)
  rw [hhdr]
  dsimp only
  have hsec : H.security.integrity = integ := by
    rw [hHdef]
    simp [updateHeader]
  rw [hsec, if_pos hIne, if_neg (by simp [hIdef])]
  have hnodes : parseArrayOf (parseMemoryNode (3 * P.length + 1)) P = some (f.nodes, []) := by
    have h0 := parseNodes_enc (3 * (encNodes f.nodes).length + 1) f.nodes [] hns hlen
      (nodeMetaFuel f.nodes) (linkFuel f.nodes)
    rw [List.append_nil] at h0
    rw [hPdef]
    exact h0
  unfold decodePayload
  rw [hnodes]

end Engram

namespace Engram

/-! ## Memory tree (`tree.go`)

Go maps become association lists with insert-or-overwrite update; access
of a missing key yields the Go zero value (`none` for a `*MemoryNode`,
`[]` for a slice).  Pointers into the backing `nodes` slice are the node
values themselves (the tree never mutates its nodes). -/

/-- Association-list lookup, `m[k]` on a Go map (`alSet` keeps keys
unique, so the first binding is the binding). -/
def alGet {β : Type} : List (GoStr × β) → GoStr → Option β
  | [], _ => none
  | (k', v) :: rest, k => if k' = k then some v else alGet rest k

/-- Association-list insert-or-overwrite, `m[k] = v` on a Go map. -/
def alSet {β : Type} : List (GoStr × β) → GoStr → β → List (GoStr × β)
  | [], k, v => [(k, v)]
  | (k', v') :: rest, k, v =>
      if k' = k then (k, v) :: rest else (k', v') :: alSet rest k v

/-- `MemoryTree` with its three indexes. -/
structure MemoryTree where
  nodes : List MemoryNode
  byID : List (GoStr × MemoryNode)
  byTag : List (GoStr × List MemoryNode)
  children : List (GoStr × List MemoryNode)

/-- One iteration of `NewMemoryTree`'s indexing loop: overwrite the id
binding, append the node to the bucket of each of its tags (one append
per occurrence), and append to the parent's children when `parentId` is
non-empty. -/
def indexNode (t : MemoryTree) (node : MemoryNode) : MemoryTree :=
  { nodes := t.nodes
    byID := alSet t.byID node.id node
    byTag := node.tags.foldl
      (fun m tag => alSet m tag ((alGet m tag).getD [] ++ [node])) t.byTag
    children :=
      if node.parentId ≠ [] then
        alSet t.children node.parentId
          ((alGet t.children node.parentId).getD [] ++ [node])
      else t.children }

/-- `NewMemoryTree`. -/
def NewMemoryTree (nodes : List MemoryNode) : MemoryTree :=
  nodes.foldl indexNode ⟨nodes, [], [], []⟩

/-- `Get` (the nil pointer for a missing id is `none`). -/
def Get (t : MemoryTree) (id : GoStr) : Option MemoryNode := alGet t.byID id

/-- `GetAll`. -/
def GetAll (t : MemoryTree) : List MemoryNode := t.nodes

/-- `Count` (a Go `int`). -/
def Count (t : MemoryTree) : Int := t.nodes.length

/-- `GetByTag` (a missing key is the nil slice). -/
def GetByTag (t : MemoryTree) (tag : GoStr) : List MemoryNode :=
  (alGet t.byTag tag).getD []

/-- Byte-wise lexicographic order on Go strings, as `sort.Strings`
compares. -/
def lexLe : GoStr → GoStr → Bool
  | [], _ => true
  | _ :: _, [] => false
  | a :: as, b :: bs => if a < b then true else if b < a then false else lexLe as bs

/-- Insertion into a sorted list. -/
def insertSorted (x : GoStr) : List GoStr → List GoStr
  | [] => [x]
  | y :: ys => if lexLe x y then x :: y :: ys else y :: insertSorted x ys

/-- `sort.Strings` as an insertion sort (`GetTags` sorts the key set,
whose elements are distinct, so any comparison sort yields this list
whatever order Go's map iteration visits the keys in). -/
def sortStrings (l : List GoStr) : List GoStr := l.foldr insertSorted []

/-- `GetTags`: the `byTag` keys, sorted. -/
def GetTags (t : MemoryTree) : List GoStr := sortStrings (t.byTag.map Prod.fst)

/-- `GetChildren`. -/
def GetChildren (t : MemoryTree) (parentId : GoStr) : List MemoryNode :=
  (alGet t.children parentId).getD []

/-- `GetRoots`. -/
def GetRoots (t : MemoryTree) : List MemoryNode :=
  t.nodes.filter fun n => n.parentId.isEmpty

/-! Real-valued code of `tree.go`, idealized over exact rationals:
`float64` accumulation becomes exact `ℚ` arithmetic and `math.Sqrt` a
computable stand-in.  The guard structure of `cosineSimilarity` — the
length test and the zero-norm test before the division — is independent
of the inner arithmetic. -/

/-- Computable stand-in for `math.Sqrt` (exact on perfect squares; no
guard of `cosineSimilarity` depends on its values). -/
def ratSqrt (q : ℚ) : ℚ := (Nat.sqrt q.num.toNat : ℚ) / (Nat.sqrt q.den : ℚ)

/-- `cosineSimilarity`: length guard, one accumulation pass for the dot
product and both squared norms, zero-norm guard, then the division. -/
def cosineSimilarity (a b : List ℚ) : ℚ :=
  if a.length ≠ b.length ∨ a.length = 0 then 0
  else
    let acc := (a.zip b).foldl
      (fun s p => (s.1 + p.1 * p.2, s.2.1 + p.1 * p.1, s.2.2 + p.2 * p.2))
      ((0 : ℚ), (0 : ℚ), (0 : ℚ))
    if acc.2.1 = 0 ∨ acc.2.2 = 0 then 0
    else acc.1 / (ratSqrt acc.2.1 * ratSqrt acc.2.2)

end Engram

namespace Engram

/-! ### Association-list and tree lemmas -/

theorem alGet_alSet {β : Type} (m : List (GoStr × β)) (k : GoStr) (v : β) (q : GoStr) :
    alGet (alSet m k v) q = if k = q then some v else alGet m q := by
  induction m with
  | nil => simp [alSet, alGet]
  | cons kv m ih =>
      obtain ⟨k', v'⟩ := kv
      by_cases hk : k' = k
      · subst hk
        by_cases hq : k' = q <;> simp [alSet, alGet, hq]
      · by_cases hq : k' = q
        · subst hq
          have hkq : ¬ k = k' := fun h => hk h.symm
          simp [alSet, alGet, hk, hkq]
        · simp [alSet, alGet, hk, hq, ih]

theorem find?_append_some {α : Type} (p : α → Bool) (l₁ l₂ : List α) (a : α)
    (h : l₁.find? p = some a) : (l₁ ++ l₂).find? p = some a := by
  induction l₁ with
  | nil => simp at h
  | cons x l ih =>
      by_cases hp : p x
      · rw [List.find?_cons_of_pos _ hp] at h
        rw [List.cons_append, List.find?_cons_of_pos _ hp]
        exact h
      · rw [List.find?_cons_of_neg _ hp] at h
        rw [List.cons_append, List.find?_cons_of_neg _ hp]
        exact ih h

theorem find?_append_none {α : Type} (p : α → Bool) (l₁ l₂ : List α)
    (h : l₁.find? p = none) : (l₁ ++ l₂).find? p = l₂.find? p := by
  induction l₁ with
  | nil => rfl
  | cons x l ih =>
      by_cases hp : p x
      · rw [List.find?_cons_of_pos _ hp] at h
        simp at h
      · rw [List.find?_cons_of_neg _ hp] at h
        rw [List.cons_append, List.find?_cons_of_neg _ hp]
        exact ih h

theorem fold_nodes (ns : List MemoryNode) (t : MemoryTree) :
    (ns.foldl indexNode t).nodes = t.nodes := by
  induction ns generalizing t with
  | nil => rfl
  | cons n ns ih =>
      rw [List.foldl_cons, ih]
      rfl

theorem byID_fold (ns : List MemoryNode) (t : MemoryTree) (id : GoStr) :
    alGet (ns.foldl indexNode t).byID id =
      (ns.reverse.find? fun n => n.id == id).or (alGet t.byID id) := by
  induction ns generalizing t with
  | nil => rfl
  | cons n ns ih =>
      rw [List.foldl_cons, ih, List.reverse_cons]
      rcases hf : ns.reverse.find? (fun n => n.id == id) with _ | m
      · rw [hf, find?_append_none _ _ _ hf]
        by_cases hid : n.id = id
        · have h1 : List.find? (fun n => n.id == id) [n] = some n := by
            simp [List.find?_cons, hid]
          rw [h1]
          show alGet (alSet t.byID n.id n) id = some n
          rw [alGet_alSet, if_pos hid]
        · have h1 : List.find? (fun n => n.id == id) [n] = none := by
            simp [List.find?_cons, hid]
          rw [h1]
          show alGet (alSet t.byID n.id n) id = alGet t.byID id
          rw [alGet_alSet, if_neg hid]
      · rw [hf, find?_append_some _ _ _ _ hf]
        rfl

end Engram

namespace Engram

theorem bucket_tags_fold (tags : List GoStr) (m : List (GoStr × List MemoryNode))
    (node : MemoryNode) (tag : GoStr) :
    (alGet (tags.foldl (fun m tg => alSet m tg ((alGet m tg).getD [] ++ [node])) m)
        tag).getD []
      = (alGet m tag).getD [] ++ List.replicate (tags.count tag) node := by
  induction tags generalizing m with
  | nil => simp
  | cons tg tags ih =>
      rw [List.foldl_cons, ih, alGet_alSet]
      by_cases h : tg = tag
      · subst h
        rw [if_pos rfl]
        simp [List.count_cons_self, List.replicate_succ, List.append_assoc]
      · rw [if_neg h, List.count_cons_of_ne (fun hh => h hh.symm)]

theorem byTag_fold (ns : List MemoryNode) (t : MemoryTree) (tag : GoStr) :
    (alGet (ns.foldl indexNode t).byTag tag).getD [] =
      (alGet t.byTag tag).getD [] ++
        (ns.map fun n => List.replicate (n.tags.count tag) n).flatten := by
  induction ns generalizing t with
  | nil => simp
  | cons n ns ih =>
      rw [List.foldl_cons, ih]
      rw [show (indexNode t n).byTag = n.tags.foldl
          (fun m tg => alSet m tg ((alGet m tg).getD [] ++ [n])) t.byTag from rfl]
      rw [bucket_tags_fold, List.map_cons, List.flatten_cons, ← List.append_assoc]

theorem mem_keys_alSet {β : Type} (m : List (GoStr × β)) (k : GoStr) (v : β) (q : GoStr) :
    q ∈ (alSet m k v).map Prod.fst ↔ q = k ∨ q ∈ m.map Prod.fst := by
  induction m with
  | nil => simp [alSet]
  | cons kv m ih =>
      obtain ⟨k', v'⟩ := kv
      by_cases hk : k' = k
      · subst hk
        simp [alSet]
      · simp only [alSet, if_neg hk, List.map_cons, List.mem_cons, ih]
        tauto

theorem nodup_keys_alSet {β : Type} (m : List (GoStr × β)) (k : GoStr) (v : β)
    (h : (m.map Prod.fst).Nodup) : ((alSet m k v).map Prod.fst).Nodup := by
  induction m with
  | nil => simp [alSet]
  | cons kv m ih =>
      obtain ⟨k', v'⟩ := kv
      rw [List.map_cons, List.nodup_cons] at h
      by_cases hk : k' = k
      · subst hk
        rw [show alSet ((k', v') :: m) k' v = (k', v) :: m from by simp [alSet]]
        rw [List.map_cons, List.nodup_cons]
        exact h
      · rw [show alSet ((k', v') :: m) k v = (k', v') :: alSet m k v from by
          simp [alSet, hk]]
        rw [List.map_cons, List.nodup_cons]
        refine ⟨?_, ih h.2⟩
        rw [mem_keys_alSet]
        push_neg
        exact ⟨hk, h.1⟩

theorem keys_tags_fold_mem (tags : List GoStr) (m : List (GoStr × List MemoryNode))
    (node : MemoryNode) (q : GoStr) :
    (q ∈ (tags.foldl (fun m tg => alSet m tg ((alGet m tg).getD [] ++ [node])) m).map
        Prod.fst)
      ↔ q ∈ m.map Prod.fst ∨ q ∈ tags := by
  induction tags generalizing m with
  | nil => simp
  | cons tg tags ih =>
      rw [List.foldl_cons, ih, mem_keys_alSet]
      simp only [List.mem_cons]
      tauto

theorem keys_tags_fold_nodup (tags : List GoStr) (m : List (GoStr × List MemoryNode))
    (node : MemoryNode) (h : (m.map Prod.fst).Nodup) :
    ((tags.foldl (fun m tg => alSet m tg ((alGet m tg).getD [] ++ [node])) m).map
        Prod.fst).Nodup := by
  induction tags generalizing m with
  | nil => exact h
  | cons tg tags ih =>
      rw [List.foldl_cons]
      exact ih _ (nodup_keys_alSet _ _ _ h)

theorem keys_byTag_fold_mem (ns : List MemoryNode) (t : MemoryTree) (q : GoStr) :
    (q ∈ (ns.foldl indexNode t).byTag.map Prod.fst)
      ↔ q ∈ t.byTag.map Prod.fst ∨ ∃ n ∈ ns, q ∈ n.tags := by
  induction ns generalizing t with
  | nil => simp
  | cons n ns ih =>
      rw [List.foldl_cons, ih]
      rw [show (indexNode t n).byTag = n.tags.foldl
          (fun m tg => alSet m tg ((alGet m tg).getD [] ++ [n])) t.byTag from rfl]
      rw [keys_tags_fold_mem]
      simp only [List.mem_cons]
      constructor
      · rintro ((hm | hn) | ⟨x, hx, hq⟩)
        · exact Or.inl hm
        · exact Or.inr ⟨n, Or.inl rfl, hn⟩
        · exact Or.inr ⟨x, Or.inr hx, hq⟩
      · rintro (hm | ⟨x, hx | hx, hq⟩)
        · exact Or.inl (Or.inl hm)
        · exact Or.inl (Or.inr (hx ▸ hq))
        · exact Or.inr ⟨x, hx, hq⟩

theorem keys_byTag_fold_nodup (ns : List MemoryNode) (t : MemoryTree)
    (h : (t.byTag.map Prod.fst).Nodup) :
    ((ns.foldl indexNode t).byTag.map Prod.fst).Nodup := by
  induction ns generalizing t with
  | nil => exact h
  | cons n ns ih =>
      rw [List.foldl_cons]
      refine ih _ ?_
      rw [show (indexNode t n).byTag = n.tags.foldl
          (fun m tg => alSet m tg ((alGet m tg).getD [] ++ [n])) t.byTag from rfl]
      exact keys_tags_fold_nodup _ _ _ h

theorem insertSorted_perm (x : GoStr) (l : List GoStr) :
    (insertSorted x l).Perm (x :: l) := by
  induction l with
  | nil => exact List.Perm.refl _
  | cons y ys ih =>
      unfold insertSorted
      split
      · exact List.Perm.refl _
      · exact (List.Perm.cons y ih).trans (List.Perm.swap x y ys)

theorem sortStrings_perm (l : List GoStr) : (sortStrings l).Perm l := by
  induction l with
  | nil => exact List.Perm.refl _
  | cons a l ih =>
      unfold sortStrings at *
      rw [List.foldr_cons]
      exact (insertSorted_perm a _).trans (List.Perm.cons a ih)

/-! ### Cosine-similarity lemmas -/

theorem cosAcc_nonneg (l : List (ℚ × ℚ)) (s : ℚ × ℚ × ℚ)
    (h1 : 0 ≤ s.2.1) (h2 : 0 ≤ s.2.2) :
    0 ≤ (l.foldl (fun s p => (s.1 + p.1 * p.2, s.2.1 + p.1 * p.1, s.2.2 + p.2 * p.2))
        s).2.1
    ∧ 0 ≤ (l.foldl (fun s p => (s.1 + p.1 * p.2, s.2.1 + p.1 * p.1, s.2.2 + p.2 * p.2))
        s).2.2 := by
  induction l generalizing s with
  | nil => exact ⟨h1, h2⟩
  | cons p l ih =>
      rw [List.foldl_cons]
      exact ih _ (add_nonneg h1 (mul_self_nonneg p.1)) (add_nonneg h2 (mul_self_nonneg p.2))

theorem ratSqrt_pos (q : ℚ) (h : 0 < q) : 0 < ratSqrt q := by
  unfold ratSqrt
  have hnum : 0 < q.num := Rat.num_pos.mpr h
  have hs1 : 0 < Nat.sqrt q.num.toNat := Nat.sqrt_pos.mpr (by omega)
  have hs2 : 0 < Nat.sqrt q.den := Nat.sqrt_pos.mpr q.pos
  have c1 : (0 : ℚ) < (Nat.sqrt q.num.toNat : ℚ) := by exact_mod_cast hs1
  have c2 : (0 : ℚ) < (Nat.sqrt q.den : ℚ) := by exact_mod_cast hs2
  exact div_pos c1 c2

end Engram

namespace Engram

/-! ## Concrete sample values and decidability for evaluation -/

instance {α : Type} (p : α → Prop) [DecidablePred p] (o : Option α) :
    Decidable (∀ a ∈ o, p a) :=
  match o with
  | none => isTrue (by simp)
  | some x => decidable_of_iff (p x) (by simp)

instance (e : Entity) : Decidable (goodEntity e) := by
  unfold goodEntity
  infer_instance

instance (l : Link) : Decidable (goodLink l) := by
  unfold goodLink
  infer_instance

instance (m : NodeMeta) : Decidable (goodNodeMeta m) := by
  unfold goodNodeMeta
  infer_instance

instance (n : MemoryNode) : Decidable (goodMemoryNode n) := by
  unfold goodMemoryNode
  infer_instance

instance (s : SchemaInfo) : Decidable (goodSchemaInfo s) := by
  unfold goodSchemaInfo
  infer_instance

instance (s : SecurityInfo) : Decidable (goodSecurityInfo s) := by
  unfold goodSecurityInfo
  infer_instance

instance (m : FileMeta) : Decidable (goodFileMeta m) := by
  unfold goodFileMeta
  infer_instance

instance (h : EngramHeader) : Decidable (goodHeader h) := by
  unfold goodHeader
  infer_instance

instance (f : EngramFile) : Decidable (goodFile f) := by
  unfold goodFile
  infer_instance

/-- Sample node. -/
def wNode : MemoryNode :=
  { id := gs "n1", content := gs "hello", embedding := [], tags := [gs "t"],
    entities := [], links := [], metadata := zeroNodeMeta, children := [],
    parentId := [] }

/-- Sample single-node file. -/
def wFile : EngramFile := { header := zeroHeader, nodes := [wNode] }

/-- Sample clock reading. -/
def wNow : GoStr := gs "2025-01-01T00:00:00Z"

/-- Header storing the digest of the payload `[0x90]` (the empty msgpack
node array) in uppercase hex. -/
def c2Header : EngramHeader :=
  { zeroHeader with
    security := { zeroSecurityInfo with integrity := hexUpper (sha256 [0x90]) } }

/-- `decodePayload` never reports a magic failure. -/
theorem decodePayload_ne_invalidMagic (p : Bytes) (hd : EngramHeader) :
    decodePayload p hd ≠ .error .invalidMagic := by
  unfold decodePayload
  rcases hx : parseArrayOf (parseMemoryNode (3 * p.length + 1)) p with _ | ⟨ns, r⟩ <;>
    simp

end Engram

namespace Engram

/-! ## The claims -/

/-- C1: round trip — for every well-formed file and clock reading,
decoding the encoding succeeds, its node sequence is exactly `f.nodes`,
and the decoded header's `nodeCount` is the number of nodes. -/
theorem C1_roundtrip (now : GoStr) (f : EngramFile) (hf : goodFile f) (hgn : goodStr now) :
    ∃ h : EngramHeader,
      decodeFile (encodeFile now f) = .ok ⟨h, f.nodes⟩ ∧
        h.nodeCount = (f.nodes.length : Int) := by
  refine ⟨updateHeader now f (hexLower (sha256 (encNodes f.nodes))),
    decode_encode now f hf hgn, ?_⟩
  simp [updateHeader]

set_option maxRecDepth 1000000 in
/-- C1 witness: the round trip evaluated on the sample file. -/
theorem C1_roundtrip_witness :
    ∃ h : EngramHeader,
      decodeFile (encodeFile wNow wFile) = .ok ⟨h, wFile.nodes⟩ ∧
        h.nodeCount = (wFile.nodes.length : Int) :=
  C1_roundtrip wNow wFile (by decide) (by decide)

set_option maxRecDepth 1000000 in
/-- C2 counterexample: the stored digest differs from the recomputed one
only by letter case, so a case-insensitive hex comparison accepts it, yet
`Decode` fails with `IntegrityFailed`: the code compares the digest
byte-for-byte against the lowercase hex rendering. -/
theorem C2_counterexample :
    asciiToLower c2Header.security.integrity = hexLower (sha256 [0x90])
    ∧ decodeFile (magicBytes ++ (encHeader c2Header ++ [0x90])) =
        .error .integrityFailed := by
  constructor
  · decide!
  · decide!

/-- C2 amended: the digest comparison is case-sensitive byte equality
against the lowercase hex rendering: whenever the stored digest is
non-empty and differs byte-for-byte from the lowercase recomputed digest
(even when it matches case-insensitively), `Decode` fails with
`IntegrityFailed` before interpreting the payload — which need not be
decodable at all. -/
theorem C2_amended (h : EngramHeader) (p : Bytes) (hg : goodHeader h)
    (hne : h.security.integrity ≠ [])
    (hmm : hexLower (sha256 p) ≠ h.security.integrity) :
    decodeFile (magicBytes ++ (encHeader h ++ p)) = .error .integrityFailed := by
  have hmag : ¬ ((magicBytes ++ (encHeader h ++ p)).length < 6 ∨
      (magicBytes ++ (encHeader h ++ p)).take 6 ≠ magicBytes) := by
    push_neg
    refine ⟨?_, take6_magic _⟩
    simp only [magicBytes, List.cons_append, List.nil_append, List.length_cons]
    omega
  unfold decodeFile
  rw [if_neg hmag, drop6_magic,
    parseHeader_enc (3 * (encHeader h ++ p).length + 1) h p hg (headerFuel h p)]
  dsimp only
  rw [if_pos hne, if_pos hmm]

set_option maxRecDepth 1000000 in
/-- C2 amended, witness: the uppercase-digest header is rejected. -/
theorem C2_amended_witness :
    decodeFile (magicBytes ++ (encHeader c2Header ++ [0x90])) =
      .error .integrityFailed :=
  C2_amended c2Header [0x90] (by decide!) (by decide!) (by decide!)

/-- C4: `Decode` fails with `InvalidMagic` exactly on inputs shorter than
6 bytes or whose first 6 bytes differ from `45 4E 47 52 41 4D`, and every
`Encode` output begins with that magic sequence. -/
theorem C4_magic (data : Bytes) (now : GoStr) (f : EngramFile) :
    (decodeFile data = .error .invalidMagic ↔
      data.length < 6 ∨ data.take 6 ≠ magicBytes)
    ∧ (encodeFile now f).take 6 = magicBytes := by
  constructor
  · constructor
    · intro h
      by_contra hc
      unfold decodeFile at h
      rw [if_neg hc] at h
      rcases hp : parseHeader (3 * (data.drop 6).length + 1) (data.drop 6)
        with _ | ⟨hd, pb⟩
      · rw [hp] at h
        dsimp only at h
        simp at h
      · rw [hp] at h
        dsimp only at h
        by_cases h1 : hd.security.integrity ≠ []
        · rw [if_pos h1] at h
          by_cases h2 : hexLower (sha256 pb) ≠ hd.security.integrity
          · rw [if_pos h2] at h
            simp at h
          · rw [if_neg h2] at h
            exact absurd h (decodePayload_ne_invalidMagic _ _)
        · rw [if_neg h1] at h
          exact absurd h (decodePayload_ne_invalidMagic _ _)
    · intro h
      unfold decodeFile
      rw [if_pos h]
  · show (magicBytes ++ _).take 6 = magicBytes
    exact take6_magic _

end Engram

namespace Engram

set_option maxRecDepth 1000000 in
/-- C5: streaming is not equivalent to whole-buffer decoding — on the
encoded sample file, `Decode` returns the node sequence, yet the very
first `StreamReader.Next` call fails with a decoding error (the payload
begins with the msgpack array header that wraps all nodes, while `Next`
expects a bare node record), so collecting the streamed records never
yields the decoded sequence. -/
theorem C5_stream_bug :
    (∃ e, decodeFile (encodeFile wNow wFile) = .ok e ∧ e.nodes = wFile.nodes)
    ∧ wFile.nodes ≠ []
    ∧ ∃ s, newStreamReader (encodeFile wNow wFile) = .ok s
        ∧ streamNext s = .error .decodingError := by
  refine ⟨⟨⟨updateHeader wNow wFile (hexLower (sha256 (encNodes wFile.nodes))),
      wFile.nodes⟩, decode_encode wNow wFile (by decide) (by decide), rfl⟩,
    by decide,
    ⟨⟨encNodes wFile.nodes,
      updateHeader wNow wFile (hexLower (sha256 (encNodes wFile.nodes))), 0⟩,
      by decide!, by decide!⟩⟩

/-- C6: `Encode` emits the magic, the rebuilt header and the payload;
the rebuilt header overwrites exactly `nodeCount`, `modified` and
`security.integrity`, defaults `created` and `version` only when they
were empty, and passes every other field through unchanged. -/
theorem C6_header_frame (now : GoStr) (f : EngramFile) :
    encodeFile now f = magicBytes
        ++ encHeader (updateHeader now f (hexLower (sha256 (encNodes f.nodes))))
        ++ encNodes f.nodes
    ∧ (updateHeader now f (hexLower (sha256 (encNodes f.nodes)))).nodeCount
        = (f.nodes.length : Int)
    ∧ (updateHeader now f (hexLower (sha256 (encNodes f.nodes)))).modified = now
    ∧ (updateHeader now f (hexLower (sha256 (encNodes f.nodes)))).security.integrity
        = hexLower (sha256 (encNodes f.nodes))
    ∧ (updateHeader now f (hexLower (sha256 (encNodes f.nodes)))).created
        = (if f.header.created = [] then now else f.header.created)
    ∧ (updateHeader now f (hexLower (sha256 (encNodes f.nodes)))).version
        = (if f.header.version = [] then gs "1.0" else f.header.version)
    ∧ (updateHeader now f (hexLower (sha256 (encNodes f.nodes)))).schema
        = f.header.schema
    ∧ (updateHeader now f (hexLower (sha256 (encNodes f.nodes)))).security.encryption
        = f.header.security.encryption
    ∧ (updateHeader now f (hexLower (sha256 (encNodes f.nodes)))).security.keyId
        = f.header.security.keyId
    ∧ (updateHeader now f (hexLower (sha256 (encNodes f.nodes)))).metadata
        = f.header.metadata := by
  refine ⟨?_, ?_, ?_, ?_, ?_, ?_, ?_, ?_, ?_, ?_⟩ <;>
    simp [encodeFile, updateHeader, List.append_assoc]

/-- C7: `VerifyIntegrity` is the full decode with its outcome remapped:
success becomes `true`, `IntegrityFailed` becomes `false` with no error,
and every other failure propagates unchanged. -/
theorem C7_verify (r : Except DErr Bytes) :
    (∀ x, readFileGo r = .ok x → verifyIntegrity r = .ok true)
    ∧ (readFileGo r = .error .integrityFailed → verifyIntegrity r = .ok false)
    ∧ (∀ e, e ≠ .integrityFailed → readFileGo r = .error e →
        verifyIntegrity r = .error e) := by
  refine ⟨?_, ?_, ?_⟩
  · intro x hx
    unfold verifyIntegrity
    rw [hx]
  · intro hx
    unfold verifyIntegrity
    rw [hx]
    dsimp only
    rw [if_pos rfl]
  · intro e he hx
    unfold verifyIntegrity
    rw [hx]
    dsimp only
    rw [if_neg he]

/-- C8: `cosineSimilarity` is fully guarded: a length mismatch or empty
input yields 0, and otherwise the result is either 0 (a zero norm was
detected) or a quotient whose divisor — the product of the root of two
strictly positive norms — is nonzero, so the division is never by zero. -/
theorem C8_cosine_guards (a b : List ℚ) :
    ((a.length ≠ b.length ∨ a.length = 0) → cosineSimilarity a b = 0)
    ∧ (cosineSimilarity a b = 0 ∨
        ∃ d nA nB : ℚ, 0 < nA ∧ 0 < nB ∧ ratSqrt nA * ratSqrt nB ≠ 0 ∧
          cosineSimilarity a b = d / (ratSqrt nA * ratSqrt nB)) := by
  constructor
  · intro h
    unfold cosineSimilarity
    rw [if_pos h]
  · unfold cosineSimilarity
    by_cases h1 : a.length ≠ b.length ∨ a.length = 0
    · rw [if_pos h1]
      exact Or.inl rfl
    · rw [if_neg h1]
      dsimp only
      set acc := (a.zip b).foldl
        (fun s p => (s.1 + p.1 * p.2, s.2.1 + p.1 * p.1, s.2.2 + p.2 * p.2))
        ((0 : ℚ), (0 : ℚ), (0 : ℚ)) with hacc
      by_cases h2 : acc.2.1 = 0 ∨ acc.2.2 = 0
      · rw [if_pos h2]
        exact Or.inl rfl
      · rw [if_neg h2]
        push_neg at h2
        have hnn := cosAcc_nonneg (a.zip b) ((0 : ℚ), (0 : ℚ), (0 : ℚ)) le_rfl le_rfl
        rw [← hacc] at hnn
        have hA : 0 < acc.2.1 := lt_of_le_of_ne hnn.1 (Ne.symm h2.1)
        have hB : 0 < acc.2.2 := lt_of_le_of_ne hnn.2 (Ne.symm h2.2)
        refine Or.inr ⟨acc.1, acc.2.1, acc.2.2, hA, hB, ?_, rfl⟩
        exact mul_ne_zero (ne_of_gt (ratSqrt_pos _ hA)) (ne_of_gt (ratSqrt_pos _ hB))

/-- C8 witness: both guard branches at concrete inputs. -/
theorem C8_cosine_guards_witness :
    cosineSimilarity [(1 : ℚ)] [] = 0 :=
  (C8_cosine_guards [(1 : ℚ)] []).1 (by decide)

/-- C9: with duplicate ids, `Get` returns the node at the greatest
original index with that id (later entries overwrite earlier ones in the
id table), while `Count` and `GetAll` still reflect every node. -/
theorem C9_duplicate_ids (ns : List MemoryNode) (id : GoStr) :
    Get (NewMemoryTree ns) id = ns.reverse.find? (fun n => n.id == id)
    ∧ Count (NewMemoryTree ns) = (ns.length : Int)
    ∧ GetAll (NewMemoryTree ns) = ns := by
  refine ⟨?_, ?_, ?_⟩
  · unfold Get NewMemoryTree
    rw [byID_fold]
    rcases hf : ns.reverse.find? (fun n => n.id == id) with _ | m <;> rw [hf] <;> rfl
  · unfold Count NewMemoryTree
    rw [fold_nodes]
  · unfold GetAll NewMemoryTree
    rw [fold_nodes]

/-- C10: a node carrying a tag `k` times appears `k` times in that tag's
bucket (appends are per occurrence, never deduplicated), `GetTags` lists
a tag exactly once — membership without duplicates — and a tag carried by
no node has an empty bucket. -/
theorem C10_tag_buckets (ns : List MemoryNode) (tag : GoStr) :
    GetByTag (NewMemoryTree ns) tag
      = (ns.map fun n => List.replicate (n.tags.count tag) n).flatten
    ∧ (tag ∈ GetTags (NewMemoryTree ns) ↔ ∃ n ∈ ns, tag ∈ n.tags)
    ∧ (GetTags (NewMemoryTree ns)).Nodup := by
  refine ⟨?_, ?_, ?_⟩
  · unfold GetByTag NewMemoryTree
    rw [byTag_fold]
    exact List.nil_append _
  · unfold GetTags NewMemoryTree
    rw [List.Perm.mem_iff (sortStrings_perm _), keys_byTag_fold_mem]
    simp
  · unfold GetTags NewMemoryTree
    exact (List.Perm.nodup_iff (sortStrings_perm _)).mpr
      (keys_byTag_fold_nodup ns _ (by simp))

end Engram
